import Mathlib

/-!
Verification development for the anonymous-credentials library
(crypto-wasm-ts): a shallow embedding of the credential-schema
pipeline (flattening, JSON-schema conversion, JSON round-trip), the
presentation builder's finalize, the composite proof-spec, and the
threshold-signer round state machine, together with theorems settling
the specification's claims about them.

JavaScript values that the code manipulates as plain JSON data are
modelled by the inductive type Json below.  JSON numbers are modelled
as scaled decimals m / 10^e (an exact representation of every numeric
literal appearing in schema documents); machine floating point plays
no role in the claims under study.
-/

namespace CWT

/-- JSON / plain JavaScript object values.  A number is `m / 10^e`
with integer mantissa `m` and decimal exponent `e`. -/
inductive Json where
  | null : Json
  | bool (b : Bool) : Json
  | num (m : Int) (e : Nat) : Json
  | str (s : String) : Json
  | arr (items : List Json) : Json
  | obj (fields : List (String × Json)) : Json

/-- Modelled from the spec: the string constants of
`types-and-consts.ts` (absent from the sources); the spec names the
reserved attribute names `cryptoVersion`, `credentialSchema`,
`credentialSubject`, `credentialStatus` and the mandatory status
leaves `id`, `type`, `revocationCheck`, `revocationId`. -/
def CRYPTO_VERSION_STR : String := "cryptoVersion"

def SCHEMA_STR : String := "credentialSchema"

def SUBJECT_STR : String := "credentialSubject"

def STATUS_STR : String := "credentialStatus"

def ID_STR : String := "id"

def TYPE_STR : String := "type"

def REV_CHECK_STR : String := "revocationCheck"

def REV_ID_STR : String := "revocationId"

/-- Modelled from the spec: the status check string meaning a
membership check (`revocationCheck` is "membership" or
"non-membership"). -/
def MEM_CHECK_STR : String := "membership"

/-- Lexicographic comparison of character lists by code point,
modelling the default JavaScript string comparison used by
`Array.prototype.sort`. -/
def charListLe : List Char → List Char → Bool
  | [], _ => true
  | _ :: _, [] => false
  | a :: as, b :: bs =>
    if a.toNat < b.toNat then true
    else if a.toNat = b.toNat then charListLe as bs
    else false

/-- String comparison used when sorting flattened attribute names. -/
def strLe (a b : String) : Bool := charListLe a.data b.data

/-- The order on flattened entries: compare the dotted names. -/
def entryLe (a b : String × Json) : Prop := strLe a.1 b.1 = true

instance : DecidableRel entryLe := fun a b => instDecidableEqBool (strLe a.1 b.1) true

/-- Dotted join of path segments, as the `flat` library produces. -/
def dotJoin : List String → String
  | [] => ""
  | [s] => s
  | s :: rest => s ++ "." ++ dotJoin rest

mutual

/-- Modelled from the spec: full flattening of a JSON object to
dotted scalar paths, as the `flat` npm library (a collaborator absent
from the sources) performs it: nested objects contribute
`parent.child` segments and arrays contribute zero-based numeric
index segments, in key order.  Paths are kept as segment lists; they
are joined with dots when names are formed. -/
def fullFlatten : Json → List (List String × Json)
  | .obj fields => fullFlattenFields fields
  | .arr items => fullFlattenItems 0 items
  | v => [([], v)]

def fullFlattenFields : List (String × Json) → List (List String × Json)
  | [] => []
  | (k, v) :: rest =>
    (fullFlatten v).map (fun p => (k :: p.1, p.2)) ++ fullFlattenFields rest

def fullFlattenItems : Nat → List Json → List (List String × Json)
  | _, [] => []
  | i, v :: rest =>
    (fullFlatten v).map (fun p => (toString i :: p.1, p.2)) ++ fullFlattenItems (i + 1) rest

end

/-- Insert one (group key, sub-key ↦ value) into the association list
of groups, extending an existing group in place or appending a new
group at the end, exactly as JavaScript object-key insertion does. -/
def groupInsert (gk : String) (kv : String × Json) :
    List (String × List (String × Json)) → List (String × List (String × Json))
  | [] => [(gk, [kv])]
  | (k, vs) :: rest =>
    if k = gk then (k, vs ++ [kv]) :: rest else (k, vs) :: groupInsert gk kv rest

/-- The group key of a fully flattened entry: the dotted path with
its last segment removed (`k.substring(0, k.lastIndexOf('.'))`), and
the sub-key is the last segment. -/
def groupKeyOf (p : List String × Json) : String := dotJoin p.1.dropLast

def subKeyOf (p : List String × Json) : String × Json := (p.1.getLastD "", p.2)

/-- Group fully flattened scalar entries by their path-minus-last
segment, in insertion order. -/
def groupTill2ndLast (entries : List (List String × Json)) :
    List (String × List (String × Json)) :=
  entries.foldl (fun acc p => groupInsert (groupKeyOf p) (subKeyOf p) acc) []

/-- Modelled from the spec: `flattenTill2ndLastKey` of `util.ts`
(absent from the sources).  Per the spec's flatten contract the names
are the dotted paths to each leaf's enclosing object, sorted in
lexicographic order of the full dotted paths, and the parallel value
list carries the reassembled leaf objects; the repository's
flattening tests pin this behaviour exactly. -/
def flattenTill2ndLastKey (o : Json) : List String × List Json :=
  let sorted := List.insertionSort entryLe
    ((groupTill2ndLast (fullFlatten o)).map (fun g => (g.1, Json.obj g.2)))
  (sorted.map (·.1), sorted.map (·.2))

/-- The two implicit schema fields `cryptoVersion` and
`credentialSchema`, both of string type (`CredentialSchema.IMPLICIT_FIELDS`). -/
def IMPLICIT_FIELDS : List (String × Json) :=
  [(CRYPTO_VERSION_STR, .obj [(TYPE_STR, .str "string")]),
   (SCHEMA_STR, .obj [(TYPE_STR, .str "string")])]

/-- Association-list lookup, modelling JavaScript property access. -/
def lookupStr (l : List (String × Json)) (k : String) : Option Json :=
  match l with
  | [] => none
  | (k', v) :: rest => if k' = k then some v else lookupStr rest k

/-- JavaScript object spread `{...a, ...b}`: keys of `a` in order
(with `b`'s value winning on a duplicate key), then the keys of `b`
not present in `a`. -/
def mergeSpread (a b : List (String × Json)) : List (String × Json) :=
  a.map (fun kv => (kv.1, (lookupStr b kv.1).getD kv.2)) ++
    b.filter (fun kv => (lookupStr a kv.1).isNone)

/-- `CredentialSchema.flattenSchemaObj`: flatten the internal schema
object with the two implicit fields spread in front
(`flattenTill2ndLastKey({ ...this.IMPLICIT_FIELDS, ...schema })`). -/
def flattenSchemaObj (schema : Json) : List String × List Json :=
  match schema with
  | .obj fields => flattenTill2ndLastKey (.obj (mergeSpread IMPLICIT_FIELDS fields))
  | v => flattenTill2ndLastKey v

/-- The fields of a small internal schema as in the repository's
flattening tests: a subject with a single string attribute. -/
def exampleFields1 : List (String × Json) :=
  [(SUBJECT_STR, .obj [("fname", .obj [(TYPE_STR, .str "string")])])]

/-- A small internal schema as in the repository's flattening tests:
a subject with a single string attribute. -/
def exampleSchema1 : Json := .obj exampleFields1

/-- An internal schema with a credential status, as in the
repository's flattening test for schema 4. -/
def exampleSchemaStatus : Json :=
  .obj [(SUBJECT_STR, .obj
          [("fname", .obj [(TYPE_STR, .str "string")]),
           ("score", .obj [(TYPE_STR, .str "integer"), ("minimum", .num (-100) 0)])]),
        (STATUS_STR, .obj
          [(ID_STR, .obj [(TYPE_STR, .str "string")]),
           (REV_CHECK_STR, .obj [(TYPE_STR, .str "string")]),
           (REV_ID_STR, .obj [(TYPE_STR, .str "string")])])]

/-- An internal schema whose subject is an array, as in the
repository's subject-as-array flattening test: item paths get
zero-based indices. -/
def exampleSchemaArray : Json :=
  .obj [(SUBJECT_STR, .arr
          [.obj [("name", .obj [(TYPE_STR, .str "string")])],
           .obj [("name", .obj [(TYPE_STR, .str "string")])]])]

/-- The foldl step of `groupTill2ndLast`. -/
def groupStep (acc : List (String × List (String × Json))) (p : List String × Json) :
    List (String × List (String × Json)) :=
  groupInsert (groupKeyOf p) (subKeyOf p) acc

/-! Conversion of a JSON-Schema document to the internal schema
(`CredentialSchema.convertToInternalSchemaObj` with
`parseIntegerType`, `parseNumberType`, `getDecimalPlaces`). -/
/-- `ISchemaParsingOpts` of `schema.ts`: schema parsing options. -/
structure ISchemaParsingOpts where
  useDefaults : Bool
  defaultMinimumInteger : Int
  defaultDecimalPlaces : Nat
deriving Repr, DecidableEq

/-- `DefaultSchemaParsingOpts`: strict parsing, default minimum
`-(2^32 - 1)`, zero default decimal places. -/
def DefaultSchemaParsingOpts : ISchemaParsingOpts :=
  { useDefaults := false, defaultMinimumInteger := -(2 ^ 32 - 1), defaultDecimalPlaces := 0 }

/-- The leaf type-name constants of `CredentialSchema`. -/
def STR_TYPE : String := "string"

def STR_REV_TYPE : String := "stringReversible"

def POSITIVE_INT_TYPE : String := "positiveInteger"

def INT_TYPE : String := "integer"

def POSITIVE_NUM_TYPE : String := "positiveDecimalNumber"

def NUM_TYPE : String := "decimalNumber"

/-- `CredentialSchema.JSON_SCHEMA_OVERRIDE_DEFS`: `$ref`s naming the
two known encryptable definitions are rewritten to reversible-string
leaves, compressed only for `encryptableCompString`. -/
def JSON_SCHEMA_OVERRIDE_DEFS : List (String × Json) :=
  [("#/definitions/encryptableString",
    .obj [(TYPE_STR, .str STR_REV_TYPE), ("compress", .bool false)]),
   ("#/definitions/encryptableCompString",
    .obj [(TYPE_STR, .str STR_REV_TYPE), ("compress", .bool true)])]

/-- The character for a decimal digit value below ten. -/
def digitChar (n : Nat) : Char := Char.ofNat (48 + n)

/-- Fueled most-significant-first decimal digit printer; the fuel
bounds the number of divisions by ten and `n` itself always
suffices. -/
def natToDigitsFuel : Nat → Nat → List Char → List Char
  | 0, _, acc => acc
  | fuel + 1, n, acc =>
    if n = 0 then acc else natToDigitsFuel fuel (n / 10) (digitChar (n % 10) :: acc)

/-- Decimal digits of a natural number, without leading zeros. -/
def natToDigits (n : Nat) : List Char :=
  if n = 0 then ['0'] else natToDigitsFuel n n []

/-- The digit block of the decimal rendering of `a / 10^e`: the
digits of `a`, zero-padded on the left to at least `e + 1` digits. -/
def paddedDigits (a e : Nat) : List Char :=
  if (natToDigits a).length ≤ e then
    List.replicate (e + 1 - (natToDigits a).length) '0' ++ natToDigits a
  else natToDigits a

/-- Positional decimal rendering of the exact decimal `m / 10^e`:
sign, integer digits and, when `e ≠ 0`, a point followed by exactly
`e` fractional digits - the positional branch of
`Number.prototype.toString`. -/
def numToString (m : Int) (e : Nat) : List Char :=
  (if m < 0 then ['-'] else []) ++
    (if e = 0 then paddedDigits m.natAbs e
     else (paddedDigits m.natAbs e).take ((paddedDigits m.natAbs e).length - e) ++
       '.' :: (paddedDigits m.natAbs e).drop ((paddedDigits m.natAbs e).length - e))

/-- The `0*1$` tail of the regular expression in `getDecimalPlaces`:
zero or more zeros then a one, anchored at the end; returns the
length of the match (the captured group). -/
def matchZerosOne : List Char → Option Nat
  | [] => none
  | c :: rest =>
    if c = '1' ∧ rest = [] then some 1
    else if c = '0' then (matchZerosOne rest).map (· + 1)
    else none

/-- The regular expression `^0?\.(0*1$)` of `getDecimalPlaces`: an
optional leading zero, a decimal point, then zeros ending in a one;
returns the captured group's length. -/
def matchDecimalRegex (cs : List Char) : Option Nat :=
  match (match cs with
         | c :: rest => if c = '0' then rest else cs
         | [] => cs) with
  | c :: rest => if c = '.' then matchZerosOne rest else none
  | [] => none

/-- Canonicalize the exact decimal `m / 10^e`: strip the factors of
ten shared by the significand and the scale, since the JavaScript
`Number` value itself keeps no trailing fractional zeros. -/
def stripZeros : Int → Nat → Int × Nat
  | m, 0 => (m, 0)
  | m, e + 1 => if m % 10 = 0 then stripZeros (m / 10) e else (m, e + 1)

/-- The mantissa of an exponential rendering: the first digit, then
a point and the remaining digits if there are any. -/
def expMantissa : List Char → List Char
  | [] => []
  | d :: ds => d :: (if ds = [] then [] else '.' :: ds)

/-- `Number::toString` (ECMA-262) on a canonical exact decimal
`m' / 10^e'`: writing `n` for the decimal-point position (digit count
of the significand minus the scale), positional notation exactly when
`-6 < n ≤ 21`, and exponential notation `d[.ddd]e±(n-1)` otherwise -
so for example `10^(-6)` renders `0.000001` but `10^(-7)` renders
`1e-7`. -/
def jsRenderCanonical (m' : Int) (e' : Nat) : List Char :=
  if m' = 0 then ['0']
  else if -6 < ((natToDigits m'.natAbs).length : Int) - (e' : Int) ∧
      ((natToDigits m'.natAbs).length : Int) - (e' : Int) ≤ 21 then
    numToString m' e'
  else
    (if m' < 0 then ['-'] else []) ++ expMantissa (natToDigits m'.natAbs) ++
      'e' :: (if ((natToDigits m'.natAbs).length : Int) - (e' : Int) - 1 < 0 then '-'
        else '+') ::
        natToDigits (((natToDigits m'.natAbs).length : Int) - (e' : Int) - 1).natAbs

/-- `Number.prototype.toString` on the exact decimal `m / 10^e`:
canonicalize, then render positionally or exponentially as ECMA-262
prescribes. -/
def jsNumToString (m : Int) (e : Nat) : List Char :=
  jsRenderCanonical (stripZeros m e).1 (stripZeros m e).2

/-- `CredentialSchema.getDecimalPlaces`: matches the
`Number.prototype.toString` rendering of the number against
`^0?\.(0*1$)` and returns the match's length, rejecting every other
number - in particular the exponential renderings of `10^(-k)` for
`k ≥ 7` never match. -/
def getDecimalPlaces (d : Json) : Except String Nat :=
  match d with
  | .num m e =>
    match matchDecimalRegex (jsNumToString m e) with
    | some k => pure k
    | none => throw "Needed a number with a decimal point like .1, .01, .001, etc"
  | _ => throw "Needed a number with a decimal point like .1, .01, .001, etc"

/-- The fields of a JSON object node; a primitive node has none. -/
def fieldsOfJson : Json → List (String × Json)
  | .obj fields => fields
  | _ => []

/-- The JavaScript comparison `x >= 0` on a JSON value: false for
anything but a number (NaN comparisons are false). -/
def jsonGe0 : Json → Bool
  | .num m _ => 0 ≤ m
  | _ => false

/-- `CredentialSchema.parseIntegerType`: under strict parsing a
missing `minimum` is an error; otherwise minimum at least zero gives
`positiveInteger` and a negative minimum gives `integer` carrying the
minimum. -/
def parseIntegerType (node : Json) (opts : ISchemaParsingOpts) (nodeName : String) :
    Except String Json :=
  if opts.useDefaults = false ∧ (lookupStr (fieldsOfJson node) "minimum").isNone then
    throw ("No minimum was provided for key " ++ nodeName)
  else
    let min := (lookupStr (fieldsOfJson node) "minimum").getD
      (.num opts.defaultMinimumInteger 0)
    if jsonGe0 min then pure (.obj [(TYPE_STR, .str POSITIVE_INT_TYPE)])
    else pure (.obj [(TYPE_STR, .str INT_TYPE), ("minimum", min)])

/-- `CredentialSchema.parseNumberType`: under strict parsing missing
`minimum` or `multipleOf` is an error; `multipleOf` determines the
decimal places through `getDecimalPlaces`, and the sign of the
minimum picks the positive or general decimal-number leaf. -/
def parseNumberType (node : Json) (opts : ISchemaParsingOpts) (nodeName : String) :
    Except String Json :=
  if opts.useDefaults = false ∧
      ((lookupStr (fieldsOfJson node) "minimum").isNone ∨
        (lookupStr (fieldsOfJson node) "multipleOf").isNone) then
    throw ("both minimum and multipleOf must be provided for key " ++ nodeName)
  else
    let min := (lookupStr (fieldsOfJson node) "minimum").getD
      (.num opts.defaultMinimumInteger 0)
    (match lookupStr (fieldsOfJson node) "multipleOf" with
      | some mo => getDecimalPlaces mo
      | none => pure opts.defaultDecimalPlaces).bind fun d =>
      if jsonGe0 min then
        pure (.obj [(TYPE_STR, .str POSITIVE_NUM_TYPE), ("decimalPlaces", .num d 0)])
      else
        pure (.obj [(TYPE_STR, .str NUM_TYPE), ("minimum", min), ("decimalPlaces", .num d 0)])

/-- Remove the first occurrence of a character, modelling the
single-replacement JavaScript call `ref.replace('#', '')`. -/
def removeFirstOcc (c : Char) : List Char → List Char
  | [] => []
  | x :: xs => if x = c then xs else x :: removeFirstOcc c xs

/-- Split a character list on a separator character. -/
def splitOnChar (c : Char) : List Char → List (List Char)
  | [] => [[]]
  | x :: xs =>
    if x = c then [] :: splitOnChar c xs
    else
      match splitOnChar c xs with
      | [] => [[x]]
      | g :: gs => (x :: g) :: gs

/-- The traversal of the `json-pointer` library's `get`: walk the
slash-separated segments from the root, through object fields and
array indices. -/
def jsonPointerWalk : Json → List String → Except String Json
  | v, [] => pure v
  | .obj fields, s :: rest =>
    match lookupStr fields s with
    | some v => jsonPointerWalk v rest
    | none => throw ("Invalid reference token: " ++ s)
  | .arr items, s :: rest =>
    match s.toNat? with
    | some i =>
      match items.get? i with
      | some v => jsonPointerWalk v rest
      | none => throw ("Invalid reference token: " ++ s)
    | none => throw ("Invalid reference token: " ++ s)
  | _, s :: _ => throw ("Invalid reference token: " ++ s)

/-- `pointer.get(rootNode, ref.replace('#', ''))`. -/
def jsonPointerGet (root : Json) (path : String) : Except String Json :=
  jsonPointerWalk root (((splitOnChar '/' path.data).drop 1).map String.mk)

/-- The truthy `$ref` property of a node, when present: a non-empty
string. -/
def refOf (node : Json) : Option String :=
  match lookupStr (fieldsOfJson node) "$ref" with
  | some (.str r) => if r = "" then none else some r
  | _ => none

/-- `createFullName` inside `convertToInternalSchemaObj`. -/
def createFullName (old neww : String) : String :=
  if old.length = 0 then neww else old ++ "." ++ neww

mutual

/-- `CredentialSchema.convertToInternalSchemaObj`: resolve a `$ref`
through the override table or a JSON pointer into the root document,
then dispatch on `type`: `string` returns the node, `integer` and
`number` go through the numeric parsers, `object` recurses into
`properties` and `array` maps the conversion over `items`.  The fuel
argument models the JavaScript call stack (a cyclic `$ref` chain
would not terminate); it strictly decreases on every nested call and
any value at least the recursion depth gives the code's behaviour. -/
def convertToInternalSchemaObj :
    Nat → Json → ISchemaParsingOpts → String → Option Json → Except String Json
  | 0, _, _, _, _ => throw "call stack exhausted"
  | fuel + 1, inputNode, parsingOpts, nodeKeyName, rootObject =>
    let rootNode := rootObject.getD inputNode
    match refOf inputNode with
    | some r =>
      match lookupStr JSON_SCHEMA_OVERRIDE_DEFS r with
      | some overrideRef => pure overrideRef
      | none =>
        match jsonPointerGet rootNode (String.mk (removeFirstOcc '#' r.data)) with
        | .ok node => convertResolvedNode fuel node parsingOpts nodeKeyName rootNode
        | .error e =>
          throw ("Error while getting pointer " ++ r ++ " in node name " ++ nodeKeyName ++
            ": " ++ e)
    | none => convertResolvedNode fuel inputNode parsingOpts nodeKeyName rootNode

/-- The body of `convertToInternalSchemaObj` after `$ref`
resolution: the `switch` on `node.type`. -/
def convertResolvedNode :
    Nat → Json → ISchemaParsingOpts → String → Json → Except String Json
  | 0, _, _, _, _ => throw "call stack exhausted"
  | fuel + 1, node, parsingOpts, nodeKeyName, rootNode =>
    match lookupStr (fieldsOfJson node) TYPE_STR with
    | some (.str "string") => pure node
    | some (.str "integer") => parseIntegerType node parsingOpts nodeKeyName
    | some (.str "number") => parseNumberType node parsingOpts nodeKeyName
    | some (.str "object") =>
      match lookupStr (fieldsOfJson node) "properties" with
      | some (.obj props) =>
        (convertFields fuel props parsingOpts nodeKeyName rootNode).map Json.obj
      | some _ => pure (.obj [])
      | none => throw ("Schema object key " ++ nodeKeyName ++ " must have properties object")
    | some (.str "array") =>
      match lookupStr (fieldsOfJson node) "items" with
      | some (.arr items) =>
        (convertItems fuel items parsingOpts nodeKeyName rootNode).map Json.arr
      | _ => throw ("Cannot map items of key " ++ nodeKeyName)
    | some _ => throw ("Unknown type for key " ++ nodeKeyName ++ " in schema")
    | none => throw ("Cannot parse node key " ++ nodeKeyName ++ " for JSON-schema syntax")

/-- Conversion of the entries of a `properties` object, preserving
key order; the first error propagates. -/
def convertFields :
    Nat → List (String × Json) → ISchemaParsingOpts → String → Json →
      Except String (List (String × Json))
  | 0, _, _, _, _ => throw "call stack exhausted"
  | _ + 1, [], _, _, _ => pure []
  | fuel + 1, (k, v) :: rest, parsingOpts, nodeKeyName, rootNode => do
    let cv ← convertToInternalSchemaObj fuel v parsingOpts
      (createFullName nodeKeyName k) (some rootNode)
    let crest ← convertFields fuel rest parsingOpts nodeKeyName rootNode
    pure ((k, cv) :: crest)

/-- Conversion of the `items` of an array node, in order, producing
the indexed sub-schemas; the name passed down stringifies the item
object, as the template literal in the source does. -/
def convertItems :
    Nat → List Json → ISchemaParsingOpts → String → Json → Except String (List Json)
  | 0, _, _, _, _ => throw "call stack exhausted"
  | _ + 1, [], _, _, _ => pure []
  | fuel + 1, v :: rest, parsingOpts, nodeKeyName, rootNode => do
    let cv ← convertToInternalSchemaObj fuel v parsingOpts
      (createFullName nodeKeyName "[object Object]") (some rootNode)
    let crest ← convertItems fuel rest parsingOpts nodeKeyName rootNode
    pure (cv :: crest)

end

/-- Proof-side companion of the fueled digit printer: digits of `n`,
most significant first. -/
def natDigitsSpec (n : Nat) : List Char :=
  if h : n < 10 then [digitChar n]
  else natDigitsSpec (n / 10) ++ [digitChar (n % 10)]
decreasing_by exact Nat.div_lt_self (by omega) (by omega)

/-! JSON serialisation (`JSON.stringify` / `JSON.parse`) and
percent-encoding (`encodeURIComponent` / `decodeURIComponent`), the
host-platform collaborators behind `CredentialSchema.toJSON` and
`CredentialSchema.extractJsonSchemaFromEmbedded`. -/
/-- The numeric value of a digit string, most significant first. -/
def charsToNat (cs : List Char) : Nat :=
  cs.foldl (fun a c => a * 10 + (c.toNat - 48)) 0

/-- Lowercase hexadecimal digit, as in the `\u00..` escapes of
`JSON.stringify`. -/
def hexLower (n : Nat) : Char :=
  if n < 10 then digitChar n else Char.ofNat (97 + (n - 10))

/-- Uppercase hexadecimal digit, as in the `%XX` escapes of
`encodeURIComponent`. -/
def hexUpper (n : Nat) : Char :=
  if n < 10 then digitChar n else Char.ofNat (65 + (n - 10))

/-- The opening brace character, kept out of string literals. -/
def lbrace : Char := Char.ofNat 123

/-- The closing brace character, kept out of string literals. -/
def rbrace : Char := Char.ofNat 125

/-- `JSON.stringify` escaping of one string character: quote,
backslash and the named control escapes, `\u00XX` for the remaining
control characters, and every other character unchanged. -/
def escapeChar (c : Char) : List Char :=
  if c = '"' then ['\\', '"']
  else if c = '\\' then ['\\', '\\']
  else if c = Char.ofNat 8 then ['\\', 'b']
  else if c = Char.ofNat 12 then ['\\', 'f']
  else if c = Char.ofNat 10 then ['\\', 'n']
  else if c = Char.ofNat 13 then ['\\', 'r']
  else if c = Char.ofNat 9 then ['\\', 't']
  else if c.toNat < 32 then
    ['\\', 'u', '0', '0', hexLower (c.toNat / 16), hexLower (c.toNat % 16)]
  else [c]

/-- Escape a whole character list. -/
def escJ (cs : List Char) : List Char := cs.flatMap escapeChar

/-- A JSON string literal: quote, escaped content, quote. -/
def printJString (s : String) : List Char := '"' :: escJ s.data ++ ['"']

mutual

/-- `JSON.stringify` (no whitespace, keys in object order). -/
def printJson : Json → List Char
  | .null => "null".data
  | .bool true => "true".data
  | .bool false => "false".data
  | .num m e => numToString m e
  | .str s => printJString s
  | .arr items => '[' :: printItemsJ items ++ [']']
  | .obj fields => lbrace :: printFieldsJ fields ++ [rbrace]

def printItemsJ : List Json → List Char
  | [] => []
  | [v] => printJson v
  | v :: rest => printJson v ++ ',' :: printItemsJ rest

def printFieldsJ : List (String × Json) → List Char
  | [] => []
  | [(k, v)] => printJString k ++ ':' :: printJson v
  | (k, v) :: rest => printJString k ++ ':' :: printJson v ++ ',' :: printFieldsJ rest

end

/-- `JSON.stringify` as a string-valued function. -/
def jsonStringify (v : Json) : String := String.mk (printJson v)

/-- The numeric value of a hexadecimal digit character, either
case. -/
def parseHexDigit (c : Char) : Option Nat :=
  if 48 ≤ c.toNat ∧ c.toNat ≤ 57 then some (c.toNat - 48)
  else if 97 ≤ c.toNat ∧ c.toNat ≤ 102 then some (c.toNat - 97 + 10)
  else if 65 ≤ c.toNat ∧ c.toNat ≤ 70 then some (c.toNat - 65 + 10)
  else none

/-- Parse the body of a JSON string literal after the opening quote,
undoing the escapes; returns the content and the remainder after the
closing quote. -/
def parseJStringAux : Nat → List Char → Option (List Char × List Char)
  | 0, _ => none
  | _ + 1, [] => none
  | fuel + 1, c :: rest =>
    if c = '"' then some ([], rest)
    else if c = '\\' then
      match rest with
      | [] => none
      | e :: rest2 =>
        if e = '"' then (parseJStringAux fuel rest2).map (fun p => ('"' :: p.1, p.2))
        else if e = '\\' then (parseJStringAux fuel rest2).map (fun p => ('\\' :: p.1, p.2))
        else if e = '/' then (parseJStringAux fuel rest2).map (fun p => ('/' :: p.1, p.2))
        else if e = 'b' then
          (parseJStringAux fuel rest2).map (fun p => (Char.ofNat 8 :: p.1, p.2))
        else if e = 'f' then
          (parseJStringAux fuel rest2).map (fun p => (Char.ofNat 12 :: p.1, p.2))
        else if e = 'n' then
          (parseJStringAux fuel rest2).map (fun p => (Char.ofNat 10 :: p.1, p.2))
        else if e = 'r' then
          (parseJStringAux fuel rest2).map (fun p => (Char.ofNat 13 :: p.1, p.2))
        else if e = 't' then
          (parseJStringAux fuel rest2).map (fun p => (Char.ofNat 9 :: p.1, p.2))
        else if e = 'u' then
          match rest2 with
          | h1 :: h2 :: h3 :: h4 :: rest3 =>
            match parseHexDigit h1, parseHexDigit h2, parseHexDigit h3, parseHexDigit h4 with
            | some a, some b, some c2, some d =>
              (parseJStringAux fuel rest3).map
                (fun p => (Char.ofNat (a * 4096 + b * 256 + c2 * 16 + d) :: p.1, p.2))
            | _, _, _, _ => none
          | _ => none
        else none
    else (parseJStringAux fuel rest).map (fun p => (c :: p.1, p.2))

/-- Is the character a decimal digit. -/
def isDigitCh (c : Char) : Bool := 48 ≤ c.toNat ∧ c.toNat ≤ 57

/-- Split the longest digit run off the front of the list. -/
def spanDigits : List Char → List Char × List Char
  | [] => ([], [])
  | c :: rest =>
    if isDigitCh c then
      ((spanDigits rest).1.cons c, (spanDigits rest).2)
    else ([], c :: rest)

/-- The signed integer from a sign flag and magnitude. -/
def intOfParts (neg : Bool) (n : Nat) : Int := if neg then -(n : Int) else (n : Int)

/-- Parse digits and an optional fraction after the sign has been
consumed. -/
def parseNumberCore (neg : Bool) (cs1 : List Char) : Option ((Int × Nat) × List Char) :=
  let ip := (spanDigits cs1).1
  let r1 := (spanDigits cs1).2
  if ip = [] then none
  else
    match r1 with
    | c :: r2 =>
      if c = '.' then
        let fp := (spanDigits r2).1
        let r3 := (spanDigits r2).2
        if fp = [] then none
        else some ((intOfParts neg (charsToNat (ip ++ fp)), fp.length), r3)
      else some ((intOfParts neg (charsToNat ip), 0), r1)
    | [] => some ((intOfParts neg (charsToNat ip), 0), r1)

/-- Parse a JSON number literal (optional minus, integer digits,
optional fraction) into the scaled-decimal representation. -/
def parseNumberJ (cs : List Char) : Option ((Int × Nat) × List Char) :=
  match cs with
  | c :: rest => if c = '-' then parseNumberCore true rest else parseNumberCore false cs
  | [] => parseNumberCore false cs

mutual

/-- `JSON.parse` on whitespace-free input (which is all
`JSON.stringify` produces), fueled by the nesting depth. -/
def parseJsonF : Nat → List Char → Option (Json × List Char)
  | 0, _ => none
  | fuel + 1, cs =>
    match cs with
    | [] => none
    | c :: rest =>
      if c = 'n' then
        match rest with
        | 'u' :: 'l' :: 'l' :: r => some (.null, r)
        | _ => none
      else if c = 't' then
        match rest with
        | 'r' :: 'u' :: 'e' :: r => some (.bool true, r)
        | _ => none
      else if c = 'f' then
        match rest with
        | 'a' :: 'l' :: 's' :: 'e' :: r => some (.bool false, r)
        | _ => none
      else if c = '"' then
        (parseJStringAux (rest.length + 1) rest).map (fun p => (.str (String.mk p.1), p.2))
      else if c = '[' then
        match rest with
        | r0 :: r2 =>
          if r0 = ']' then some (.arr [], r2)
          else (parseItemsF fuel (r0 :: r2)).map (fun p => (.arr p.1, p.2))
        | [] => none
      else if c = lbrace then
        match rest with
        | r0 :: r2 =>
          if r0 = rbrace then some (.obj [], r2)
          else (parseFieldsF fuel rest).map (fun p => (.obj p.1, p.2))
        | [] => none
      else (parseNumberJ cs).map (fun p => (.num p.1.1 p.1.2, p.2))

def parseItemsF : Nat → List Char → Option (List Json × List Char)
  | 0, _ => none
  | fuel + 1, cs =>
    match parseJsonF fuel cs with
    | none => none
    | some (v, r1) =>
      match r1 with
      | r10 :: r2 =>
        if r10 = ']' then some ([v], r2)
        else if r10 = ',' then (parseItemsF fuel r2).map (fun p => (v :: p.1, p.2))
        else none
      | [] => none

def parseFieldsF : Nat → List Char → Option (List (String × Json) × List Char)
  | 0, _ => none
  | _ + 1, [] => none
  | fuel + 1, c :: rest =>
    if c = '"' then
      match parseJStringAux (rest.length + 1) rest with
      | none => none
      | some (k, r1) =>
        match r1 with
        | ':' :: r2 =>
          match parseJsonF fuel r2 with
          | none => none
          | some (v, r3) =>
            match r3 with
            | r30 :: r4 =>
              if r30 = ',' then
                (parseFieldsF fuel r4).map (fun p => ((String.mk k, v) :: p.1, p.2))
              else if r30 = rbrace then some ([(String.mk k, v)], r4)
              else none
            | [] => none
        | _ => none
    else none

end

/-- `JSON.parse` requiring the whole input to be consumed. -/
def jsonParse (s : String) : Option Json :=
  match parseJsonF (s.data.length + 1) s.data with
  | some (v, []) => some v
  | _ => none

/-- The digit-and-point block of `numToString`, without the sign. -/
def numBodyChars (a e : Nat) : List Char :=
  if e = 0 then paddedDigits a e
  else (paddedDigits a e).take ((paddedDigits a e).length - e) ++
    '.' :: (paddedDigits a e).drop ((paddedDigits a e).length - e)

mutual

/-- Fuel sufficient for `parseJsonF` to parse the printed form of a
value. -/
def jfuel : Json → Nat
  | .null => 1
  | .bool _ => 1
  | .num _ _ => 1
  | .str _ => 1
  | .arr items => 1 + jfuelItems items
  | .obj fields => 1 + jfuelFields fields

def jfuelItems : List Json → Nat
  | [] => 0
  | v :: rest => 1 + max (jfuel v) (jfuelItems rest)

def jfuelFields : List (String × Json) → Nat
  | [] => 0
  | (_, v) :: rest => 1 + max (jfuel v) (jfuelFields rest)

end

/-- A list after a number literal must not begin with a digit or a
point, so the number parser stops at the boundary. -/
def numStopper (rest : List Char) : Prop :=
  ∀ c t, rest = c :: t → isDigitCh c = false ∧ ¬(c = '.')

/-- The characters `encodeURIComponent` leaves unescaped: ASCII
letters, digits and the marks `-_.!~*()` and the apostrophe. -/
def isUnreservedURI (c : Char) : Bool :=
  (65 ≤ c.toNat ∧ c.toNat ≤ 90) ∨ (97 ≤ c.toNat ∧ c.toNat ≤ 122) ∨
    (48 ≤ c.toNat ∧ c.toNat ≤ 57) ∨ c = '-' ∨ c = '_' ∨ c = '.' ∨ c = '!' ∨
    c = '~' ∨ c = '*' ∨ c = Char.ofNat 39 ∨ c = '(' ∨ c = ')'

/-- The UTF-8 bytes of a character. -/
def utf8Bytes (c : Char) : List Nat :=
  let n := c.toNat
  if n < 128 then [n]
  else if n < 2048 then [192 + n / 64, 128 + n % 64]
  else if n < 65536 then [224 + n / 4096, 128 + (n / 64) % 64, 128 + n % 64]
  else [240 + n / 262144, 128 + (n / 4096) % 64, 128 + (n / 64) % 64, 128 + n % 64]

/-- A percent-escape `%XX` with uppercase hex digits, as
`encodeURIComponent` produces. -/
def pctByte (b : Nat) : List Char := ['%', hexUpper (b / 16), hexUpper (b % 16)]

/-- `encodeURIComponent` on a character list: unreserved characters
pass through, every other character becomes the percent-escapes of
its UTF-8 bytes. -/
def encodeURIComponentL (cs : List Char) : List Char :=
  cs.flatMap fun c => if isUnreservedURI c then [c] else (utf8Bytes c).flatMap pctByte

/-- `decodeURIComponent`: undo percent-escapes, reassembling UTF-8
sequences; `none` models the `URIError` thrown on malformed input.
The fuel argument is only a termination device: every step consumes
at least one input character, so input length plus one is always
enough. -/
def decodePct : Nat → List Char → Option (List Char)
  | 0, _ => none
  | _ + 1, [] => some []
  | fuel + 1, c :: rest =>
    if c = '%' then
      match rest with
      | h1 :: h2 :: rest2 =>
        match parseHexDigit h1, parseHexDigit h2 with
        | some a, some b =>
          let byte := a * 16 + b
          if byte < 128 then (decodePct fuel rest2).map (fun l => Char.ofNat byte :: l)
          else if 192 ≤ byte ∧ byte < 224 then
            match rest2 with
            | p2 :: h3 :: h4 :: rest3 =>
              if p2 = '%' then
                match parseHexDigit h3, parseHexDigit h4 with
                | some a2, some b2 =>
                  let byte2 := a2 * 16 + b2
                  if 128 ≤ byte2 ∧ byte2 < 192 then
                    (decodePct fuel rest3).map
                      (fun l => Char.ofNat ((byte - 192) * 64 + (byte2 - 128)) :: l)
                  else none
                | _, _ => none
              else none
            | _ => none
          else if 224 ≤ byte ∧ byte < 240 then
            match rest2 with
            | p2 :: h3 :: h4 :: p3 :: h5 :: h6 :: rest3 =>
              if p2 = '%' ∧ p3 = '%' then
                match parseHexDigit h3, parseHexDigit h4, parseHexDigit h5,
                  parseHexDigit h6 with
                | some a2, some b2, some a3, some b3 =>
                  let byte2 := a2 * 16 + b2
                  let byte3 := a3 * 16 + b3
                  if 128 ≤ byte2 ∧ byte2 < 192 ∧ 128 ≤ byte3 ∧ byte3 < 192 then
                    (decodePct fuel rest3).map
                      (fun l => Char.ofNat ((byte - 224) * 4096 + (byte2 - 128) * 64 +
                        (byte3 - 128)) :: l)
                  else none
                | _, _, _, _ => none
              else none
            | _ => none
          else if 240 ≤ byte ∧ byte < 248 then
            match rest2 with
            | p2 :: h3 :: h4 :: p3 :: h5 :: h6 :: p4 :: h7 :: h8 :: rest3 =>
              if p2 = '%' ∧ p3 = '%' ∧ p4 = '%' then
                match parseHexDigit h3, parseHexDigit h4, parseHexDigit h5,
                  parseHexDigit h6, parseHexDigit h7, parseHexDigit h8 with
                | some a2, some b2, some a3, some b3, some a4, some b4 =>
                  let byte2 := a2 * 16 + b2
                  let byte3 := a3 * 16 + b3
                  let byte4 := a4 * 16 + b4
                  if 128 ≤ byte2 ∧ byte2 < 192 ∧ 128 ≤ byte3 ∧ byte3 < 192 ∧
                      128 ≤ byte4 ∧ byte4 < 192 then
                    (decodePct fuel rest3).map
                      (fun l => Char.ofNat ((byte - 240) * 262144 + (byte2 - 128) * 4096 +
                        (byte3 - 128) * 64 + (byte4 - 128)) :: l)
                  else none
                | _, _, _, _, _, _ => none
              else none
            | _ => none
          else none
        | _, _ => none
      | _ => none
    else (decodePct fuel rest).map (fun l => c :: l)

/-- The JavaScript `.replace(new RegExp to match CR-optional LF, 'g'), ''`
pass of `extractJsonSchemaFromEmbedded`: every line feed is removed,
a carriage return only together with an immediately following line
feed. -/
def stripNewlines : List Char → List Char
  | [] => []
  | [c] => if c = Char.ofNat 10 then [] else [c]
  | c :: c2 :: rest =>
    if c = Char.ofNat 10 then stripNewlines (c2 :: rest)
    else if c = Char.ofNat 13 ∧ c2 = Char.ofNat 10 then stripNewlines rest
    else c :: stripNewlines (c2 :: rest)

/-- `indexOf(',')` plus the two `substring` calls: the part before
the first comma and the part after it. -/
def splitAtFirstComma : List Char → Option (List Char × List Char)
  | [] => none
  | c :: rest =>
    if c = ',' then some ([], rest)
    else (splitAtFirstComma rest).map (fun p => (c :: p.1, p.2))

/-- JavaScript truthiness of a JSON value, used by the `!schema[fieldName]`
test of `validateStringType`. -/
def jsFalsy : Json → Bool
  | .null => true
  | .bool b => !b
  | .num m _ => m = 0
  | .str s => s = ""
  | _ => false

/-- Whether `typeof v` is the string `object` in JavaScript: objects,
arrays and `null`. -/
def jsTypeofIsObject : Json → Bool
  | .obj _ => true
  | .arr _ => true
  | .null => true
  | _ => false

/-- `Number.isInteger` on a scaled decimal `m / 10^e`. -/
def jsonIsInteger : Json → Bool
  | .num m e => m % ((10 : Int) ^ e) = 0
  | _ => false

/-- Modelled from the spec: `isPositiveInteger` lives in `util.ts`,
which is absent from the sources; a positive integer is an integer
that is at least zero. -/
def isPositiveIntegerJ : Json → Bool
  | .num m e => m % ((10 : Int) ^ e) = 0 ∧ 0 ≤ m
  | _ => false

/-- `CredentialSchema.POSSIBLE_TYPES`. -/
def POSSIBLE_TYPES : List String :=
  [STR_TYPE, STR_REV_TYPE, POSITIVE_INT_TYPE, INT_TYPE, POSITIVE_NUM_TYPE, NUM_TYPE]

/-- `CredentialSchema.IGNORE_GENERIC_VALIDATION`. -/
def IGNORE_GENERIC_VALIDATION : List String :=
  [CRYPTO_VERSION_STR, SCHEMA_STR, STATUS_STR ++ "." ++ ID_STR,
    STATUS_STR ++ "." ++ REV_CHECK_STR, STATUS_STR ++ "." ++ REV_ID_STR]

/-- `CredentialSchema.validateStringType`: the field must be present,
truthy and carry `type: string`. -/
def validateStringType (schema : Json) (fieldName : String) : Except String Unit :=
  match lookupStr (fieldsOfJson schema) fieldName with
  | some v =>
    if jsFalsy v then
      throw ("Schema should contain a top level key " ++ fieldName ++
        " and its type must be string")
    else
      match lookupStr (fieldsOfJson v) TYPE_STR with
      | some (.str "string") => pure ()
      | _ =>
        throw ("Schema should contain a top level key " ++ fieldName ++
          " and its type must be string")
  | none =>
    throw ("Schema should contain a top level key " ++ fieldName ++
      " and its type must be string")

/-- The loop body of `CredentialSchema.validateGeneric` over the
flattened name/value pairs. -/
def validateGenericEntries : List (String × Json) → List String → Except String Unit
  | [], _ => pure ()
  | (nm, value) :: rest, ignoreKeys =>
    if ignoreKeys.contains nm then validateGenericEntries rest ignoreKeys
    else if jsTypeofIsObject value = false then
      throw ("Schema value for " ++ nm ++ " should have been an object type")
    else
      match lookupStr (fieldsOfJson value) TYPE_STR with
      | none => throw ("Schema value for " ++ nm ++ " should have a type field")
      | some t =>
        match t with
        | .str ty =>
          if POSSIBLE_TYPES.contains ty then
            ((if ty = STR_REV_TYPE then
              match lookupStr (fieldsOfJson value) "compress" with
              | some (.bool _) => pure ()
              | _ => throw ("Schema value for " ++ nm ++ " expected boolean")
            else if ty = INT_TYPE then
              match lookupStr (fieldsOfJson value) "minimum" with
              | some mv =>
                if jsonIsInteger mv then pure ()
                else throw ("Schema value for " ++ nm ++ " expected integer")
              | none => throw ("Schema value for " ++ nm ++ " expected integer")
            else if ty = POSITIVE_NUM_TYPE then
              match lookupStr (fieldsOfJson value) "decimalPlaces" with
              | some dv =>
                if isPositiveIntegerJ dv then pure ()
                else
                  throw ("Schema value for " ++ nm ++
                    " expected maximum decimal places as a positive integer")
              | none =>
                throw ("Schema value for " ++ nm ++
                  " expected maximum decimal places as a positive integer")
            else if ty = NUM_TYPE then
              match lookupStr (fieldsOfJson value) "minimum",
                lookupStr (fieldsOfJson value) "decimalPlaces" with
              | some mv, some dv =>
                if jsonIsInteger mv ∧ isPositiveIntegerJ dv then pure ()
                else
                  throw ("Schema value for " ++ nm ++
                    " expected an integer as a minimum value and maximum decimal places " ++
                    "as a positive integer")
              | _, _ =>
                throw ("Schema value for " ++ nm ++
                  " expected an integer as a minimum value and maximum decimal places " ++
                  "as a positive integer")
            else pure () : Except String Unit)).bind fun _ =>
              validateGenericEntries rest ignoreKeys
          else throw ("Schema value for " ++ nm ++ " had an unknown type field " ++ ty)
        | _ => throw ("Schema value for " ++ nm ++ " had an unknown type field")

/-- `CredentialSchema.validate` on the internal schema object. -/
def validateSchema (schema : Json) : Except String Unit :=
  match lookupStr (fieldsOfJson schema) SUBJECT_STR with
  | none => throw ("Schema properties did not contain top level key " ++ SUBJECT_STR)
  | some _ =>
    (match lookupStr (fieldsOfJson schema) STATUS_STR with
     | some st =>
       (validateStringType st TYPE_STR).bind fun _ =>
       (validateStringType st ID_STR).bind fun _ =>
       (validateStringType st REV_CHECK_STR).bind fun _ =>
       validateStringType st REV_ID_STR
     | none => pure ()).bind fun _ =>
      validateGenericEntries
        ((flattenSchemaObj schema).1.zip (flattenSchemaObj schema).2)
        IGNORE_GENERIC_VALIDATION

mutual

/-- A structural size of a JSON document, used to pick a call-stack
fuel for `convertToInternalSchemaObj` that depends only on the
document. -/
def jsonSize : Json → Nat
  | .obj fields => 1 + jsonSizeFields fields
  | .arr items => 1 + jsonSizeItems items
  | _ => 1

def jsonSizeItems : List Json → Nat
  | [] => 0
  | v :: rest => 1 + jsonSize v + jsonSizeItems rest

def jsonSizeFields : List (String × Json) → Nat
  | [] => 0
  | (_, v) :: rest => 1 + jsonSize v + jsonSizeFields rest

end

/-- A `Partial<ISchemaParsingOpts>`: each option may be absent. -/
structure PartialSchemaParsingOpts where
  useDefaults : Option Bool
  defaultMinimumInteger : Option Int
  defaultDecimalPlaces : Option Nat
deriving Repr, DecidableEq

/-- The constructor's spread `{...DefaultSchemaParsingOpts, ...parsingOpts}`. -/
def mergeParsingOpts (p : PartialSchemaParsingOpts) : ISchemaParsingOpts :=
  { useDefaults := p.useDefaults.getD DefaultSchemaParsingOpts.useDefaults,
    defaultMinimumInteger :=
      p.defaultMinimumInteger.getD DefaultSchemaParsingOpts.defaultMinimumInteger,
    defaultDecimalPlaces :=
      p.defaultDecimalPlaces.getD DefaultSchemaParsingOpts.defaultDecimalPlaces }

/-- `CredentialSchema.VERSION`. -/
def CS_VERSION : String := "0.0.1"

/-- `SCHEMA_TYPE_STR` of `types-and-consts.ts`, as the spec and the
schema `type` field give it. -/
def SCHEMA_TYPE_STR : String := "JsonSchemaValidator2018"

/-- The observable state of a `CredentialSchema` instance: the
converted internal schema, the original JSON schema, the merged
parsing options and the version string. -/
structure CredentialSchema where
  schema : Json
  jsonSchema : Json
  parsingOptions : ISchemaParsingOpts
  version : String

/-- The `CredentialSchema` constructor: merge the parsing options
over the defaults, convert the JSON schema to the internal
representation, validate it, and store both representations with the
options and the class version.  The conversion fuel is a function of
the document alone, so re-running the constructor on the same inputs
is the same computation. -/
def newCredentialSchema (jsonSchema : Json) (parsingOpts : PartialSchemaParsingOpts) :
    Except String CredentialSchema :=
  let pOpts := mergeParsingOpts parsingOpts
  (convertToInternalSchemaObj (3 * jsonSize jsonSchema + 3) jsonSchema pOpts "" none).bind
    fun schema =>
      (validateSchema schema).map fun _ =>
        { schema := schema, jsonSchema := jsonSchema, parsingOptions := pOpts,
          version := CS_VERSION }

/-- The JSON rendering of the parsing options, as `JSON.stringify`
and `toJSON` see the plain object. -/
def parsingOptsToJson (o : ISchemaParsingOpts) : Json :=
  .obj [("useDefaults", .bool o.useDefaults),
        ("defaultMinimumInteger", .num o.defaultMinimumInteger 0),
        ("defaultDecimalPlaces", .num (o.defaultDecimalPlaces : Int) 0)]

/-- Reading parsing options back from their JSON form; a missing or
differently-typed field counts as absent, matching how the typed
model receives the untyped spread object. -/
def jsonToPartialOpts (j : Json) : PartialSchemaParsingOpts :=
  { useDefaults :=
      match lookupStr (fieldsOfJson j) "useDefaults" with
      | some (.bool b) => some b
      | _ => none,
    defaultMinimumInteger :=
      match lookupStr (fieldsOfJson j) "defaultMinimumInteger" with
      | some (.num m 0) => some m
      | _ => none,
    defaultDecimalPlaces :=
      match lookupStr (fieldsOfJson j) "defaultDecimalPlaces" with
      | some (.num m 0) => some m.toNat
      | _ => none }

/-- `CredentialSchema.extractJsonSchemaFromEmbedded`: require a
`data:` URI, strip newlines, split at the first comma, check the
media type is `application/json` and not base64, percent-decode the
data portion and parse it as JSON. -/
def extractJsonSchemaFromEmbedded (embedded : String) : Except String Json :=
  if embedded.data.take 5 = "data:".data then
    match splitAtFirstComma (stripNewlines embedded.data) with
    | none => throw "Schema is a malformed data URI"
    | some (pre, post) =>
      let meta := splitOnChar ';' (pre.drop 5)
      if meta.head? = some "application/json".data then
        if meta.contains "base64".data then
          throw "Base64 embedded JSON is not yet supported"
        else
          match decodePct (post.length + 1) post with
          | none => throw "URIError: URI malformed"
          | some dataStr =>
            match jsonParse (String.mk dataStr) with
            | some v => pure v
            | none => throw "Unexpected token in JSON"
      else throw "Expected media type application/json"
  else throw "Embedded schema must be a data URI"

/-- `CredentialSchema.toJSON`: the data-URI embedding of the JSON
schema, the fixed schema type, the parsing options and the version. -/
def schemaToJSON (cs : CredentialSchema) : Json :=
  .obj [(ID_STR, .str (String.mk ("data:application/json;,".data ++
          encodeURIComponentL (printJson cs.jsonSchema)))),
        (TYPE_STR, .str SCHEMA_TYPE_STR),
        ("parsingOptions", parsingOptsToJson cs.parsingOptions),
        ("version", .str cs.version)]

/-- `CredentialSchema.fromJSON`: check the type tag, extract the
embedded JSON schema from the `id` data URI, re-run the constructor
with the supplied parsing options, and overwrite the version with
the serialized one. -/
def schemaFromJSON (j : Json) : Except String CredentialSchema :=
  match lookupStr (fieldsOfJson j) TYPE_STR with
  | some (.str t) =>
    if t = SCHEMA_TYPE_STR then
      match lookupStr (fieldsOfJson j) ID_STR with
      | some (.str em) =>
        (extractJsonSchemaFromEmbedded em).bind fun jsonSchema =>
          (newCredentialSchema jsonSchema
            (jsonToPartialOpts ((lookupStr (fieldsOfJson j) "parsingOptions").getD .null))
            ).bind fun cs =>
            match lookupStr (fieldsOfJson j) "version" with
            | some (.str ver) => pure { cs with version := ver }
            | _ => throw "Schema version must be a string"
      | _ => throw "Embedded schema must be a data URI"
    else throw ("Schema type was not " ++ SCHEMA_TYPE_STR)
  | _ => throw ("Schema type was not " ++ SCHEMA_TYPE_STR)

/-- A small valid JSON schema: a subject with one string attribute. -/
def exampleJsonSchema : Json :=
  .obj [("type", .str "object"),
        ("properties", .obj [(SUBJECT_STR, .obj [("type", .str "object"),
          ("properties", .obj [("fname", .obj [("type", .str "string")])])])])]

/-- All parsing options left to their defaults. -/
def emptyPartialOpts : PartialSchemaParsingOpts := ⟨none, none, none⟩

/-- The `CredentialSchema` built from `exampleJsonSchema` with
default options. -/
def exampleCredSchema : CredentialSchema :=
  { schema := .obj [(SUBJECT_STR, .obj [("fname", .obj [(TYPE_STR, .str "string")])])],
    jsonSchema := exampleJsonSchema,
    parsingOptions := DefaultSchemaParsingOpts,
    version := CS_VERSION }

/-- Modelled from the spec: the label constant
`SIGNATURE_PARAMS_LABEL_BYTES` lives in `types-and-consts.ts`, absent
from the sources; only its presence matters to `adapt`, so its byte
content is an arbitrary fixed list. -/
def SIGNATURE_PARAMS_LABEL_BYTES : List Nat := [100, 111, 99, 107]

/-- The observable content of BBS+ signature parameters for the
builder: the optional label they were generated with and the number
of messages they support (`supportedMessageCount`, the length of the
`h` vector).  The parameter class itself lives in the absent
`bbs-plus` sources; this follows the in-repository `PSSignatureParams`
implementation appended to `schema.ts`, whose `generate` and `adapt`
the spec describes identically for the BBS+ class. -/
structure SigParams where
  label : Option (List Nat)
  supported : Nat
deriving Repr, DecidableEq

/-- `SignatureParamsG1.generate(numMessages, label)`. -/
def SigParams.generate (numMessages : Nat) (label : Option (List Nat)) : SigParams :=
  { label := label, supported := numMessages }

/-- `adapt(newMsgCount)`: requires the label; both source branches
(slicing `h` when the new count is not larger, the backend adaptation
otherwise) return fresh parameters whose `h` has length
`newMsgCount`, leaving the receiver untouched. -/
def SigParams.adapt (p : SigParams) (newMsgCount : Nat) : Except String SigParams :=
  match p.label with
  | none => throw "Label should be present"
  | some _ => pure { label := p.label, supported := newMsgCount }

/-- The builder's starting parameters in `finalize`:
`SignatureParamsG1.generate(2, SIGNATURE_PARAMS_LABEL_BYTES)`. -/
def finalizeInitialParams : SigParams :=
  SigParams.generate 2 (some SIGNATURE_PARAMS_LABEL_BYTES)

/-- The `maxAttribs`/`sigParams` part of `finalize`'s first loop over
the credentials, taking each credential's flattened-schema length:
when the running maximum grows, the code calls `sigParams.adapt(numAttribs)`
and discards the returned parameters (the `fun _ =>` in the bind),
updating only `maxAttribs`. -/
def finalizeParamsLoop : List Nat → Nat × SigParams → Except String (Nat × SigParams)
  | [], st => pure st
  | numAttribs :: rest, (maxAttribs, sigParams) =>
    if maxAttribs < numAttribs then
      (sigParams.adapt numAttribs).bind fun _ =>
        finalizeParamsLoop rest (numAttribs, sigParams)
    else finalizeParamsLoop rest (maxAttribs, sigParams)

/-- `finalize`'s `maxAttribs`/`sigParams` state after the first loop,
starting from `maxAttribs = 2` and the label-generated parameters. -/
def finalizeSigParams (counts : List Nat) : Except String (Nat × SigParams) :=
  finalizeParamsLoop counts (2, finalizeInitialParams)

/-- The parameters handed to `Statement.bbsSignature` for one
credential: `sigParams.adapt(numAttribs)` evaluated at the call. -/
def statementParams (sigParams : SigParams) (numAttribs : Nat) : Except String SigParams :=
  sigParams.adapt numAttribs

/-- Modelled from the spec: `REGISTRY_ID_STR` lives in
`types-and-consts.ts`, absent from the sources; the spec names the
revealed status leaf `credentialStatus.id`, so the registry-id key is
`id`. -/
def REGISTRY_ID_STR : String := "id"

/-- JavaScript `Set.add` on a duplicate-free list: append the name
unless it is already present. -/
def addName (s : List String) (n : String) : List String :=
  if s.contains n then s else s ++ [n]

/-- The revealed-name set `finalize` builds for one credential: the
user-requested names, then always `cryptoVersion` and the embedded
schema, then - exactly when the credential declares a status - the
status registry id and revocation-check leaves. -/
def finalizeRevealedNames (userRevealed : List String) (hasStatus : Bool) : List String :=
  let s1 := addName (addName userRevealed CRYPTO_VERSION_STR) SCHEMA_STR
  if hasStatus then
    addName (addName s1 (STATUS_STR ++ "." ++ REGISTRY_ID_STR))
      (STATUS_STR ++ "." ++ REV_CHECK_STR)
  else s1

/-- Modelled from the spec: `getRevealedAndUnrevealed` lives in
`sign-verify-js-objs.ts`, absent from the sources; per the spec it
splits the flattened attribute entries by position into the revealed
map and the unrevealed map according to the revealed-name set. -/
def splitRevealedAux {α : Type} (revealed : List String) :
    Nat → List (String × α) → List (Nat × α) × List (Nat × α)
  | _, [] => ([], [])
  | i, (n, v) :: rest =>
    let ru := splitRevealedAux revealed (i + 1) rest
    if revealed.contains n then ((i, v) :: ru.1, ru.2) else (ru.1, (i, v) :: ru.2)

/-- `getRevealedAndUnrevealed` over a credential's flattened entries,
positions starting at zero. -/
def getRevealedAndUnrevealed {α : Type} (entries : List (String × α))
    (revealed : List String) : List (Nat × α) × List (Nat × α) :=
  splitRevealedAux revealed 0 entries

/-- An accumulator witness as received by the builder: the
`MembershipWitness` / `NonMembershipWitness` classes, with the
underlying bytes abstracted. -/
inductive AccWitness where
  | membership (w : Nat)
  | nonMembership (w : Nat)
deriving Repr, DecidableEq

/-- An accumulator statement as `Statement.accumulatorMembership` /
`accumulatorNonMembership` build it: the fixed dock parameters and
proving keys are implicit, the public key and accumulated value
vary. -/
inductive AccStatement where
  | membership (pk acc : Nat)
  | nonMembership (pk acc : Nat)
deriving Repr, DecidableEq

/-- JavaScript `Array.prototype.indexOf`: the first position, `-1`
when absent. -/
def jsIndexOf (l : List String) (x : String) : Int :=
  if x ∈ l then l.indexOf x else -1

/-- One iteration of `finalize`'s `credStatusAux.forEach`: look up
the status details for credential `i`, dispatch on the revocation
check `t` (membership demands a `MembershipWitness`, anything else a
`NonMembershipWitness`), and produce the accumulator statement, its
witness, and the witness-equality pair linking the flattened position
of `credentialStatus.revocationId` in signature statement `i` to
position 0 of the accumulator statement at index `sIdx`. -/
def credStatusStep (flatNames : List String) (sIdx : Nat) (i : Nat) (t : String)
    (value : Nat) (s : Option (AccWitness × Nat × Nat)) :
    Except String (AccStatement × (Nat × AccWitness) × ((Nat × Int) × (Nat × Nat))) :=
  match s with
  | none => throw ("No status details found for credential index " ++ toString i)
  | some (wit, acc, pk) =>
    ((if t = MEM_CHECK_STR then
      match wit with
      | .membership w =>
        pure (AccStatement.membership pk acc, (value, AccWitness.membership w))
      | .nonMembership _ =>
        throw ("Expected membership witness but got non-membership witness for " ++
          "credential index " ++ toString i)
    else
      match wit with
      | .nonMembership w =>
        pure (AccStatement.nonMembership pk acc, (value, AccWitness.nonMembership w))
      | .membership _ =>
        throw ("Expected non-membership witness but got membership witness for " ++
          "credential index " ++ toString i)
      : Except String (AccStatement × (Nat × AccWitness)))).map fun p =>
      (p.1, p.2, ((i, jsIndexOf flatNames (STATUS_STR ++ "." ++ REV_ID_STR)), (sIdx, 0)))

/-- The inner loop of `finalize` over one attribute-equality request:
each `(cIdx, name)` is resolved to the position of
`credentialSubject.<name>` in credential `cIdx`'s flattened schema,
and a position of `-1` raises. -/
def resolveEquality (flatNames : List (List String)) :
    List (Nat × String) → Except String (List (Nat × Int))
  | [] => pure []
  | (cIdx, name) :: rest =>
    let i := jsIndexOf (flatNames.getD cIdx []) (SUBJECT_STR ++ "." ++ name)
    if i = -1 then throw ("Attribute name " ++ name ++ " was not found")
    else (resolveEquality flatNames rest).map (fun l => (cIdx, i) :: l)

/-- JavaScript `Map.set` on an association list keyed by the raw
index number. -/
def mapSet {β : Type} : List (Int × β) → Int → β → List (Int × β)
  | [], k, v => [(k, v)]
  | (k', v') :: rest, k, v =>
    if k' = k then (k, v) :: rest else (k', v') :: mapSet rest k v

/-- JavaScript `Map.get` on an association list. -/
def mapGet {β : Type} : List (Int × β) → Int → Option β
  | [], _ => none
  | (k', v) :: rest, k => if k' = k then some v else mapGet rest k

/-- The builder state the index-taking operations read and write:
the number of added credentials and the three maps/lists they
mutate. -/
structure BuilderState where
  credentialsCount : Nat
  revealedAttributes : List (Int × List String)
  attributeEqualities : List (List (Int × String))
  credStatuses : List (Int × (AccWitness × Nat × Nat))
deriving Repr, DecidableEq

/-- `PresentationBuilder.validateCredIndex`: raises only when the
index is at least the number of credentials. -/
def validateCredIndex (st : BuilderState) (credIdx : Int) : Except String Unit :=
  if (st.credentialsCount : Int) ≤ credIdx then
    throw ("Invalid credential index " ++ toString credIdx ++
      ". Number of credentials is " ++ toString st.credentialsCount)
  else pure ()

/-- `markAttributesRevealed`: validate the index, then extend that
credential's revealed-name set with the prefixed attribute names. -/
def markAttributesRevealed (st : BuilderState) (credIdx : Int)
    (attributeNames : List String) : Except String BuilderState :=
  (validateCredIndex st credIdx).map fun _ =>
    let revealed := (mapGet st.revealedAttributes credIdx).getD []
    let revealed2 := attributeNames.foldl
      (fun acc a => addName acc (SUBJECT_STR ++ "." ++ a)) revealed
    { st with revealedAttributes := mapSet st.revealedAttributes credIdx revealed2 }

/-- The validation loop of `markAttributesEqual` over the equality's
references. -/
def validateRefs (st : BuilderState) : List (Int × String) → Except String Unit
  | [] => pure ()
  | (c, _) :: rest => (validateCredIndex st c).bind fun _ => validateRefs st rest

/-- `markAttributesEqual`: validate every referenced index, then
record the equality. -/
def markAttributesEqual (st : BuilderState) (equality : List (Int × String)) :
    Except String BuilderState :=
  (validateRefs st equality).map fun _ =>
    { st with attributeEqualities := st.attributeEqualities ++ [equality] }

/-- `addAccumInfoForCredStatus`: validate the index, then store the
status details for that credential. -/
def addAccumInfoForCredStatus (st : BuilderState) (credIdx : Int) (wit : AccWitness)
    (accumulated pk : Nat) : Except String BuilderState :=
  (validateCredIndex st credIdx).map fun _ =>
    { st with credStatuses := mapSet st.credStatuses credIdx (wit, accumulated, pk) }

/-- An example builder state holding one credential. -/
def C8exampleState : BuilderState :=
  { credentialsCount := 1, revealedAttributes := [], attributeEqualities := [],
    credStatuses := [] }

/-- A `SetupParam` wrapper: the proof-spec generator receives its
`value`. -/
structure SetupParam (π : Type) where
  value : π
deriving Repr, DecidableEq

/-- The `ProofSpecG1` constructor with the WASM
`generateProofSpecG1` abstracted as the function `gen`: the stored
`value` is `gen` applied to the statement values, the meta-statement
values, the setup-param values (empty when the argument is omitted)
and the context. -/
def newProofSpecG1 {σ μ π κ ν : Type} (gen : List σ → List μ → List π → Option κ → ν)
    (statements : List σ) (metaStatements : List μ)
    (setupParams : Option (List (SetupParam π))) (context : Option κ) : ν :=
  gen statements metaStatements ((setupParams.getD []).map (fun s => s.value)) context

/-- The decoded contents a `QuasiProofSpecG1` holds. -/
structure QuasiProofSpecG1 (σ μ π κ : Type) where
  statements : List σ
  metaStatements : List μ
  setupParams : List (SetupParam π)
  context : Option κ

/-- The `QuasiProofSpecG1` constructor: omitted statements,
meta-statements and setup-params default to empty collections, the
context is stored as given. -/
def newQuasiProofSpecG1 {σ μ π κ : Type} (statements : Option (List σ))
    (metaStatements : Option (List μ)) (setupParams : Option (List (SetupParam π)))
    (context : Option κ) : QuasiProofSpecG1 σ μ π κ :=
  { statements := statements.getD [], metaStatements := metaStatements.getD [],
    setupParams := setupParams.getD [], context := context }

/-- `QuasiProofSpecG1.toProofSpec`: materialize through the
`ProofSpecG1` constructor on the held decoded contents. -/
def QuasiProofSpecG1.toProofSpec {σ μ π κ ν : Type}
    (gen : List σ → List μ → List π → Option κ → ν)
    (q : QuasiProofSpecG1 σ μ π κ) : ν :=
  newProofSpecG1 gen q.statements q.metaStatements (some q.setupParams) q.context

/-- The round state a `ThresholdSigner` carries: the four optional
round states/outputs whose presence the `ensure*` guards test, with
the byte contents abstracted. -/
structure TState where
  round1State : Option Nat
  round1Output : Option Nat
  round2State : Option Nat
  round2Output : Option Nat
deriving Repr, DecidableEq

/-- `hasStarted`. -/
def TState.hasStarted (st : TState) : Bool := st.round1State.isSome

/-- `hasFinishedRound1`. -/
def TState.hasFinishedRound1 (st : TState) : Bool := st.round1Output.isSome

/-- `hasStartedRound2`. -/
def TState.hasStartedRound2 (st : TState) : Bool := st.round2State.isSome

/-- `ensureRound1Started`. -/
def ensureRound1Started (st : TState) : Except String Unit :=
  if st.hasStarted then pure () else throw "Round 1 has not started yet"

/-- `ensureRound1Finished`. -/
def ensureRound1Finished (st : TState) : Except String Unit :=
  if st.hasFinishedRound1 then pure () else throw "Round 1 has not finished yet"

/-- `ensureRound2Started`. -/
def ensureRound2Started (st : TState) : Except String Unit :=
  if st.hasStartedRound2 then pure () else throw "Round 2 has not started yet"

/-- One `ThresholdSigner` method call, with the value the WASM
backend would return carried in the constructor (the backends are
pure functions of the state, so a trace fixes them). -/
inductive TOp where
  | startRound1 (r : Nat)
  | processReceivedCommitments (r : Nat)
  | getSharesForOtherSigner
  | getSharesForOtherSigners
  | processReceivedShares (r : Nat)
  | finishR1 (r : Nat)
  | startRound2 (r : Nat)
  | processReceivedMsg1 (r : Nat)
  | processReceivedMsg2 (r : Nat)
  | finishRound2 (r : Nat)
deriving Repr, DecidableEq

/-- The state transition of each method: `startRound1` is unguarded
and installs a round-1 state; the commitment/share methods demand a
started round 1 (the first two leaving only `round1State` updated,
the `getShares*` pair reading it); `finishR1` demands a started
round 1 and installs the output; `startRound2` demands a finished
round 1; the round-2 message handlers and `finishRound2` demand a
started round 2. -/
def tStep (st : TState) : TOp → Except String TState
  | .startRound1 r => pure { st with round1State := some r }
  | .processReceivedCommitments r =>
    (ensureRound1Started st).map fun _ => { st with round1State := some r }
  | .getSharesForOtherSigner => (ensureRound1Started st).map fun _ => st
  | .getSharesForOtherSigners => (ensureRound1Started st).map fun _ => st
  | .processReceivedShares r =>
    (ensureRound1Started st).map fun _ => { st with round1State := some r }
  | .finishR1 r => (ensureRound1Started st).map fun _ => { st with round1Output := some r }
  | .startRound2 r => (ensureRound1Finished st).map fun _ => { st with round2State := some r }
  | .processReceivedMsg1 r =>
    (ensureRound2Started st).map fun _ => { st with round2State := some r }
  | .processReceivedMsg2 r =>
    (ensureRound2Started st).map fun _ => { st with round2State := some r }
  | .finishRound2 r => (ensureRound2Started st).map fun _ => { st with round2Output := some r }

/-- Run a call sequence, stopping at the first thrown error. -/
def runTrace : TState → List TOp → Except String TState
  | st, [] => pure st
  | st, op :: rest => (tStep st op).bind fun st2 => runTrace st2 rest

/-- A fresh signer: no round state or output exists. -/
def initialTState : TState := ⟨none, none, none, none⟩

theorem charListLe_total (a b : List Char) : charListLe a b = true ∨ charListLe b a = true := by
  induction a generalizing b with
  | nil => left; rfl
  | cons x xs ih =>
    cases b with
    | nil => right; rfl
    | cons y ys =>
      rcases Nat.lt_trichotomy x.toNat y.toNat with h | h | h
      · left; simp [charListLe, h]
      · rcases ih ys with h2 | h2
        · left; simp [charListLe, h, h2]
        · right; simp [charListLe, h.symm, h2]
      · right
        simp only [charListLe, if_pos h]

theorem charListLe_trans {a b c : List Char} (h1 : charListLe a b = true)
    (h2 : charListLe b c = true) : charListLe a c = true := by
  induction a generalizing b c with
  | nil => rfl
  | cons x xs ih =>
    cases b with
    | nil => simp [charListLe] at h1
    | cons y ys =>
      cases c with
      | nil => simp [charListLe] at h2
      | cons z zs =>
        simp only [charListLe] at h1 h2 ⊢
        by_cases hxy : x.toNat < y.toNat
        · by_cases hyz : y.toNat < z.toNat
          · simp [Nat.lt_trans hxy hyz]
          · simp only [if_pos hxy] at h1
            by_cases hyz' : y.toNat = z.toNat
            · simp [hyz' ▸ hxy]
            · simp [hyz, hyz'] at h2
        · by_cases hxy' : x.toNat = y.toNat
          · simp only [if_neg hxy, if_pos hxy'] at h1
            by_cases hyz : y.toNat < z.toNat
            · simp [hxy' ▸ hyz]
            · by_cases hyz' : y.toNat = z.toNat
              · simp only [if_neg hyz, if_pos hyz'] at h2
                simp [hxy'.trans hyz', ih h1 h2]
              · simp [hyz, hyz'] at h2
          · simp [hxy, hxy'] at h1

theorem strLe_total (a b : String) : strLe a b = true ∨ strLe b a = true :=
  charListLe_total a.data b.data

theorem strLe_trans {a b c : String} (h1 : strLe a b = true) (h2 : strLe b c = true) :
    strLe a c = true :=
  charListLe_trans h1 h2

/-- The flattening of the single-attribute schema matches the
repository's test: the schema name first, then the subject leaf,
then `cryptoVersion`. -/
theorem flattenSchemaObj_example1 :
    (flattenSchemaObj exampleSchema1).1 =
      [SCHEMA_STR, SUBJECT_STR ++ ".fname", CRYPTO_VERSION_STR] := by decide

/-- The flattening of the status-bearing schema matches the
repository's test, status leaves sorted in place. -/
theorem flattenSchemaObj_example_status :
    (flattenSchemaObj exampleSchemaStatus).1 =
      [SCHEMA_STR,
       STATUS_STR ++ "." ++ ID_STR,
       STATUS_STR ++ "." ++ REV_CHECK_STR,
       STATUS_STR ++ "." ++ REV_ID_STR,
       SUBJECT_STR ++ ".fname",
       SUBJECT_STR ++ ".score",
       CRYPTO_VERSION_STR] := by decide

/-- The flattening of the array-subject schema matches the
repository's test: item paths get zero-based indices. -/
theorem flattenSchemaObj_example_array :
    (flattenSchemaObj exampleSchemaArray).1 =
      [SCHEMA_STR,
       SUBJECT_STR ++ ".0.name",
       SUBJECT_STR ++ ".1.name",
       CRYPTO_VERSION_STR] := by decide

theorem lookupStr_eq_none {l : List (String × Json)} {k : String}
    (h : ∀ kv ∈ l, kv.1 ≠ k) : lookupStr l k = none := by
  induction l with
  | nil => rfl
  | cons kv rest ih =>
    have hk := h kv (List.mem_cons_self kv rest)
    simp only [lookupStr, if_neg hk]
    exact ih (fun kv' h' => h kv' (List.mem_cons_of_mem kv h'))

theorem mergeSpread_of_disjoint {a b : List (String × Json)}
    (h : ∀ kv ∈ b, kv.1 ∉ a.map Prod.fst) : mergeSpread a b = a ++ b := by
  unfold mergeSpread
  have hmap : a.map (fun kv => (kv.1, (lookupStr b kv.1).getD kv.2)) = a := by
    have := List.map_congr_left (l := a)
      (f := fun kv => (kv.1, (lookupStr b kv.1).getD kv.2)) (g := id) ?_
    · simpa using this
    · intro kv hkv
      have hb : lookupStr b kv.1 = none :=
        lookupStr_eq_none (fun kv' h' he =>
          h kv' h' (he ▸ List.mem_map_of_mem Prod.fst hkv))
      simp [hb]
  have hfilter : b.filter (fun kv => (lookupStr a kv.1).isNone) = b := by
    rw [List.filter_eq_self]
    intro kv hkv
    have ha : lookupStr a kv.1 = none :=
      lookupStr_eq_none (fun kv' h' he =>
        h kv hkv (he ▸ List.mem_map_of_mem Prod.fst h'))
    simp [ha]
  rw [hmap, hfilter]

theorem fullFlattenFields_append (a b : List (String × Json)) :
    fullFlattenFields (a ++ b) = fullFlattenFields a ++ fullFlattenFields b := by
  induction a with
  | nil => rfl
  | cons kv rest ih =>
    obtain ⟨k, v⟩ := kv
    simp [fullFlattenFields, ih]

theorem groupInsert_append {gk : String} {kv : String × Json}
    {acc1 acc2 : List (String × List (String × Json))}
    (h : gk ∉ acc1.map Prod.fst) :
    groupInsert gk kv (acc1 ++ acc2) = acc1 ++ groupInsert gk kv acc2 := by
  induction acc1 with
  | nil => rfl
  | cons g rest ih =>
    obtain ⟨k, vs⟩ := g
    simp only [List.map_cons, List.mem_cons, not_or] at h
    have hne : ¬(k = gk) := fun he => h.1 he.symm
    simp only [List.cons_append, groupInsert, if_neg hne, List.append_eq]
    rw [ih h.2]

theorem groupTill2ndLast_eq_foldl (entries : List (List String × Json)) :
    groupTill2ndLast entries = entries.foldl groupStep [] := rfl

theorem foldl_groupStep_append (l : List (List String × Json))
    (acc1 acc2 : List (String × List (String × Json)))
    (h : ∀ p ∈ l, groupKeyOf p ∉ acc1.map Prod.fst) :
    l.foldl groupStep (acc1 ++ acc2) = acc1 ++ l.foldl groupStep acc2 := by
  induction l generalizing acc2 with
  | nil => rfl
  | cons p rest ih =>
    simp only [List.foldl_cons]
    rw [show groupStep (acc1 ++ acc2) p = acc1 ++ groupStep acc2 p from
      groupInsert_append (h p (List.mem_cons_self p rest))]
    exact ih _ (fun q hq => h q (List.mem_cons_of_mem p hq))

theorem mem_keys_groupInsert {k gk : String} {kv : String × Json}
    {acc : List (String × List (String × Json))} :
    k ∈ (groupInsert gk kv acc).map Prod.fst ↔ k ∈ acc.map Prod.fst ∨ k = gk := by
  induction acc with
  | nil => simp [groupInsert]
  | cons g rest ih =>
    obtain ⟨k', vs⟩ := g
    simp only [groupInsert]
    by_cases hkg : k' = gk
    · subst hkg
      rw [if_pos rfl]
      simp only [List.map_cons, List.mem_cons]
      tauto
    · rw [if_neg hkg]
      simp only [List.map_cons, List.mem_cons, ih]
      tauto

theorem keys_mono_foldl {k : String} (l : List (List String × Json))
    (acc : List (String × List (String × Json))) (h : k ∈ acc.map Prod.fst) :
    k ∈ (l.foldl groupStep acc).map Prod.fst := by
  induction l generalizing acc with
  | nil => exact h
  | cons p rest ih =>
    exact ih _ (mem_keys_groupInsert.mpr (Or.inl h))

theorem groupKey_mem_foldl {p : List String × Json} {l : List (List String × Json)}
    (acc : List (String × List (String × Json))) (h : p ∈ l) :
    groupKeyOf p ∈ (l.foldl groupStep acc).map Prod.fst := by
  induction l generalizing acc with
  | nil => cases h
  | cons q rest ih =>
    rcases List.mem_cons.mp h with h1 | h1
    · subst h1
      exact keys_mono_foldl rest _ (mem_keys_groupInsert.mpr (Or.inr rfl))
    · exact ih _ h1

theorem mem_flattenNames_iff {k : String} {o : Json} :
    k ∈ (flattenTill2ndLastKey o).1 ↔
      k ∈ (groupTill2ndLast (fullFlatten o)).map Prod.fst := by
  unfold flattenTill2ndLastKey
  simp only
  have hperm :
      (List.insertionSort entryLe
        ((groupTill2ndLast (fullFlatten o)).map (fun g => (g.1, Json.obj g.2)))).Perm
      ((groupTill2ndLast (fullFlatten o)).map (fun g => (g.1, Json.obj g.2))) :=
    List.perm_insertionSort entryLe _
  rw [List.Perm.mem_iff (hperm.map (fun x => x.1))]
  rw [List.map_map]
  simp [Function.comp]

/-- C1: the flattened form always contains exactly the two implicit
synthetic leaves `cryptoVersion` and the embedded schema leaf, and
the whole name sequence — the synthetic leaves included — is sorted
in lexicographic order of full dotted paths.  This is the claim
amended at one point: the two synthetic leaves are merged into the
sorted sequence rather than prepended to it, so they are not in
general the two leading entries (see the counterexample, where
`cryptoVersion` sorts last, as the repository's own flattening tests
also show). -/
theorem C1_flatten_two_implicit_leaves_sorted
    (fields : List (String × Json))
    (hk : ∀ kv ∈ fields, kv.1 ≠ CRYPTO_VERSION_STR ∧ kv.1 ≠ SCHEMA_STR)
    (hc : CRYPTO_VERSION_STR ∉ (flattenTill2ndLastKey (Json.obj fields)).1)
    (hs : SCHEMA_STR ∉ (flattenTill2ndLastKey (Json.obj fields)).1) :
    ((flattenSchemaObj (Json.obj fields)).1.Pairwise (fun a b => strLe a b = true)) ∧
    ((flattenSchemaObj (Json.obj fields)).1.Perm
      (CRYPTO_VERSION_STR :: SCHEMA_STR :: (flattenTill2ndLastKey (Json.obj fields)).1)) ∧
    ((flattenSchemaObj (Json.obj fields)).1.count CRYPTO_VERSION_STR = 1) ∧
    ((flattenSchemaObj (Json.obj fields)).1.count SCHEMA_STR = 1) := by
  have hdisj : ∀ kv ∈ fields, kv.1 ∉ IMPLICIT_FIELDS.map Prod.fst := by
    intro kv hkv
    have h := hk kv hkv
    simp [IMPLICIT_FIELDS, CRYPTO_VERSION_STR, SCHEMA_STR] at h ⊢
    exact h
  have hms : mergeSpread IMPLICIT_FIELDS fields = IMPLICIT_FIELDS ++ fields :=
    mergeSpread_of_disjoint hdisj
  have hGA : (groupTill2ndLast (fullFlattenFields IMPLICIT_FIELDS)).map (fun g => g.1) =
      [CRYPTO_VERSION_STR, SCHEMA_STR] := rfl
  have hFdisj : ∀ p ∈ fullFlattenFields fields,
      groupKeyOf p ∉ (groupTill2ndLast (fullFlattenFields IMPLICIT_FIELDS)).map Prod.fst := by
    intro p hp hmem
    have hin : groupKeyOf p ∈ (flattenTill2ndLastKey (Json.obj fields)).1 :=
      mem_flattenNames_iff.mpr (groupKey_mem_foldl [] hp)
    have hmem2 : groupKeyOf p ∈ [CRYPTO_VERSION_STR, SCHEMA_STR] := hmem
    rcases List.mem_cons.mp hmem2 with h | h
    · exact hc (h ▸ hin)
    · rcases List.mem_cons.mp h with h2 | h2
      · exact hs (h2 ▸ hin)
      · cases h2
  have hkey : flattenSchemaObj (Json.obj fields) =
      flattenTill2ndLastKey (Json.obj (IMPLICIT_FIELDS ++ fields)) := by
    simp [flattenSchemaObj, hms]
  have hsplit : groupTill2ndLast (fullFlatten (Json.obj (IMPLICIT_FIELDS ++ fields))) =
      groupTill2ndLast (fullFlattenFields IMPLICIT_FIELDS) ++
        groupTill2ndLast (fullFlattenFields fields) := by
    show (fullFlattenFields (IMPLICIT_FIELDS ++ fields)).foldl groupStep [] = _
    rw [fullFlattenFields_append, List.foldl_append]
    calc (fullFlattenFields fields).foldl groupStep
          ((fullFlattenFields IMPLICIT_FIELDS).foldl groupStep [])
        = (fullFlattenFields fields).foldl groupStep
          ((fullFlattenFields IMPLICIT_FIELDS).foldl groupStep [] ++ []) := by
          rw [List.append_nil]
      _ = (fullFlattenFields IMPLICIT_FIELDS).foldl groupStep [] ++
          (fullFlattenFields fields).foldl groupStep [] :=
          foldl_groupStep_append _ _ _ hFdisj
  have hperm1 : (flattenSchemaObj (Json.obj fields)).1.Perm
      ((groupTill2ndLast (fullFlatten (Json.obj (IMPLICIT_FIELDS ++ fields)))).map
        (fun g => g.1)) := by
    rw [hkey]
    unfold flattenTill2ndLastKey
    simp only
    have hp := (List.perm_insertionSort entryLe
      ((groupTill2ndLast (fullFlatten (Json.obj (IMPLICIT_FIELDS ++ fields)))).map
        (fun g => (g.1, Json.obj g.2)))).map (fun x => x.1)
    rw [List.map_map] at hp
    exact hp
  have hperm2 : (flattenTill2ndLastKey (Json.obj fields)).1.Perm
      ((groupTill2ndLast (fullFlattenFields fields)).map (fun g => g.1)) := by
    unfold flattenTill2ndLastKey
    simp only
    have hp := (List.perm_insertionSort entryLe
      ((groupTill2ndLast (fullFlatten (Json.obj fields))).map
        (fun g => (g.1, Json.obj g.2)))).map (fun x => x.1)
    rw [List.map_map] at hp
    exact hp
  have hnames : ((groupTill2ndLast (fullFlatten (Json.obj (IMPLICIT_FIELDS ++ fields)))).map
      (fun g => g.1)) =
      [CRYPTO_VERSION_STR, SCHEMA_STR] ++
        (groupTill2ndLast (fullFlattenFields fields)).map (fun g => g.1) := by
    rw [hsplit, List.map_append, hGA]
  have hfinal : (flattenSchemaObj (Json.obj fields)).1.Perm
      (CRYPTO_VERSION_STR :: SCHEMA_STR :: (flattenTill2ndLastKey (Json.obj fields)).1) := by
    refine hperm1.trans ?_
    rw [hnames]
    exact List.Perm.append_left [CRYPTO_VERSION_STR, SCHEMA_STR] hperm2.symm
  have hsorted : (flattenSchemaObj (Json.obj fields)).1.Pairwise
      (fun a b => strLe a b = true) := by
    rw [hkey]
    unfold flattenTill2ndLastKey
    simp only
    rw [List.pairwise_map]
    haveI : IsTotal (String × Json) entryLe := ⟨fun a b => strLe_total a.1 b.1⟩
    haveI : IsTrans (String × Json) entryLe := ⟨fun _ _ _ => strLe_trans⟩
    exact List.sorted_insertionSort entryLe _
  have hne : ¬(SCHEMA_STR = CRYPTO_VERSION_STR) := by decide
  have hne' : ¬(CRYPTO_VERSION_STR = SCHEMA_STR) := by decide
  have hcount1 : (flattenSchemaObj (Json.obj fields)).1.count CRYPTO_VERSION_STR = 1 := by
    rw [hfinal.count_eq]
    simp [List.count_cons, List.count_eq_zero.mpr hc, hne]
  have hcount2 : (flattenSchemaObj (Json.obj fields)).1.count SCHEMA_STR = 1 := by
    rw [hfinal.count_eq]
    simp [List.count_cons, List.count_eq_zero.mpr hs, hne']
  exact ⟨hsorted, hfinal, hcount1, hcount2⟩

/-- C1 witness: the amended theorem applied to the concrete
single-attribute schema. -/
theorem C1_flatten_two_implicit_leaves_sorted_witness :
    ((∀ kv ∈ exampleFields1, kv.1 ≠ CRYPTO_VERSION_STR ∧ kv.1 ≠ SCHEMA_STR) ∧
      CRYPTO_VERSION_STR ∉ (flattenTill2ndLastKey (Json.obj exampleFields1)).1 ∧
      SCHEMA_STR ∉ (flattenTill2ndLastKey (Json.obj exampleFields1)).1) ∧
    (((flattenSchemaObj (Json.obj exampleFields1)).1.Pairwise
        (fun a b => strLe a b = true)) ∧
      ((flattenSchemaObj (Json.obj exampleFields1)).1.Perm
        (CRYPTO_VERSION_STR :: SCHEMA_STR ::
          (flattenTill2ndLastKey (Json.obj exampleFields1)).1)) ∧
      ((flattenSchemaObj (Json.obj exampleFields1)).1.count CRYPTO_VERSION_STR = 1) ∧
      ((flattenSchemaObj (Json.obj exampleFields1)).1.count SCHEMA_STR = 1)) :=
  ⟨⟨by decide, by decide, by decide⟩,
    C1_flatten_two_implicit_leaves_sorted exampleFields1 (by decide) (by decide) (by decide)⟩

/-- C1 counterexample: on the concrete single-attribute schema the
flattened names are `credentialSchema`, `credentialSubject.fname`,
`cryptoVersion` — so the two synthetic leaves are not the two leading
(prepended) entries of the name sequence as the claim states:
`cryptoVersion` sorts after every `credentialSubject` path. -/
theorem C1_synthetic_leaves_not_leading_counterexample :
    (flattenSchemaObj exampleSchema1).1 =
      [SCHEMA_STR, SUBJECT_STR ++ ".fname", CRYPTO_VERSION_STR] ∧
    (flattenSchemaObj exampleSchema1).1.take 2 ≠ [CRYPTO_VERSION_STR, SCHEMA_STR] ∧
    (flattenSchemaObj exampleSchema1).1.take 2 ≠ [SCHEMA_STR, CRYPTO_VERSION_STR] := by
  exact ⟨by decide, by decide, by decide⟩

theorem natToDigitsFuel_zero (fuel : Nat) (acc : List Char) :
    natToDigitsFuel fuel 0 acc = acc := by
  cases fuel <;> simp [natToDigitsFuel]

theorem natToDigitsFuel_eq_spec (fuel : Nat) :
    ∀ n acc, 0 < n → n ≤ fuel → natToDigitsFuel fuel n acc = natDigitsSpec n ++ acc := by
  induction fuel with
  | zero => intro n acc h1 h2; omega
  | succ fuel ih =>
    intro n acc h1 h2
    have hne : ¬(n = 0) := by omega
    simp only [natToDigitsFuel, if_neg hne]
    by_cases h10 : n < 10
    · have : n / 10 = 0 := Nat.div_eq_of_lt h10
      rw [this, natToDigitsFuel_zero]
      rw [natDigitsSpec]
      simp only [dif_pos h10]
      have : n % 10 = n := Nat.mod_eq_of_lt h10
      rw [this]
      rfl
    · have hd1 : 0 < n / 10 := Nat.div_pos (by omega) (by omega)
      have hd2 : n / 10 ≤ fuel := by
        have := Nat.div_lt_self h1 (show 1 < 10 by omega)
        omega
      rw [natDigitsSpec]
      simp only [dif_neg h10]
      rw [ih (n / 10) _ hd1 hd2]
      rw [List.append_assoc]
      rfl

theorem natToDigits_eq_spec {n : Nat} (h : 0 < n) : natToDigits n = natDigitsSpec n := by
  unfold natToDigits
  rw [if_neg (by omega)]
  simpa using natToDigitsFuel_eq_spec n n [] h (le_refl n)

theorem natDigitsSpec_ne_nil (n : Nat) : natDigitsSpec n ≠ [] := by
  rw [natDigitsSpec]
  by_cases h : n < 10
  · simp [h]
  · simp [h]

theorem digitChar_toNat : ∀ d, d < 10 → (digitChar d).toNat = 48 + d := by decide

theorem digitChar_isDigit : ∀ d, d < 10 → 48 ≤ (digitChar d).toNat ∧ (digitChar d).toNat ≤ 57 := by
  decide

theorem natDigitsSpec_all_digits (n : Nat) :
    ∀ c ∈ natDigitsSpec n, 48 ≤ c.toNat ∧ c.toNat ≤ 57 := by
  induction n using Nat.strong_induction_on with
  | _ n ih =>
    rw [natDigitsSpec]
    by_cases h : n < 10
    · simp only [dif_pos h, List.mem_singleton]
      rintro c rfl
      exact digitChar_isDigit n h
    · simp only [dif_neg h, List.mem_append, List.mem_singleton]
      rintro c (hc | rfl)
      · exact ih (n / 10) (Nat.div_lt_self (by omega) (by omega)) c hc
      · exact digitChar_isDigit (n % 10) (Nat.mod_lt n (by omega))

theorem natDigitsSpec_head_ne_zero (n : Nat) :
    0 < n → ∀ rest, natDigitsSpec n ≠ '0' :: rest := by
  induction n using Nat.strong_induction_on with
  | _ n ih =>
    intro h rest hcon
    rw [natDigitsSpec] at hcon
    by_cases h10 : n < 10
    · simp only [dif_pos h10] at hcon
      have h1 : digitChar n = '0' := (List.cons.inj hcon).1
      have h2 : ¬(digitChar n = '0') := by interval_cases n <;> revert h1 <;> decide
      exact h2 h1
    · simp only [dif_neg h10] at hcon
      have hpos : 0 < n / 10 := Nat.div_pos (by omega) (by omega)
      have hne := natDigitsSpec_ne_nil (n / 10)
      cases hspec : natDigitsSpec (n / 10) with
      | nil => exact hne hspec
      | cons c cs =>
        rw [hspec] at hcon
        simp only [List.cons_append] at hcon
        have hc := (List.cons.inj hcon).1
        exact ih (n / 10) (Nat.div_lt_self (by omega) (by omega)) hpos
          cs (by rw [hspec, hc])

theorem natDigitsSpec_eq_one_iff' {n : Nat} : natDigitsSpec n = ['1'] ↔ n = 1 := by
  constructor
  · intro h
    rw [natDigitsSpec] at h
    by_cases h10 : n < 10
    · simp only [dif_pos h10] at h
      have := (List.cons.inj h).1
      interval_cases n <;> first | rfl | (exfalso; revert this; decide)
    · simp only [dif_neg h10] at h
      have hne := natDigitsSpec_ne_nil (n / 10)
      cases hspec : natDigitsSpec (n / 10) with
      | nil => exact absurd hspec hne
      | cons c cs =>
        rw [hspec] at h
        simp only [List.cons_append] at h
        have := (List.cons.inj h).2
        exact absurd this (by simp)
  · rintro rfl
    rw [natDigitsSpec]
    rfl

theorem natToDigits_ne_nil (a : Nat) : natToDigits a ≠ [] := by
  rcases Nat.eq_zero_or_pos a with rfl | h
  · decide
  · rw [natToDigits_eq_spec h]
    exact natDigitsSpec_ne_nil a

theorem natToDigits_all_digits (a : Nat) :
    ∀ c ∈ natToDigits a, 48 ≤ c.toNat ∧ c.toNat ≤ 57 := by
  rcases Nat.eq_zero_or_pos a with rfl | h
  · decide
  · rw [natToDigits_eq_spec h]
    exact natDigitsSpec_all_digits a

theorem natToDigits_head_ne_zero {a : Nat} (h : 0 < a) :
    ∀ rest, natToDigits a ≠ '0' :: rest := by
  rw [natToDigits_eq_spec h]
  exact natDigitsSpec_head_ne_zero a h

theorem natToDigits_eq_one_iff {a : Nat} : natToDigits a = ['1'] ↔ a = 1 := by
  rcases Nat.eq_zero_or_pos a with rfl | h
  · constructor
    · intro hcon; exact absurd hcon (by decide)
    · omega
  · rw [natToDigits_eq_spec h]
    exact natDigitsSpec_eq_one_iff'

theorem length_paddedDigits_gt (a e : Nat) : e < (paddedDigits a e).length := by
  unfold paddedDigits
  by_cases h : (natToDigits a).length ≤ e
  · rw [if_pos h]
    simp only [List.length_append, List.length_replicate]
    omega
  · rw [if_neg h]
    omega

theorem paddedDigits_all_digits (a e : Nat) :
    ∀ c ∈ paddedDigits a e, 48 ≤ c.toNat ∧ c.toNat ≤ 57 := by
  unfold paddedDigits
  by_cases h : (natToDigits a).length ≤ e
  · rw [if_pos h]
    intro c hc
    rcases List.mem_append.mp hc with hc1 | hc1
    · have := List.eq_of_mem_replicate hc1
      subst this
      decide
    · exact natToDigits_all_digits a c hc1
  · rw [if_neg h]
    exact natToDigits_all_digits a

theorem drop_replicate_append {j k : Nat} (c : Char) (X : List Char) (h : j ≤ k) :
    (List.replicate k c ++ X).drop j = List.replicate (k - j) c ++ X := by
  conv_lhs => rw [show k = j + (k - j) from by omega, List.replicate_add, List.append_assoc]
  exact List.drop_left' (by simp)

theorem matchZerosOne_eq_some {xs : List Char} {k : Nat} :
    matchZerosOne xs = some k ↔ 1 ≤ k ∧ xs = List.replicate (k - 1) '0' ++ ['1'] := by
  induction xs generalizing k with
  | nil =>
    simp only [matchZerosOne]
    constructor
    · intro h; cases h
    · rintro ⟨hk, hx⟩
      exact absurd hx.symm (by simp)
  | cons c rest ih =>
    simp only [matchZerosOne]
    by_cases h1 : c = '1' ∧ rest = []
    · rw [if_pos h1]
      obtain ⟨rfl, rfl⟩ := h1
      constructor
      · intro h
        have hk : k = 1 := by injection h with h; omega
        subst hk
        exact ⟨le_refl 1, rfl⟩
      · rintro ⟨hk, hx⟩
        have hlen := congrArg List.length hx
        simp only [List.length_cons, List.length_nil, List.length_append,
          List.length_replicate] at hlen
        have : k = 1 := by omega
        subst this
        rfl
    · rw [if_neg h1]
      by_cases h0 : c = '0'
      · subst h0
        rw [if_pos rfl]
        constructor
        · intro h
          rcases Option.map_eq_some'.mp h with ⟨j, hj, hjk⟩
          obtain ⟨hj1, hrest⟩ := ih.mp hj
          refine ⟨by omega, ?_⟩
          rw [hrest]
          have hj' : k - 1 = (j - 1) + 1 := by omega
          rw [hj', List.replicate_succ, List.cons_append]
        · rintro ⟨hk, hx⟩
          rcases Nat.lt_or_ge k 2 with hk2 | hk2
          · have hk1 : k = 1 := by omega
            subst hk1
            have hx' : ('0' : Char) :: rest = ['1'] := by
              rw [hx]
              rfl
            exact absurd ((List.cons.inj hx').1) (by decide)
          · have hk1 : k - 1 = (k - 2) + 1 := by omega
            rw [hk1, List.replicate_succ, List.cons_append] at hx
            have hrest := (List.cons.inj hx).2
            have hmz : matchZerosOne rest = some (k - 1) := by
              refine ih.mpr ⟨by omega, ?_⟩
              rw [hrest]
              congr 2 <;> omega
            rw [hmz]
            have : k - 1 + 1 = k := by omega
            simp [this]
      · rw [if_neg h0]
        constructor
        · intro h; cases h
        · rintro ⟨hk, hx⟩
          rcases Nat.lt_or_ge k 2 with hk2 | hk2
          · have hk1 : k = 1 := by omega
            subst hk1
            have hx' : c :: rest = ['1'] := by
              rw [hx]
              rfl
            exact absurd ⟨(List.cons.inj hx').1, (List.cons.inj hx').2⟩ h1
          · have hk1 : k - 1 = (k - 2) + 1 := by omega
            rw [hk1, List.replicate_succ, List.cons_append] at hx
            exact absurd (List.cons.inj hx).1 h0

theorem digit_ne_dot {c : Char} (h : 48 ≤ c.toNat ∧ c.toNat ≤ 57) : ¬(c = '.') := by
  intro he
  subst he
  revert h
  decide

theorem digit_ne_dash {c : Char} (h : 48 ≤ c.toNat ∧ c.toNat ≤ 57) : ¬(c = '-') := by
  intro he
  subst he
  revert h
  decide

/-- The key characterisation behind `getDecimalPlaces`: the decimal
rendering of `m / 10^e` matches `^0?\.(0*1$)` with captured length
`k` exactly when the number is `10^(-k)` with `k ≥ 1`. -/
theorem matchDecimalRegex_numToString {m : Int} {e k : Nat} :
    matchDecimalRegex (numToString m e) = some k ↔ m = 1 ∧ e = k ∧ 1 ≤ k := by
  constructor
  · intro h
    by_cases hm : m < 0
    · exfalso
      unfold numToString at h
      rw [if_pos hm, List.singleton_append] at h
      simp [matchDecimalRegex] at h
    · unfold numToString at h
      rw [if_neg hm, List.nil_append] at h
      have hpos : 0 < (natToDigits m.natAbs).length :=
        List.length_pos.mpr (natToDigits_ne_nil _)
      by_cases he : e = 0
      · exfalso
        subst he
        rw [if_pos rfl] at h
        have hD : paddedDigits m.natAbs 0 = natToDigits m.natAbs := by
          unfold paddedDigits
          rw [if_neg (by omega)]
        rw [hD] at h
        obtain ⟨c, rest, hD2⟩ : ∃ c rest, natToDigits m.natAbs = c :: rest := by
          cases hh : natToDigits m.natAbs with
          | nil => exact absurd hh (natToDigits_ne_nil _)
          | cons c rest => exact ⟨c, rest, rfl⟩
        rw [hD2] at h
        have hcdig := natToDigits_all_digits m.natAbs c
          (hD2 ▸ List.mem_cons_self c rest)
        by_cases hc0 : c = '0'
        · subst hc0
          rcases Nat.eq_zero_or_pos m.natAbs with ha | ha
          · have hrest : rest = [] := by
              have h01 : natToDigits m.natAbs = ['0'] := by rw [ha]; decide
              rw [hD2] at h01
              exact (List.cons.inj h01).2
            subst hrest
            simp [matchDecimalRegex] at h
          · exact absurd hD2 (natToDigits_head_ne_zero ha rest)
        · simp [matchDecimalRegex, hc0, digit_ne_dot hcdig] at h
      · rw [if_neg he] at h
        have hL : e < (paddedDigits m.natAbs e).length := length_paddedDigits_gt m.natAbs e
        obtain ⟨p0, P1, hP2⟩ :
            ∃ p0 P1, paddedDigits m.natAbs e = p0 :: P1 := by
          cases hh : paddedDigits m.natAbs e with
          | nil => rw [hh] at hL; simp at hL
          | cons p0 P1 => exact ⟨p0, P1, rfl⟩
        have hp0dig := paddedDigits_all_digits m.natAbs e p0
          (hP2 ▸ List.mem_cons_self p0 P1)
        have ht : 1 ≤ (paddedDigits m.natAbs e).length - e := by omega
        by_cases hp0 : p0 = '0'
        · subst hp0
          by_cases ht1 : (paddedDigits m.natAbs e).length - e = 1
          · rw [ht1] at h
            rw [hP2] at h
            simp only [List.take_succ_cons, List.take_zero, List.drop_succ_cons,
              List.drop_zero, List.cons_append, List.nil_append] at h
            have hmz : matchZerosOne P1 = some k := by
              simpa [matchDecimalRegex] using h
            obtain ⟨hk, hP1⟩ := matchZerosOne_eq_some.mp hmz
            have hPrep : paddedDigits m.natAbs e = List.replicate k '0' ++ ['1'] := by
              rw [hP2, hP1]
              rw [show k = (k - 1) + 1 from by omega, List.replicate_succ, List.cons_append]
              congr 3 <;> omega
            have hLk : (paddedDigits m.natAbs e).length = k + 1 := by
              rw [hPrep]
              simp
            have hek : e = k := by omega
            refine ⟨?_, hek, hk⟩
            by_cases hdl : (natToDigits m.natAbs).length ≤ e
            · have hPdef : paddedDigits m.natAbs e =
                  List.replicate (e + 1 - (natToDigits m.natAbs).length) '0' ++
                    natToDigits m.natAbs := by
                unfold paddedDigits
                rw [if_pos hdl]
              have hj : e + 1 - (natToDigits m.natAbs).length ≤ k := by omega
              have hDdrop : natToDigits m.natAbs =
                  (paddedDigits m.natAbs e).drop
                    (e + 1 - (natToDigits m.natAbs).length) := by
                rw [hPdef]
                rw [List.drop_left' (by simp)]
              rw [hPrep, drop_replicate_append _ _ hj] at hDdrop
              have hkj : k - (e + 1 - (natToDigits m.natAbs).length) =
                  (natToDigits m.natAbs).length - 1 := by omega
              rw [hkj] at hDdrop
              by_cases hdl2 : 2 ≤ (natToDigits m.natAbs).length
              · exfalso
                rcases Nat.eq_zero_or_pos m.natAbs with ha | ha
                · rw [ha] at hdl2
                  revert hdl2
                  decide
                · have h1 : (natToDigits m.natAbs).length - 1 =
                      ((natToDigits m.natAbs).length - 2) + 1 := by omega
                  rw [h1, List.replicate_succ, List.cons_append] at hDdrop
                  exact natToDigits_head_ne_zero ha _ hDdrop
              · have hdl1 : (natToDigits m.natAbs).length = 1 := by omega
                rw [hdl1] at hDdrop
                simp only [Nat.sub_self, List.replicate_zero, List.nil_append] at hDdrop
                have := natToDigits_eq_one_iff.mp hDdrop
                omega
            · exfalso
              have hPdef : paddedDigits m.natAbs e = natToDigits m.natAbs := by
                unfold paddedDigits
                rw [if_neg hdl]
              rcases Nat.eq_zero_or_pos m.natAbs with ha | ha
              · have hD0 : natToDigits m.natAbs = ['0'] := by rw [ha]; decide
                have hlen1 : (paddedDigits m.natAbs e).length = 1 := by
                  rw [hPdef, hD0]
                  rfl
                omega
              · exact natToDigits_head_ne_zero ha P1 (hPdef ▸ hP2)
          · exfalso
            have ht2 : 2 ≤ (paddedDigits m.natAbs e).length - e := by omega
            have hP1len : 1 ≤ P1.length := by
              have hlen := congrArg List.length hP2
              rw [List.length_cons] at hlen
              omega
            obtain ⟨q, P2, hP1⟩ : ∃ q P2, P1 = q :: P2 := by
              cases hh : P1 with
              | nil => rw [hh] at hP1len; simp at hP1len
              | cons q P2 => exact ⟨q, P2, rfl⟩
            have hqdig := paddedDigits_all_digits m.natAbs e q
              (by rw [hP2, hP1]; exact List.mem_cons_of_mem _ (List.mem_cons_self q P2))
            rw [show (paddedDigits m.natAbs e).length - e =
              ((paddedDigits m.natAbs e).length - e - 2) + 2 from by omega] at h
            rw [hP2, hP1] at h
            simp only [List.take_succ_cons, List.cons_append] at h
            simp [matchDecimalRegex, digit_ne_dot hqdig] at h
        · exfalso
          rw [show (paddedDigits m.natAbs e).length - e =
            ((paddedDigits m.natAbs e).length - e - 1) + 1 from by omega] at h
          rw [hP2] at h
          simp only [List.take_succ_cons, List.cons_append] at h
          simp [matchDecimalRegex, hp0, digit_ne_dot hp0dig] at h
  · rintro ⟨rfl, he, hk⟩
    subst he
    obtain ⟨j, rfl⟩ : ∃ j, e = j + 1 := ⟨e - 1, by omega⟩
    have hD : natToDigits (Int.natAbs 1) = ['1'] := by decide
    have hP : paddedDigits (Int.natAbs 1) (j + 1) =
        '0' :: (List.replicate j '0' ++ ['1']) := by
      unfold paddedDigits
      rw [hD]
      rw [if_pos (by simp)]
      simp only [List.length_singleton]
      rw [show j + 1 + 1 - 1 = j + 1 from by omega, List.replicate_succ, List.cons_append]
    have hlen : (paddedDigits (Int.natAbs 1) (j + 1)).length = j + 2 := by
      rw [hP]
      simp
    unfold numToString
    rw [if_neg (by omega), if_neg (by omega), List.nil_append, hlen, hP]
    rw [show j + 2 - (j + 1) = 1 from by omega]
    simp only [List.take_succ_cons, List.take_zero, List.drop_succ_cons, List.drop_zero,
      List.cons_append, List.nil_append]
    have : matchZerosOne (List.replicate j '0' ++ ['1']) = some (j + 1) :=
      matchZerosOne_eq_some.mpr ⟨by omega, by simp⟩
    simp [matchDecimalRegex, this]

theorem stripZeros_one (kk : Nat) : stripZeros 1 kk = (1, kk) := by
  cases kk with
  | zero => rfl
  | succ k => rfl

theorem matchDecimalRegex_jsRenderCanonical {m' : Int} {e' k : Nat} :
    matchDecimalRegex (jsRenderCanonical m' e') = some k ↔
      m' = 1 ∧ e' = k ∧ 1 ≤ k ∧ k ≤ 6 := by
  by_cases h0 : m' = 0
  · subst h0
    rw [show jsRenderCanonical 0 e' = ['0'] from by unfold jsRenderCanonical; rw [if_pos rfl]]
    rw [show matchDecimalRegex ['0'] = none from rfl]
    simp
  · by_cases hcond : -6 < ((natToDigits m'.natAbs).length : Int) - (e' : Int) ∧
        ((natToDigits m'.natAbs).length : Int) - (e' : Int) ≤ 21
    · have hrw : jsRenderCanonical m' e' = numToString m' e' := by
        unfold jsRenderCanonical
        rw [if_neg h0, if_pos hcond]
      rw [hrw, matchDecimalRegex_numToString]
      constructor
      · rintro ⟨rfl, rfl, hk⟩
        refine ⟨rfl, rfl, hk, ?_⟩
        have hdig1 : (natToDigits (Int.natAbs 1)).length = 1 := by decide
        rw [hdig1] at hcond
        omega
      · rintro ⟨rfl, rfl, hk, h6⟩
        exact ⟨rfl, rfl, hk⟩
    · have habs : 0 < m'.natAbs := by omega
      obtain ⟨d, ds, hd⟩ := List.exists_cons_of_ne_nil (natToDigits_ne_nil m'.natAbs)
      have hd0 : ¬(d = '0') := by
        intro hcon
        subst hcon
        exact natToDigits_head_ne_zero habs ds hd
      have hddot : ¬(d = '.') :=
        digit_ne_dot (natToDigits_all_digits m'.natAbs d (by rw [hd]; exact List.mem_cons_self d ds))
      have hrw : jsRenderCanonical m' e' =
          (if m' < 0 then ['-'] else []) ++ expMantissa (natToDigits m'.natAbs) ++
            'e' :: (if ((natToDigits m'.natAbs).length : Int) - (e' : Int) - 1 < 0 then '-'
              else '+') ::
              natToDigits (((natToDigits m'.natAbs).length : Int) - (e' : Int) - 1).natAbs := by
        unfold jsRenderCanonical
        rw [if_neg h0, if_neg hcond]
      rw [hrw, hd]
      rw [show expMantissa (d :: ds) = d :: (if ds = [] then [] else '.' :: ds) from rfl]
      constructor
      · intro h
        exfalso
        by_cases hneg : m' < 0
        · rw [if_pos hneg] at h
          simp [matchDecimalRegex] at h
        · rw [if_neg hneg, List.nil_append] at h
          simp [matchDecimalRegex, hd0, hddot] at h
      · rintro ⟨rfl, rfl, hk, h6⟩
        exfalso
        apply hcond
        have hdig1 : (natToDigits (Int.natAbs 1)).length = 1 := by decide
        rw [hdig1]
        omega

theorem matchDecimalRegex_jsNumToString {m : Int} {e k : Nat} :
    matchDecimalRegex (jsNumToString m e) = some k ↔
      stripZeros m e = (1, k) ∧ 1 ≤ k ∧ k ≤ 6 := by
  unfold jsNumToString
  rw [matchDecimalRegex_jsRenderCanonical]
  constructor
  · rintro ⟨h1, h2, hk, h6⟩
    refine ⟨?_, hk, h6⟩
    rw [show stripZeros m e = ((stripZeros m e).1, (stripZeros m e).2) from rfl, h1, h2]
  · rintro ⟨h, hk, h6⟩
    rw [h]
    exact ⟨rfl, rfl, hk, h6⟩

/-- `getDecimalPlaces` succeeds with `k` exactly on a number whose
canonical form is `10^(-k)` with `1 ≤ k ≤ 6`; every other number -
including `10^(-k)` for `k ≥ 7`, whose rendering is exponential - is
rejected. -/
theorem getDecimalPlaces_num (mo : Int) (eo : Nat) :
    getDecimalPlaces (.num mo eo) =
      (match matchDecimalRegex (jsNumToString mo eo) with
       | some k => Except.ok k
       | none =>
         Except.error "Needed a number with a decimal point like .1, .01, .001, etc") := rfl

theorem getDecimalPlaces_ok_iff {mo : Int} {eo k : Nat} :
    getDecimalPlaces (.num mo eo) = .ok k ↔
      stripZeros mo eo = (1, k) ∧ 1 ≤ k ∧ k ≤ 6 := by
  rw [getDecimalPlaces_num]
  constructor
  · intro h
    cases hm : matchDecimalRegex (jsNumToString mo eo) with
    | none => rw [hm] at h; cases h
    | some k2 =>
      rw [hm] at h
      have hk2 : k2 = k := by injection h
      subst hk2
      exact matchDecimalRegex_jsNumToString.mp hm
  · intro h
    rw [matchDecimalRegex_jsNumToString.mpr h]

theorem getDecimalPlaces_error {mo : Int} {eo : Nat}
    (h : ∀ k, ¬(stripZeros mo eo = (1, k) ∧ 1 ≤ k ∧ k ≤ 6)) :
    ∃ msg, getDecimalPlaces (.num mo eo) = .error msg := by
  rw [getDecimalPlaces_num]
  cases hm : matchDecimalRegex (jsNumToString mo eo) with
  | none => exact ⟨_, rfl⟩
  | some k =>
    obtain ⟨h1, h2, h3⟩ := matchDecimalRegex_jsNumToString.mp hm
    exact absurd ⟨h1, h2, h3⟩ (h k)

theorem convert_step_resolved {fuel : Nat} {node : Json} {opts : ISchemaParsingOpts}
    {nm : String} {root : Option Json} (hr : refOf node = none) :
    convertToInternalSchemaObj (fuel + 1) node opts nm root =
      convertResolvedNode fuel node opts nm (root.getD node) := by
  simp only [convertToInternalSchemaObj]
  rw [hr]

theorem exceptPure_eq_ok {α : Type} (a : α) : (pure a : Except String α) = Except.ok a := rfl

theorem convert_step_override {fuel : Nat} {node ov : Json} {opts : ISchemaParsingOpts}
    {nm : String} {root : Option Json} {r : String} (hr : refOf node = some r)
    (hov : lookupStr JSON_SCHEMA_OVERRIDE_DEFS r = some ov) :
    convertToInternalSchemaObj (fuel + 1) node opts nm root = .ok ov := by
  simp only [convertToInternalSchemaObj]
  rw [hr]
  simp only [hov]
  rfl

theorem resolved_dispatch_integer {fuel : Nat} {node : Json} {opts : ISchemaParsingOpts}
    {nm : String} {root : Json}
    (ht : lookupStr (fieldsOfJson node) TYPE_STR = some (.str "integer")) :
    convertResolvedNode (fuel + 1) node opts nm root = parseIntegerType node opts nm := by
  simp only [convertResolvedNode]
  rw [ht]
  rfl

theorem resolved_dispatch_number {fuel : Nat} {node : Json} {opts : ISchemaParsingOpts}
    {nm : String} {root : Json}
    (ht : lookupStr (fieldsOfJson node) TYPE_STR = some (.str "number")) :
    convertResolvedNode (fuel + 1) node opts nm root = parseNumberType node opts nm := by
  simp only [convertResolvedNode]
  rw [ht]
  rfl

theorem resolved_dispatch_array {fuel : Nat} {node : Json} {opts : ISchemaParsingOpts}
    {nm : String} {root : Json} {items : List Json}
    (ht : lookupStr (fieldsOfJson node) TYPE_STR = some (.str "array"))
    (hi : lookupStr (fieldsOfJson node) "items" = some (.arr items)) :
    convertResolvedNode (fuel + 1) node opts nm root =
      (convertItems fuel items opts nm root).map Json.arr := by
  simp only [convertResolvedNode]
  rw [ht]
  simp only [hi]

theorem parseIntegerType_with_min {node : Json} {opts : ISchemaParsingOpts} {nm : String}
    {mm : Int} {me : Nat}
    (hmin : lookupStr (fieldsOfJson node) "minimum" = some (.num mm me)) :
    parseIntegerType node opts nm =
      (if 0 ≤ mm then Except.ok (.obj [(TYPE_STR, .str POSITIVE_INT_TYPE)])
       else Except.ok (.obj [(TYPE_STR, .str INT_TYPE), ("minimum", .num mm me)])) := by
  unfold parseIntegerType
  rw [hmin]
  by_cases h0 : 0 ≤ mm <;> simp [jsonGe0, h0, exceptPure_eq_ok]

theorem parseIntegerType_strict_missing {node : Json} {opts : ISchemaParsingOpts}
    {nm : String} (hu : opts.useDefaults = false)
    (hmin : lookupStr (fieldsOfJson node) "minimum" = none) :
    ∃ msg, parseIntegerType node opts nm = .error msg := by
  refine ⟨"No minimum was provided for key " ++ nm, ?_⟩
  unfold parseIntegerType
  rw [hmin, hu]
  rfl

theorem parseNumberType_good {node : Json} {opts : ISchemaParsingOpts} {nm : String}
    {mm : Int} {me kk : Nat}
    (hmin : lookupStr (fieldsOfJson node) "minimum" = some (.num mm me))
    (hmult : lookupStr (fieldsOfJson node) "multipleOf" = some (.num 1 kk))
    (hk : 1 ≤ kk) (hk6 : kk ≤ 6) :
    parseNumberType node opts nm =
      (if 0 ≤ mm then
        Except.ok (.obj [(TYPE_STR, .str POSITIVE_NUM_TYPE), ("decimalPlaces", .num kk 0)])
       else
        Except.ok (.obj [(TYPE_STR, .str NUM_TYPE), ("minimum", .num mm me),
          ("decimalPlaces", .num kk 0)])) := by
  unfold parseNumberType
  rw [hmin, hmult]
  have hgd : getDecimalPlaces (.num 1 kk) = .ok kk :=
    getDecimalPlaces_ok_iff.mpr ⟨stripZeros_one kk, hk, hk6⟩
  by_cases h0 : 0 ≤ mm <;> simp [hgd, jsonGe0, h0, Except.bind, exceptPure_eq_ok]

theorem parseNumberType_bad_multipleOf {node : Json} {opts : ISchemaParsingOpts}
    {nm : String} {mo : Int} {eo : Nat}
    (hmult : lookupStr (fieldsOfJson node) "multipleOf" = some (.num mo eo))
    (hbad : ∀ k, ¬(stripZeros mo eo = (1, k) ∧ 1 ≤ k ∧ k ≤ 6)) :
    ∃ msg, parseNumberType node opts nm = .error msg := by
  unfold parseNumberType
  rw [hmult]
  obtain ⟨msg, hgd⟩ := getDecimalPlaces_error hbad
  split
  · exact ⟨_, rfl⟩
  · exact ⟨msg, by simp [hgd, Except.bind]⟩

theorem parseNumberType_strict_missing {node : Json} {opts : ISchemaParsingOpts}
    {nm : String} (hu : opts.useDefaults = false)
    (hmiss : (lookupStr (fieldsOfJson node) "minimum").isNone = true ∨
      (lookupStr (fieldsOfJson node) "multipleOf").isNone = true) :
    ∃ msg, parseNumberType node opts nm = .error msg := by
  refine ⟨"both minimum and multipleOf must be provided for key " ++ nm, ?_⟩
  unfold parseNumberType
  rw [if_pos ⟨hu, hmiss⟩]
  rfl

theorem convertItems_ok {items : List Json} :
    ∀ {fuel : Nat} {opts : ISchemaParsingOpts} {nm : String} {root : Json}
      {vs : List Json}, convertItems fuel items opts nm root = .ok vs →
      vs.length = items.length ∧
      ∀ i (hi : i < items.length) (hi2 : i < vs.length), ∃ f, f < fuel ∧
        convertToInternalSchemaObj f (items.get ⟨i, hi⟩) opts
          (createFullName nm "[object Object]") (some root) = .ok (vs.get ⟨i, hi2⟩) := by
  induction items with
  | nil =>
    intro fuel opts nm root vs h
    cases fuel with
    | zero => cases h
    | succ fuel =>
      have hvs : vs = [] := by
        have h2 : (Except.ok ([] : List Json) : Except String (List Json)) = .ok vs := h
        injection h2 with h2
        exact h2.symm
      subst hvs
      exact ⟨rfl, fun i hi => absurd hi (by simp)⟩
  | cons v rest ih =>
    intro fuel opts nm root vs h
    cases fuel with
    | zero => cases h
    | succ fuel =>
      simp only [convertItems] at h
      cases hcv : convertToInternalSchemaObj fuel v opts
          (createFullName nm "[object Object]") (some root) with
      | error e =>
        rw [hcv] at h
        have h2 : (Except.error e : Except String (List Json)) = .ok vs := h
        cases h2
      | ok cv =>
        rw [hcv] at h
        cases hcr : convertItems fuel rest opts nm root with
        | error e =>
          rw [hcr] at h
          have h2 : (Except.error e : Except String (List Json)) = .ok vs := h
          cases h2
        | ok crest =>
          rw [hcr] at h
          have hvs : vs = cv :: crest := by
            have h2 : (Except.ok (cv :: crest) : Except String (List Json)) = .ok vs := h
            injection h2 with h2
            exact h2.symm
          subst hvs
          obtain ⟨hlen, hpt⟩ := ih hcr
          refine ⟨by simp [hlen], ?_⟩
          intro i hi hi2
          cases i with
          | zero => exact ⟨fuel, Nat.lt_succ_self fuel, hcv⟩
          | succ i =>
            obtain ⟨f, hf, hcf⟩ := hpt i (by simpa using hi) (by simpa using hi2)
            exact ⟨f, Nat.lt_succ_of_lt hf, hcf⟩

/-- Conversion of a two-attribute document matches the repository's
behaviour: the encryptable `$ref` becomes a reversible-string leaf
and `multipleOf: 0.1` becomes one decimal place. -/
theorem convertToInternalSchemaObj_example : convertToInternalSchemaObj 10
    (.obj [(TYPE_STR, .str "object"), ("properties", .obj
      [("SSN", .obj [("$ref", .str "#/definitions/encryptableString")]),
       ("score", .obj [(TYPE_STR, .str "number"), ("minimum", .num (-100) 0),
         ("multipleOf", .num 1 1)])])])
    DefaultSchemaParsingOpts "" none =
  .ok (.obj
    [("SSN", .obj [(TYPE_STR, .str STR_REV_TYPE), ("compress", .bool false)]),
     ("score", .obj [(TYPE_STR, .str NUM_TYPE), ("minimum", .num (-100) 0),
       ("decimalPlaces", .num 1 0)])]) := rfl

/-- C6 (corrected): conversion of a JSON-Schema document to the
internal schema. A `$ref` to the known encryptable definitions maps
to `stringReversible` (compress false for `encryptableString`, true
for `encryptableCompString`); type `integer` with `minimum ≥ 0` maps
to `positiveInteger` and with a negative minimum to
`integer{minimum}`; type `number` maps to `positiveDecimalNumber` or
`decimalNumber` with `decimalPlaces = k` exactly when `multipleOf`
is canonically `10^(-k)` with `1 ≤ k ≤ 6` - for `k ≥ 7` the
`Number.prototype.toString` rendering is exponential (`1e-7`), the
regex `^0?\.(0*1$)` does not match it, and the number is rejected
like every other `multipleOf`; array `items` produce indexed
sub-schemas (the converted items in order); under strict parsing an
integer without `minimum`, or a number missing `minimum` or
`multipleOf`, is rejected with an error. -/
theorem C6_convertToInternalSchemaObj_conversion_rules :
    (∀ fuel node opts nm root, refOf node = some "#/definitions/encryptableString" →
      convertToInternalSchemaObj (fuel + 1) node opts nm root =
        .ok (.obj [(TYPE_STR, .str STR_REV_TYPE), ("compress", .bool false)])) ∧
    (∀ fuel node opts nm root, refOf node = some "#/definitions/encryptableCompString" →
      convertToInternalSchemaObj (fuel + 1) node opts nm root =
        .ok (.obj [(TYPE_STR, .str STR_REV_TYPE), ("compress", .bool true)])) ∧
    (∀ fuel node opts nm root mm me, refOf node = none →
      lookupStr (fieldsOfJson node) TYPE_STR = some (.str "integer") →
      lookupStr (fieldsOfJson node) "minimum" = some (.num mm me) →
      convertToInternalSchemaObj (fuel + 2) node opts nm root =
        (if 0 ≤ mm then Except.ok (.obj [(TYPE_STR, .str POSITIVE_INT_TYPE)])
         else Except.ok (.obj [(TYPE_STR, .str INT_TYPE), ("minimum", .num mm me)]))) ∧
    (∀ fuel node opts nm root, refOf node = none → opts.useDefaults = false →
      lookupStr (fieldsOfJson node) TYPE_STR = some (.str "integer") →
      lookupStr (fieldsOfJson node) "minimum" = none →
      ∃ msg, convertToInternalSchemaObj (fuel + 2) node opts nm root = .error msg) ∧
    (∀ fuel node opts nm root mm me kk, refOf node = none →
      lookupStr (fieldsOfJson node) TYPE_STR = some (.str "number") →
      lookupStr (fieldsOfJson node) "minimum" = some (.num mm me) →
      lookupStr (fieldsOfJson node) "multipleOf" = some (.num 1 kk) → 1 ≤ kk → kk ≤ 6 →
      convertToInternalSchemaObj (fuel + 2) node opts nm root =
        (if 0 ≤ mm then
          Except.ok (.obj [(TYPE_STR, .str POSITIVE_NUM_TYPE), ("decimalPlaces", .num kk 0)])
         else
          Except.ok (.obj [(TYPE_STR, .str NUM_TYPE), ("minimum", .num mm me),
            ("decimalPlaces", .num kk 0)]))) ∧
    (∀ fuel node opts nm root mo eo, refOf node = none →
      lookupStr (fieldsOfJson node) TYPE_STR = some (.str "number") →
      lookupStr (fieldsOfJson node) "multipleOf" = some (.num mo eo) →
      (∀ k, ¬(stripZeros mo eo = (1, k) ∧ 1 ≤ k ∧ k ≤ 6)) →
      ∃ msg, convertToInternalSchemaObj (fuel + 2) node opts nm root = .error msg) ∧
    (∀ fuel node opts nm root kk, refOf node = none →
      lookupStr (fieldsOfJson node) TYPE_STR = some (.str "number") →
      lookupStr (fieldsOfJson node) "multipleOf" = some (.num 1 kk) → 7 ≤ kk →
      ∃ msg, convertToInternalSchemaObj (fuel + 2) node opts nm root = .error msg) ∧
    (∀ fuel node opts nm root, refOf node = none → opts.useDefaults = false →
      lookupStr (fieldsOfJson node) TYPE_STR = some (.str "number") →
      ((lookupStr (fieldsOfJson node) "minimum").isNone = true ∨
        (lookupStr (fieldsOfJson node) "multipleOf").isNone = true) →
      ∃ msg, convertToInternalSchemaObj (fuel + 2) node opts nm root = .error msg) ∧
    (∀ fuel node opts nm root items vs, refOf node = none →
      lookupStr (fieldsOfJson node) TYPE_STR = some (.str "array") →
      lookupStr (fieldsOfJson node) "items" = some (.arr items) →
      convertToInternalSchemaObj (fuel + 2) node opts nm root = .ok (.arr vs) →
      vs.length = items.length ∧
      ∀ i (hi : i < items.length) (hi2 : i < vs.length), ∃ f, f < fuel + 1 ∧
        convertToInternalSchemaObj f (items.get ⟨i, hi⟩) opts
          (createFullName nm "[object Object]") (some (root.getD node)) =
          .ok (vs.get ⟨i, hi2⟩)) := by
  refine ⟨?_, ?_, ?_, ?_, ?_, ?_, ?_, ?_, ?_⟩
  · intro fuel node opts nm root hr
    exact convert_step_override hr rfl
  · intro fuel node opts nm root hr
    exact convert_step_override hr rfl
  · intro fuel node opts nm root mm me hr ht hmin
    rw [convert_step_resolved hr, resolved_dispatch_integer ht]
    exact parseIntegerType_with_min hmin
  · intro fuel node opts nm root hr hu ht hmin
    rw [convert_step_resolved hr, resolved_dispatch_integer ht]
    exact parseIntegerType_strict_missing hu hmin
  · intro fuel node opts nm root mm me kk hr ht hmin hmult hk hk6
    rw [convert_step_resolved hr, resolved_dispatch_number ht]
    exact parseNumberType_good hmin hmult hk hk6
  · intro fuel node opts nm root mo eo hr ht hmult hbad
    rw [convert_step_resolved hr, resolved_dispatch_number ht]
    exact parseNumberType_bad_multipleOf hmult hbad
  · intro fuel node opts nm root kk hr ht hmult hk7
    rw [convert_step_resolved hr, resolved_dispatch_number ht]
    refine parseNumberType_bad_multipleOf hmult ?_
    intro k hcon
    obtain ⟨heq, h1, h6⟩ := hcon
    rw [stripZeros_one] at heq
    injection heq with ha hb
    omega
  · intro fuel node opts nm root hr hu ht hmiss
    rw [convert_step_resolved hr, resolved_dispatch_number ht]
    exact parseNumberType_strict_missing hu hmiss
  · intro fuel node opts nm root items vs hr ht hitems hconv
    rw [convert_step_resolved hr, resolved_dispatch_array ht hitems] at hconv
    cases hc : convertItems fuel items opts nm (root.getD node) with
    | error e =>
      rw [hc] at hconv
      cases hconv
    | ok vs2 =>
      rw [hc] at hconv
      have hvs : vs2 = vs := by
        have h2 : (Except.ok (Json.arr vs2) : Except String Json) = .ok (.arr vs) := hconv
        injection h2 with h2
        injection h2 with h2
      subst hvs
      obtain ⟨hlen, hpt⟩ := convertItems_ok hc
      refine ⟨hlen, ?_⟩
      intro i hi hi2
      obtain ⟨f, hf, hcf⟩ := hpt i hi hi2
      exact ⟨f, Nat.lt_succ_of_lt hf, hcf⟩

/-- C6 witness: the conversion rules applied at concrete nodes,
including the acceptance of `multipleOf = 0.01` and the rejection of
the exponentially-rendered `multipleOf = 10^(-7)`. -/
theorem C6_convertToInternalSchemaObj_conversion_rules_witness :
    (convertToInternalSchemaObj 1 (.obj [("$ref", .str "#/definitions/encryptableString")])
        DefaultSchemaParsingOpts "" none =
      .ok (.obj [(TYPE_STR, .str STR_REV_TYPE), ("compress", .bool false)])) ∧
    (convertToInternalSchemaObj 2 (.obj [(TYPE_STR, .str "integer"), ("minimum", .num 0 0)])
        DefaultSchemaParsingOpts "" none =
      .ok (.obj [(TYPE_STR, .str POSITIVE_INT_TYPE)])) ∧
    (convertToInternalSchemaObj 2
        (.obj [(TYPE_STR, .str "number"), ("minimum", .num 0 0), ("multipleOf", .num 1 2)])
        DefaultSchemaParsingOpts "" none =
      .ok (.obj [(TYPE_STR, .str POSITIVE_NUM_TYPE), ("decimalPlaces", .num 2 0)])) ∧
    (∃ msg, convertToInternalSchemaObj 2
        (.obj [(TYPE_STR, .str "number"), ("minimum", .num 0 0), ("multipleOf", .num 2 1)])
        DefaultSchemaParsingOpts "" none = .error msg) ∧
    (∃ msg, convertToInternalSchemaObj 2
        (.obj [(TYPE_STR, .str "number"), ("minimum", .num 0 0), ("multipleOf", .num 1 7)])
        DefaultSchemaParsingOpts "" none = .error msg) ∧
    (∃ msg, convertToInternalSchemaObj 2 (.obj [(TYPE_STR, .str "integer")])
        DefaultSchemaParsingOpts "" none = .error msg) := by
  refine ⟨?_, ?_, ?_, ?_, ?_, ?_⟩
  · exact C6_convertToInternalSchemaObj_conversion_rules.1 0 _ _ "" none rfl
  · have h := C6_convertToInternalSchemaObj_conversion_rules.2.2.1 0
      (.obj [(TYPE_STR, .str "integer"), ("minimum", .num 0 0)])
      DefaultSchemaParsingOpts "" none 0 0 rfl rfl rfl
    rw [if_pos (by decide)] at h
    exact h
  · have h := C6_convertToInternalSchemaObj_conversion_rules.2.2.2.2.1 0
      (.obj [(TYPE_STR, .str "number"), ("minimum", .num 0 0), ("multipleOf", .num 1 2)])
      DefaultSchemaParsingOpts "" none 0 0 2 rfl rfl rfl rfl (by omega) (by omega)
    rw [if_pos (by decide)] at h
    exact h
  · exact C6_convertToInternalSchemaObj_conversion_rules.2.2.2.2.2.1 0
      (.obj [(TYPE_STR, .str "number"), ("minimum", .num 0 0), ("multipleOf", .num 2 1)])
      DefaultSchemaParsingOpts "" none 2 1 rfl rfl rfl
      (by
        intro k hcon
        obtain ⟨heq, h1, h6⟩ := hcon
        rw [show stripZeros 2 1 = ((2 : Int), 1) from rfl] at heq
        injection heq with ha hb
        exact absurd ha (by decide))
  · exact C6_convertToInternalSchemaObj_conversion_rules.2.2.2.2.2.2.1 0
      (.obj [(TYPE_STR, .str "number"), ("minimum", .num 0 0), ("multipleOf", .num 1 7)])
      DefaultSchemaParsingOpts "" none 7 rfl rfl rfl (by omega)
  · exact C6_convertToInternalSchemaObj_conversion_rules.2.2.2.1 0
      (.obj [(TYPE_STR, .str "integer")])
      DefaultSchemaParsingOpts "" none rfl rfl rfl rfl

/-- C6 counterexample to the original claim: `multipleOf = 10^(-7)`
is of the form `10^(-k)` with `k ≥ 1`, yet the conversion rejects it
instead of producing `decimalPlaces = 7` - the
`Number.prototype.toString` rendering of `1e-7` is the exponential
`1e-7`, which the regex `^0?\.(0*1$)` does not match. -/
theorem C6_exponential_multipleOf_rejected_counterexample :
    jsNumToString 1 7 = ['1', 'e', '-', '7'] ∧
    convertToInternalSchemaObj 2
        (.obj [(TYPE_STR, .str "number"), ("minimum", .num 0 0), ("multipleOf", .num 1 7)])
        DefaultSchemaParsingOpts "" none =
      .error "Needed a number with a decimal point like .1, .01, .001, etc" ∧
    ¬(convertToInternalSchemaObj 2
        (.obj [(TYPE_STR, .str "number"), ("minimum", .num 0 0), ("multipleOf", .num 1 7)])
        DefaultSchemaParsingOpts "" none =
      .ok (.obj [(TYPE_STR, .str POSITIVE_NUM_TYPE), ("decimalPlaces", .num 7 0)])) := by
  refine ⟨rfl, rfl, fun hcon => ?_⟩
  rw [show convertToInternalSchemaObj 2
      (.obj [(TYPE_STR, .str "number"), ("minimum", .num 0 0), ("multipleOf", .num 1 7)])
      DefaultSchemaParsingOpts "" none =
    Except.error "Needed a number with a decimal point like .1, .01, .001, etc" from rfl] at hcon
  cases hcon

theorem foldl_digits_shift (cs : List Char) (a : Nat) :
    cs.foldl (fun a c => a * 10 + (c.toNat - 48)) a =
      a * 10 ^ cs.length + charsToNat cs := by
  induction cs generalizing a with
  | nil => simp [charsToNat]
  | cons c rest ih =>
    simp only [List.foldl_cons, List.length_cons]
    rw [ih]
    have h2 : charsToNat (c :: rest) =
        (c.toNat - 48) * 10 ^ rest.length + charsToNat rest := by
      show List.foldl (fun a c => a * 10 + (c.toNat - 48)) (0 * 10 + (c.toNat - 48)) rest = _
      rw [ih]
      simp only [Nat.zero_mul, Nat.zero_add]
    rw [h2]
    ring

theorem charsToNat_append (xs ys : List Char) :
    charsToNat (xs ++ ys) = charsToNat xs * 10 ^ ys.length + charsToNat ys := by
  unfold charsToNat
  rw [List.foldl_append, foldl_digits_shift]
  rfl

theorem charsToNat_replicate_zero_append (j : Nat) (ys : List Char) :
    charsToNat (List.replicate j '0' ++ ys) = charsToNat ys := by
  induction j with
  | zero => simp
  | succ j ih =>
    rw [List.replicate_succ, List.cons_append]
    unfold charsToNat at ih ⊢
    simp only [List.foldl_cons]
    have h0 : (0 * 10 + ('0'.toNat - 48)) = 0 := by decide
    rw [h0]
    exact ih

theorem charsToNat_natDigitsSpec (n : Nat) : charsToNat (natDigitsSpec n) = n := by
  induction n using Nat.strong_induction_on with
  | _ n ih =>
    rw [natDigitsSpec]
    by_cases h : n < 10
    · simp only [dif_pos h]
      unfold charsToNat
      simp only [List.foldl_cons, List.foldl_nil]
      rw [digitChar_toNat n h]
      omega
    · simp only [dif_neg h]
      rw [charsToNat_append]
      rw [ih (n / 10) (Nat.div_lt_self (by omega) (by omega))]
      unfold charsToNat
      simp only [List.length_cons, List.length_nil, List.foldl_cons, List.foldl_nil]
      rw [digitChar_toNat (n % 10) (Nat.mod_lt n (by omega))]
      have := Nat.div_add_mod n 10
      omega

theorem charsToNat_natToDigits (n : Nat) : charsToNat (natToDigits n) = n := by
  rcases Nat.eq_zero_or_pos n with rfl | h
  · decide
  · rw [natToDigits_eq_spec h]
    exact charsToNat_natDigitsSpec n

theorem charsToNat_paddedDigits (a e : Nat) : charsToNat (paddedDigits a e) = a := by
  unfold paddedDigits
  by_cases h : (natToDigits a).length ≤ e
  · rw [if_pos h, charsToNat_replicate_zero_append, charsToNat_natToDigits]
  · rw [if_neg h, charsToNat_natToDigits]

theorem escJ_cons (c : Char) (cs : List Char) :
    escJ (c :: cs) = escapeChar c ++ escJ cs := rfl

theorem parseHexDigit_hexLower : ∀ d, d < 16 → parseHexDigit (hexLower d) = some d := by
  decide

theorem parseHexDigit_hexUpper : ∀ d, d < 16 → parseHexDigit (hexUpper d) = some d := by
  decide

theorem mkString_data (s : String) : String.mk s.data = s := rfl

theorem parseJStringAux_unicode (f2 n : Nat) (hn : n < 32) (tail : List Char) :
    parseJStringAux (f2 + 1 + 1)
      ('\\' :: 'u' :: '0' :: '0' :: hexLower (n / 16) :: hexLower (n % 16) :: tail) =
      (parseJStringAux (f2 + 1) tail).map (fun p => (Char.ofNat n :: p.1, p.2)) := by
  have h1 := parseHexDigit_hexLower (n / 16) (by omega)
  have h2 := parseHexDigit_hexLower (n % 16) (by omega)
  have hv : 0 * 4096 + 0 * 256 + n / 16 * 16 + n % 16 = n := by omega
  have hv2 : n / 16 * 16 + n % 16 = n := by omega
  have h0 : parseHexDigit '0' = some 0 := by decide
  simp [parseJStringAux, h0, h1, h2, hv, hv2]

theorem parseJStringAux_escJ (s : List Char) :
    ∀ fuel rest, (escJ s).length < fuel →
      parseJStringAux fuel (escJ s ++ '"' :: rest) = some (s, rest) := by
  induction s with
  | nil =>
    intro fuel rest hfuel
    cases fuel with
    | zero => omega
    | succ f => simp [escJ, parseJStringAux]
  | cons c cs ih =>
    intro fuel rest hfuel
    rw [escJ_cons] at hfuel ⊢
    rw [List.append_assoc]
    by_cases hc1 : c = '"'
    · subst hc1
      rw [show escapeChar '"' = ['\\', '"'] from by decide] at hfuel ⊢
      simp only [List.length_append, List.length_cons, List.length_nil] at hfuel
      cases fuel with
      | zero => omega
      | succ f =>
        cases f with
        | zero => omega
        | succ f2 =>
          simp only [List.cons_append, List.nil_append]
          simp [parseJStringAux, ih (f2 + 1) rest (by omega)]
    · by_cases hc2 : c = '\\'
      · subst hc2
        rw [show escapeChar '\\' = ['\\', '\\'] from by decide] at hfuel ⊢
        simp only [List.length_append, List.length_cons, List.length_nil] at hfuel
        cases fuel with
        | zero => omega
        | succ f =>
          cases f with
          | zero => omega
          | succ f2 =>
            simp only [List.cons_append, List.nil_append]
            simp [parseJStringAux, ih (f2 + 1) rest (by omega)]
      · by_cases hc3 : c = Char.ofNat 8
        · subst hc3
          rw [show escapeChar (Char.ofNat 8) = ['\\', 'b'] from by decide] at hfuel ⊢
          simp only [List.length_append, List.length_cons, List.length_nil] at hfuel
          cases fuel with
          | zero => omega
          | succ f =>
            cases f with
            | zero => omega
            | succ f2 =>
              simp only [List.cons_append, List.nil_append]
              simp [parseJStringAux, ih (f2 + 1) rest (by omega)]
        · by_cases hc4 : c = Char.ofNat 12
          · subst hc4
            rw [show escapeChar (Char.ofNat 12) = ['\\', 'f'] from by decide] at hfuel ⊢
            simp only [List.length_append, List.length_cons, List.length_nil] at hfuel
            cases fuel with
            | zero => omega
            | succ f =>
              cases f with
              | zero => omega
              | succ f2 =>
                simp only [List.cons_append, List.nil_append]
                simp [parseJStringAux, ih (f2 + 1) rest (by omega)]
          · by_cases hc5 : c = Char.ofNat 10
            · subst hc5
              rw [show escapeChar (Char.ofNat 10) = ['\\', 'n'] from by decide] at hfuel ⊢
              simp only [List.length_append, List.length_cons, List.length_nil] at hfuel
              cases fuel with
              | zero => omega
              | succ f =>
                cases f with
                | zero => omega
                | succ f2 =>
                  simp only [List.cons_append, List.nil_append]
                  simp [parseJStringAux, ih (f2 + 1) rest (by omega)]
            · by_cases hc6 : c = Char.ofNat 13
              · subst hc6
                rw [show escapeChar (Char.ofNat 13) = ['\\', 'r'] from by decide]
                  at hfuel ⊢
                simp only [List.length_append, List.length_cons, List.length_nil] at hfuel
                cases fuel with
                | zero => omega
                | succ f =>
                  cases f with
                  | zero => omega
                  | succ f2 =>
                    simp only [List.cons_append, List.nil_append]
                    simp [parseJStringAux, ih (f2 + 1) rest (by omega)]
              · by_cases hc7 : c = Char.ofNat 9
                · subst hc7
                  rw [show escapeChar (Char.ofNat 9) = ['\\', 't'] from by decide]
                    at hfuel ⊢
                  simp only [List.length_append, List.length_cons, List.length_nil] at hfuel
                  cases fuel with
                  | zero => omega
                  | succ f =>
                    cases f with
                    | zero => omega
                    | succ f2 =>
                      simp only [List.cons_append, List.nil_append]
                      simp [parseJStringAux, ih (f2 + 1) rest (by omega)]
                · by_cases hc8 : c.toNat < 32
                  · rw [show escapeChar c =
                        ['\\', 'u', '0', '0', hexLower (c.toNat / 16),
                          hexLower (c.toNat % 16)] from by
                        unfold escapeChar
                        rw [if_neg hc1, if_neg hc2, if_neg hc3, if_neg hc4, if_neg hc5,
                          if_neg hc6, if_neg hc7, if_pos hc8]] at hfuel ⊢
                    simp only [List.length_append, List.length_cons, List.length_nil]
                      at hfuel
                    cases fuel with
                    | zero => omega
                    | succ f =>
                      cases f with
                      | zero => omega
                      | succ f2 =>
                        simp only [List.cons_append, List.nil_append]
                        rw [parseJStringAux_unicode f2 c.toNat hc8]
                        rw [ih (f2 + 1) rest (by omega)]
                        simp [Char.ofNat_toNat]
                  · rw [show escapeChar c = [c] from by
                        unfold escapeChar
                        rw [if_neg hc1, if_neg hc2, if_neg hc3, if_neg hc4, if_neg hc5,
                          if_neg hc6, if_neg hc7, if_neg hc8]] at hfuel ⊢
                    simp only [List.length_append, List.length_cons, List.length_nil]
                      at hfuel
                    cases fuel with
                    | zero => omega
                    | succ f =>
                      simp only [List.cons_append, List.nil_append]
                      simp [parseJStringAux, hc1, hc2, ih f rest (by omega)]

theorem spanDigits_exact : ∀ (ds : List Char), (∀ c ∈ ds, isDigitCh c = true) →
    ∀ (rest : List Char), (∀ c t, rest = c :: t → isDigitCh c = false) →
      spanDigits (ds ++ rest) = (ds, rest) := by
  intro ds
  induction ds with
  | nil =>
    intro _ rest hr
    cases rest with
    | nil => rfl
    | cons c t =>
      simp only [List.nil_append, spanDigits]
      rw [if_neg (by simp [hr c t rfl])]
  | cons d ds' ih =>
    intro hds rest hr
    simp only [List.cons_append, spanDigits]
    rw [if_pos (hds d (List.mem_cons_self d ds'))]
    simp only [List.append_eq]
    rw [ih (fun c hc => hds c (List.mem_cons_of_mem d hc)) rest hr]

theorem paddedDigits_zero_e (a : Nat) : paddedDigits a 0 = natToDigits a := by
  have h1 : 0 < (natToDigits a).length := List.length_pos.mpr (natToDigits_ne_nil a)
  unfold paddedDigits
  rw [if_neg (by omega)]

theorem numToString_eq_body (m : Int) (e : Nat) :
    numToString m e = (if m < 0 then ['-'] else []) ++ numBodyChars m.natAbs e := rfl

theorem numBodyChars_cons (a e : Nat) :
    ∃ c t, numBodyChars a e = c :: t ∧ 48 ≤ c.toNat ∧ c.toNat ≤ 57 := by
  have hPne : paddedDigits a e ≠ [] := by
    have := length_paddedDigits_gt a e
    exact List.ne_nil_of_length_pos (by omega)
  obtain ⟨p0, P1, hP⟩ := List.exists_cons_of_ne_nil hPne
  have hp0 : 48 ≤ p0.toNat ∧ p0.toNat ≤ 57 :=
    paddedDigits_all_digits a e p0 (by rw [hP]; exact List.mem_cons_self _ _)
  unfold numBodyChars
  by_cases he : e = 0
  · rw [if_pos he, hP]
    exact ⟨p0, P1, rfl, hp0⟩
  · rw [if_neg he, hP]
    have hlg := length_paddedDigits_gt a e
    rw [hP] at hlg
    obtain ⟨t', ht'⟩ : ∃ t', (p0 :: P1).length - e = t' + 1 := ⟨(p0 :: P1).length - e - 1, by omega⟩
    rw [ht', List.take_succ_cons, List.cons_append]
    exact ⟨p0, _, rfl, hp0⟩

theorem parseNumberCore_correct (a e : Nat) (neg : Bool) (rest : List Char)
    (hrest : ∀ c t, rest = c :: t → isDigitCh c = false ∧ ¬(c = '.')) :
    parseNumberCore neg (numBodyChars a e ++ rest) = some ((intOfParts neg a, e), rest) := by
  by_cases he : e = 0
  · subst he
    rw [show numBodyChars a 0 = natToDigits a from by
      unfold numBodyChars; rw [if_pos rfl]; exact paddedDigits_zero_e a]
    have hspan : spanDigits (natToDigits a ++ rest) = (natToDigits a, rest) :=
      spanDigits_exact (natToDigits a)
        (fun c hc => by simp [isDigitCh, (natToDigits_all_digits a c hc).1,
          (natToDigits_all_digits a c hc).2]) rest
        (fun c t hct => (hrest c t hct).1)
    simp only [parseNumberCore, hspan]
    rw [if_neg (natToDigits_ne_nil a)]
    cases rest with
    | nil => simp [charsToNat_natToDigits]
    | cons c t =>
      simp [charsToNat_natToDigits, (hrest c t rfl).2]
  · have hlg := length_paddedDigits_gt a e
    have hbody : numBodyChars a e =
        (paddedDigits a e).take ((paddedDigits a e).length - e) ++
          '.' :: (paddedDigits a e).drop ((paddedDigits a e).length - e) := by
      unfold numBodyChars; rw [if_neg he]
    rw [hbody, List.append_assoc, List.cons_append]
    have htake_digits : ∀ c ∈ (paddedDigits a e).take ((paddedDigits a e).length - e),
        isDigitCh c = true := fun c hc => by
      simp [isDigitCh, (paddedDigits_all_digits a e c (List.take_subset _ _ hc)).1,
        (paddedDigits_all_digits a e c (List.take_subset _ _ hc)).2]
    have hdrop_digits : ∀ c ∈ (paddedDigits a e).drop ((paddedDigits a e).length - e),
        isDigitCh c = true := fun c hc => by
      simp [isDigitCh, (paddedDigits_all_digits a e c (List.drop_subset _ _ hc)).1,
        (paddedDigits_all_digits a e c (List.drop_subset _ _ hc)).2]
    have hspan1 : spanDigits ((paddedDigits a e).take ((paddedDigits a e).length - e) ++
        ('.' :: ((paddedDigits a e).drop ((paddedDigits a e).length - e) ++ rest))) =
        ((paddedDigits a e).take ((paddedDigits a e).length - e),
          '.' :: ((paddedDigits a e).drop ((paddedDigits a e).length - e) ++ rest)) :=
      spanDigits_exact _ htake_digits _
        (fun c t hct => by
          injection hct with h1 _
          exact h1 ▸ (by decide : isDigitCh '.' = false))
    have hspan2 : spanDigits ((paddedDigits a e).drop ((paddedDigits a e).length - e) ++ rest) =
        ((paddedDigits a e).drop ((paddedDigits a e).length - e), rest) :=
      spanDigits_exact _ hdrop_digits _ (fun c t hct => (hrest c t hct).1)
    have htne : (paddedDigits a e).take ((paddedDigits a e).length - e) ≠ [] := by
      apply List.ne_nil_of_length_pos
      rw [List.length_take]
      omega
    have hdne : (paddedDigits a e).drop ((paddedDigits a e).length - e) ≠ [] := by
      apply List.ne_nil_of_length_pos
      rw [List.length_drop]
      omega
    simp only [parseNumberCore, hspan1]
    rw [if_neg htne]
    simp [hspan2, hdne, charsToNat_paddedDigits, List.length_drop,
      Nat.sub_sub_self (Nat.le_of_lt hlg)]

theorem parseNumberJ_numToString (m : Int) (e : Nat) (rest : List Char)
    (hrest : ∀ c t, rest = c :: t → isDigitCh c = false ∧ ¬(c = '.')) :
    parseNumberJ (numToString m e ++ rest) = some ((m, e), rest) := by
  rw [numToString_eq_body]
  by_cases hm : m < 0
  · rw [if_pos hm, List.append_assoc]
    rw [show (['-'] : List Char) ++ (numBodyChars m.natAbs e ++ rest) =
        '-' :: (numBodyChars m.natAbs e ++ rest) from rfl]
    rw [show parseNumberJ ('-' :: (numBodyChars m.natAbs e ++ rest)) =
        parseNumberCore true (numBodyChars m.natAbs e ++ rest) from by
      simp [parseNumberJ]]
    rw [parseNumberCore_correct m.natAbs e true rest hrest]
    rw [show intOfParts true m.natAbs = -((m.natAbs : Nat) : Int) from rfl]
    have hma : -((m.natAbs : Nat) : Int) = m := by omega
    rw [hma]
  · rw [if_neg hm, List.nil_append]
    obtain ⟨c0, t0, hb, hc0⟩ := numBodyChars_cons m.natAbs e
    rw [hb, List.cons_append]
    rw [show parseNumberJ (c0 :: (t0 ++ rest)) = parseNumberCore false (c0 :: (t0 ++ rest)) from by
      simp [parseNumberJ, digit_ne_dash hc0]]
    rw [← List.cons_append, ← hb]
    rw [parseNumberCore_correct m.natAbs e false rest hrest]
    rw [show intOfParts false m.natAbs = ((m.natAbs : Nat) : Int) from rfl]
    have hma : ((m.natAbs : Nat) : Int) = m := by omega
    rw [hma]

theorem numStopper_nil : numStopper [] := fun _ _ h => List.noConfusion h

theorem numStopper_cons {c : Char} (h : isDigitCh c = false ∧ ¬(c = '.'))
    (r : List Char) : numStopper (c :: r) := by
  intro c' t' h'
  injection h' with h1 _
  exact h1 ▸ h

theorem jfuel_pos (v : Json) : 1 ≤ jfuel v := by
  cases v <;> (simp only [jfuel]; omega)

theorem numToString_cons (m : Int) (e : Nat) :
    ∃ c t, numToString m e = c :: t ∧ (c = '-' ∨ (48 ≤ c.toNat ∧ c.toNat ≤ 57)) := by
  rw [numToString_eq_body]
  by_cases hm : m < 0
  · rw [if_pos hm]
    exact ⟨'-', _, rfl, Or.inl rfl⟩
  · rw [if_neg hm, List.nil_append]
    obtain ⟨c, t, hb, hc⟩ := numBodyChars_cons m.natAbs e
    exact ⟨c, t, hb, Or.inr hc⟩

theorem numStart_ne (c : Char) (h : c = '-' ∨ (48 ≤ c.toNat ∧ c.toNat ≤ 57)) :
    ¬(c = 'n') ∧ ¬(c = 't') ∧ ¬(c = 'f') ∧ ¬(c = '"') ∧ ¬(c = '[') ∧ ¬(c = lbrace) := by
  rcases h with rfl | h
  · exact ⟨by decide, by decide, by decide, by decide, by decide, by decide⟩
  · refine ⟨?_, ?_, ?_, ?_, ?_, ?_⟩ <;> (intro hc; subst hc; exact absurd h (by decide))

theorem printJson_head (v : Json) : ∃ c t, printJson v = c :: t ∧ ¬(c = ']') := by
  cases v with
  | null => exact ⟨'n', _, rfl, by decide⟩
  | bool b =>
    cases b with
    | false => exact ⟨'f', _, rfl, by decide⟩
    | true => exact ⟨'t', _, rfl, by decide⟩
  | num m e =>
    obtain ⟨c, t, hc, hd⟩ := numToString_cons m e
    refine ⟨c, t, hc, ?_⟩
    rcases hd with rfl | hd
    · decide
    · intro h
      subst h
      exact absurd hd (by decide)
  | str s => exact ⟨'"', _, rfl, by decide⟩
  | arr items => exact ⟨'[', _, rfl, by decide⟩
  | obj fields => exact ⟨lbrace, _, rfl, by decide⟩

theorem parseJsonF_null_step (fuel : Nat) (rest : List Char) :
    parseJsonF (fuel + 1) ('n' :: 'u' :: 'l' :: 'l' :: rest) = some (.null, rest) := rfl

theorem parseJsonF_true_step (fuel : Nat) (rest : List Char) :
    parseJsonF (fuel + 1) ('t' :: 'r' :: 'u' :: 'e' :: rest) = some (.bool true, rest) := rfl

theorem parseJsonF_false_step (fuel : Nat) (rest : List Char) :
    parseJsonF (fuel + 1) ('f' :: 'a' :: 'l' :: 's' :: 'e' :: rest) =
      some (.bool false, rest) := rfl

theorem parseJsonF_str_step (fuel : Nat) (rest : List Char) :
    parseJsonF (fuel + 1) ('"' :: rest) =
      (parseJStringAux (rest.length + 1) rest).map
        (fun p => (Json.str (String.mk p.1), p.2)) := rfl

theorem parseJsonF_arr_step (fuel : Nat) (r0 : Char) (r2 : List Char) :
    parseJsonF (fuel + 1) ('[' :: r0 :: r2) =
      (if r0 = ']' then some (.arr [], r2)
       else (parseItemsF fuel (r0 :: r2)).map (fun p => (Json.arr p.1, p.2))) := rfl

theorem parseJsonF_obj_step (fuel : Nat) (r0 : Char) (r2 : List Char) :
    parseJsonF (fuel + 1) (lbrace :: r0 :: r2) =
      (if r0 = rbrace then some (.obj [], r2)
       else (parseFieldsF fuel (r0 :: r2)).map (fun p => (Json.obj p.1, p.2))) := rfl

theorem parseJsonF_num_step (fuel : Nat) (c : Char) (t : List Char)
    (h1 : ¬(c = 'n')) (h2 : ¬(c = 't')) (h3 : ¬(c = 'f')) (h4 : ¬(c = '"'))
    (h5 : ¬(c = '[')) (h6 : ¬(c = lbrace)) :
    parseJsonF (fuel + 1) (c :: t) =
      (parseNumberJ (c :: t)).map (fun p => (Json.num p.1.1 p.1.2, p.2)) := by
  simp only [parseJsonF]
  rw [if_neg h1, if_neg h2, if_neg h3, if_neg h4, if_neg h5, if_neg h6]

theorem parsePrint_aux : ∀ n : Nat,
    (∀ v rest, jfuel v ≤ n → numStopper rest →
      parseJsonF n (printJson v ++ rest) = some (v, rest)) ∧
    (∀ items rest, items ≠ [] → jfuelItems items ≤ n →
      parseItemsF n (printItemsJ items ++ ']' :: rest) = some (items, rest)) ∧
    (∀ fields rest, fields ≠ [] → jfuelFields fields ≤ n →
      parseFieldsF n (printFieldsJ fields ++ rbrace :: rest) = some (fields, rest)) := by
  intro n
  induction n using Nat.strong_induction_on with
  | _ n ih =>
  refine ⟨?_, ?_, ?_⟩
  · intro v rest hfuel hsafe
    cases n with
    | zero => exact absurd hfuel (by have := jfuel_pos v; omega)
    | succ f =>
      cases v with
      | null =>
        rw [show printJson .null ++ rest = 'n' :: 'u' :: 'l' :: 'l' :: rest from rfl]
        exact parseJsonF_null_step f rest
      | bool b =>
        cases b with
        | true =>
          rw [show printJson (.bool true) ++ rest = 't' :: 'r' :: 'u' :: 'e' :: rest from rfl]
          exact parseJsonF_true_step f rest
        | false =>
          rw [show printJson (.bool false) ++ rest =
            'f' :: 'a' :: 'l' :: 's' :: 'e' :: rest from rfl]
          exact parseJsonF_false_step f rest
      | num m e =>
        obtain ⟨c, t, hc, hd⟩ := numToString_cons m e
        have hne := numStart_ne c hd
        rw [show printJson (.num m e) = numToString m e from rfl, hc, List.cons_append]
        rw [parseJsonF_num_step f c (t ++ rest) hne.1 hne.2.1 hne.2.2.1 hne.2.2.2.1
          hne.2.2.2.2.1 hne.2.2.2.2.2]
        rw [← List.cons_append, ← hc]
        rw [parseNumberJ_numToString m e rest hsafe]
        rfl
      | str s =>
        rw [show printJson (.str s) ++ rest = '"' :: (escJ s.data ++ '"' :: rest) from by
          simp [printJson, printJString]]
        rw [parseJsonF_str_step]
        rw [parseJStringAux_escJ s.data ((escJ s.data ++ '"' :: rest).length + 1) rest (by
          simp only [List.length_append, List.length_cons]; omega)]
        simp [mkString_data]
      | arr items =>
        cases items with
        | nil =>
          rw [show printJson (.arr []) ++ rest = '[' :: ']' :: rest from rfl]
          rw [parseJsonF_arr_step, if_pos rfl]
        | cons v vs =>
          have hfi : jfuelItems (v :: vs) ≤ f := by
            simp only [jfuel] at hfuel; omega
          obtain ⟨c0, t0, hh, hne⟩ := printJson_head v
          have hex : ∃ X, printItemsJ (v :: vs) ++ ']' :: rest = c0 :: X := by
            cases vs with
            | nil =>
              exact ⟨t0 ++ ']' :: rest, by
                rw [show printItemsJ [v] = printJson v from rfl, hh, List.cons_append]⟩
            | cons w ws =>
              refine ⟨t0 ++ ',' :: (printItemsJ (w :: ws) ++ ']' :: rest), ?_⟩
              rw [show printItemsJ (v :: w :: ws) =
                printJson v ++ ',' :: printItemsJ (w :: ws) from rfl, hh]
              simp [List.cons_append, List.append_assoc]
          obtain ⟨X, hX⟩ := hex
          rw [show printJson (.arr (v :: vs)) ++ rest =
            '[' :: (printItemsJ (v :: vs) ++ ']' :: rest) from by
            simp [printJson, List.cons_append, List.append_assoc]]
          rw [hX, parseJsonF_arr_step, if_neg hne, ← hX]
          rw [(ih f (by omega)).2.1 (v :: vs) rest (by simp) hfi]
          rfl
      | obj fields =>
        cases fields with
        | nil =>
          rw [show printJson (.obj []) ++ rest = lbrace :: rbrace :: rest from rfl]
          rw [parseJsonF_obj_step, if_pos rfl]
        | cons kv fs =>
          obtain ⟨k, v⟩ := kv
          have hff : jfuelFields ((k, v) :: fs) ≤ f := by
            simp only [jfuel] at hfuel; omega
          have hex : ∃ X, printFieldsJ ((k, v) :: fs) ++ rbrace :: rest = '"' :: X := by
            cases fs with
            | nil =>
              exact ⟨escJ k.data ++ '"' :: ':' :: (printJson v ++ rbrace :: rest), by
                simp [printFieldsJ, printJString]⟩
            | cons kv2 fs2 =>
              exact ⟨escJ k.data ++ '"' :: ':' ::
                  (printJson v ++ ',' :: (printFieldsJ (kv2 :: fs2) ++ rbrace :: rest)), by
                simp [printFieldsJ, printJString]⟩
          obtain ⟨X, hX⟩ := hex
          rw [show printJson (.obj ((k, v) :: fs)) ++ rest =
            lbrace :: (printFieldsJ ((k, v) :: fs) ++ rbrace :: rest) from by
            simp [printJson, List.cons_append, List.append_assoc]]
          rw [hX, parseJsonF_obj_step, if_neg (by decide : ¬(('"' : Char) = rbrace)), ← hX]
          rw [(ih f (by omega)).2.2 ((k, v) :: fs) rest (by simp) hff]
          rfl
  · intro items rest hne hfuel
    cases items with
    | nil => exact absurd rfl hne
    | cons v vs =>
      cases n with
      | zero => simp only [jfuelItems] at hfuel; omega
      | succ f =>
        have hj : jfuel v ≤ f ∧ jfuelItems vs ≤ f := by
          simp only [jfuelItems] at hfuel
          have h2 : max (jfuel v) (jfuelItems vs) ≤ f := by omega
          exact Nat.max_le.mp h2
        cases vs with
        | nil =>
          rw [show printItemsJ [v] = printJson v from rfl]
          have hP := (ih f (by omega)).1 v (']' :: rest) hj.1 (numStopper_cons (by decide) rest)
          simp [parseItemsF, hP]
        | cons w ws =>
          rw [show printItemsJ (v :: w :: ws) =
            printJson v ++ ',' :: printItemsJ (w :: ws) from rfl]
          rw [List.append_assoc, List.cons_append]
          have hP := (ih f (by omega)).1 v (',' :: (printItemsJ (w :: ws) ++ ']' :: rest)) hj.1
            (numStopper_cons (by decide) _)
          have hQ := (ih f (by omega)).2.1 (w :: ws) rest (by simp) hj.2
          simp [parseItemsF, hP, hQ]
  · intro fields rest hne hfuel
    cases fields with
    | nil => exact absurd rfl hne
    | cons kv fs =>
      obtain ⟨k, v⟩ := kv
      cases n with
      | zero => simp only [jfuelFields] at hfuel; omega
      | succ f =>
        have hj : jfuel v ≤ f ∧ jfuelFields fs ≤ f := by
          simp only [jfuelFields] at hfuel
          have h2 : max (jfuel v) (jfuelFields fs) ≤ f := by omega
          exact Nat.max_le.mp h2
        cases fs with
        | nil =>
          rw [show printFieldsJ [(k, v)] ++ rbrace :: rest =
            '"' :: (escJ k.data ++ '"' :: ':' :: (printJson v ++ rbrace :: rest)) from by
            simp [printFieldsJ, printJString, List.cons_append, List.append_assoc]]
          simp only [parseFieldsF]
          rw [if_pos trivial]
          rw [parseJStringAux_escJ k.data
            ((escJ k.data ++ '"' :: ':' :: (printJson v ++ rbrace :: rest)).length + 1)
            (':' :: (printJson v ++ rbrace :: rest)) (by
              simp only [List.length_append, List.length_cons]; omega)]
          have hP := (ih f (by omega)).1 v (rbrace :: rest) hj.1
            (numStopper_cons (by decide) rest)
          have hc1 : ¬(rbrace = ',') := by decide
          simp [hP, hc1, mkString_data]
        | cons kv2 fs2 =>
          rw [show printFieldsJ ((k, v) :: kv2 :: fs2) ++ rbrace :: rest =
            '"' :: (escJ k.data ++ '"' :: ':' ::
              (printJson v ++ ',' :: (printFieldsJ (kv2 :: fs2) ++ rbrace :: rest))) from by
            simp [printFieldsJ, printJString, List.cons_append, List.append_assoc]]
          simp only [parseFieldsF]
          rw [if_pos trivial]
          rw [parseJStringAux_escJ k.data
            ((escJ k.data ++ '"' :: ':' ::
              (printJson v ++ ',' :: (printFieldsJ (kv2 :: fs2) ++ rbrace :: rest))).length + 1)
            (':' :: (printJson v ++ ',' :: (printFieldsJ (kv2 :: fs2) ++ rbrace :: rest))) (by
              simp only [List.length_append, List.length_cons]; omega)]
          have hP := (ih f (by omega)).1 v
            (',' :: (printFieldsJ (kv2 :: fs2) ++ rbrace :: rest)) hj.1
            (numStopper_cons (by decide) _)
          have hR := (ih f (by omega)).2.2 (kv2 :: fs2) rest (by simp) hj.2
          simp [hP, hR, mkString_data]

mutual

theorem jfuel_le_print : ∀ v : Json, jfuel v ≤ (printJson v).length
  | .null => by simp [jfuel, printJson]
  | .bool b => by cases b <;> simp [jfuel, printJson]
  | .num m e => by
    obtain ⟨c, t, hc, _⟩ := numToString_cons m e
    simp only [jfuel, printJson, hc, List.length_cons]
    omega
  | .str s => by
    simp only [jfuel, printJson, printJString, List.length_cons, List.length_append]
    omega
  | .arr items => by
    have h := jfuelItems_le_print items
    simp only [jfuel, printJson, List.length_cons, List.length_append, List.length_nil]
    omega
  | .obj fields => by
    have h := jfuelFields_le_print fields
    simp only [jfuel, printJson, List.length_cons, List.length_append, List.length_nil]
    omega

theorem jfuelItems_le_print : ∀ items : List Json,
    jfuelItems items ≤ (printItemsJ items).length + 1
  | [] => by simp [jfuelItems, printItemsJ]
  | [v] => by
    have h := jfuel_le_print v
    simp only [jfuelItems, printItemsJ, Nat.max_zero]
    omega
  | v :: w :: ws => by
    have h1 := jfuel_le_print v
    have h2 := jfuelItems_le_print (w :: ws)
    rw [show jfuelItems (v :: w :: ws) = 1 + max (jfuel v) (jfuelItems (w :: ws)) from rfl,
      show printItemsJ (v :: w :: ws) = printJson v ++ ',' :: printItemsJ (w :: ws) from rfl]
    simp only [List.length_append, List.length_cons]
    have h4 : max (jfuel v) (jfuelItems (w :: ws)) ≤
        (printJson v).length + (printItemsJ (w :: ws)).length + 1 :=
      Nat.max_le.mpr ⟨by omega, by omega⟩
    omega

theorem jfuelFields_le_print : ∀ fields : List (String × Json),
    jfuelFields fields ≤ (printFieldsJ fields).length + 1
  | [] => by simp [jfuelFields, printFieldsJ]
  | [(k, v)] => by
    have h := jfuel_le_print v
    simp only [jfuelFields, printFieldsJ, Nat.max_zero, List.length_append, List.length_cons]
    omega
  | (k, v) :: kv2 :: fs2 => by
    have h1 := jfuel_le_print v
    have h2 := jfuelFields_le_print (kv2 :: fs2)
    rw [show jfuelFields ((k, v) :: kv2 :: fs2) =
        1 + max (jfuel v) (jfuelFields (kv2 :: fs2)) from rfl,
      show printFieldsJ ((k, v) :: kv2 :: fs2) =
        printJString k ++ ':' :: printJson v ++ ',' :: printFieldsJ (kv2 :: fs2) from rfl]
    simp only [List.length_append, List.length_cons]
    have h4 : max (jfuel v) (jfuelFields (kv2 :: fs2)) ≤
        (printJString k).length + ((printJson v).length +
          (printFieldsJ (kv2 :: fs2)).length) + 1 :=
      Nat.max_le.mpr ⟨by omega, by omega⟩
    omega

end

/-- Parsing the printed form of a JSON value returns the value:
`JSON.parse` inverts `JSON.stringify` on the values of the embedding. -/
theorem jsonParse_stringify (v : Json) : jsonParse (jsonStringify v) = some v := by
  have hf : jfuel v ≤ (printJson v).length + 1 := by
    have := jfuel_le_print v
    omega
  have h0 := (parsePrint_aux ((printJson v).length + 1)).1 v [] hf numStopper_nil
  rw [List.append_nil] at h0
  have hd : (String.mk (printJson v)).data = printJson v := rfl
  simp [jsonParse, jsonStringify, hd, h0]

theorem length_le_encode (cs : List Char) : cs.length ≤ (encodeURIComponentL cs).length := by
  induction cs with
  | nil => simp [encodeURIComponentL]
  | cons c cs ih =>
    rw [show encodeURIComponentL (c :: cs) =
      (if isUnreservedURI c then [c] else (utf8Bytes c).flatMap pctByte) ++
        encodeURIComponentL cs from rfl]
    simp only [List.length_append, List.length_cons]
    have hb : 1 ≤ (if isUnreservedURI c then [c] else (utf8Bytes c).flatMap pctByte).length := by
      by_cases hu : isUnreservedURI c
      · simp [hu]
      · rw [if_neg hu]
        simp only [utf8Bytes]
        split_ifs <;> simp [pctByte]
    omega

theorem char_toNat_lt (c : Char) : c.toNat < 1114112 := by
  have h := c.valid
  show c.val.toNat < 1114112
  rcases h with h | h <;> omega

theorem decodePct_block (c : Char) (f : Nat) (tail : List Char) :
    decodePct (f + 1) ((utf8Bytes c).flatMap pctByte ++ tail) =
      (decodePct f tail).map (fun l => c :: l) := by
  have hvb : c.toNat < 1114112 := char_toNat_lt c
  by_cases h1 : c.toNat < 128
  · rw [show (utf8Bytes c).flatMap pctByte =
      ['%', hexUpper (c.toNat / 16), hexUpper (c.toNat % 16)] from by
      simp only [utf8Bytes]
      rw [if_pos h1]
      simp [pctByte]]
    simp only [List.cons_append, List.nil_append]
    have ha := parseHexDigit_hexUpper (c.toNat / 16) (by omega)
    have hb := parseHexDigit_hexUpper (c.toNat % 16) (by omega)
    have hbyte : c.toNat / 16 * 16 + c.toNat % 16 = c.toNat := by omega
    simp [decodePct, ha, hb, hbyte, h1, Char.ofNat_toNat]
  · by_cases h2 : c.toNat < 2048
    · rw [show (utf8Bytes c).flatMap pctByte =
        ['%', hexUpper ((192 + c.toNat / 64) / 16), hexUpper ((192 + c.toNat / 64) % 16),
          '%', hexUpper ((128 + c.toNat % 64) / 16), hexUpper ((128 + c.toNat % 64) % 16)]
          from by
        simp only [utf8Bytes]
        rw [if_neg h1, if_pos h2]
        simp [pctByte]]
      simp only [List.cons_append, List.nil_append]
      have ha1 := parseHexDigit_hexUpper ((192 + c.toNat / 64) / 16) (by omega)
      have ha2 := parseHexDigit_hexUpper ((192 + c.toNat / 64) % 16) (by omega)
      have ha3 := parseHexDigit_hexUpper ((128 + c.toNat % 64) / 16) (by omega)
      have ha4 := parseHexDigit_hexUpper ((128 + c.toNat % 64) % 16) (by omega)
      have hb1 : (192 + c.toNat / 64) / 16 * 16 + (192 + c.toNat / 64) % 16 =
          192 + c.toNat / 64 := by omega
      have hb2 : (128 + c.toNat % 64) / 16 * 16 + (128 + c.toNat % 64) % 16 =
          128 + c.toNat % 64 := by omega
      have hc1 : ¬(192 + c.toNat / 64 < 128) := by omega
      have hc2 : 192 ≤ 192 + c.toNat / 64 ∧ 192 + c.toNat / 64 < 224 := by omega
      have hc3 : 128 ≤ 128 + c.toNat % 64 ∧ 128 + c.toNat % 64 < 192 := by omega
      have hrec : (192 + c.toNat / 64 - 192) * 64 + (128 + c.toNat % 64 - 128) = c.toNat := by
        omega
      have hrec2 : c.toNat / 64 * 64 + c.toNat % 64 = c.toNat := by omega
      simp [decodePct, ha1, ha2, ha3, ha4, hb1, hb2, hc1, hc2, hc3, hrec, hrec2,
        Char.ofNat_toNat]
    · by_cases h3 : c.toNat < 65536
      · rw [show (utf8Bytes c).flatMap pctByte =
          ['%', hexUpper ((224 + c.toNat / 4096) / 16), hexUpper ((224 + c.toNat / 4096) % 16),
            '%', hexUpper ((128 + c.toNat / 64 % 64) / 16),
            hexUpper ((128 + c.toNat / 64 % 64) % 16),
            '%', hexUpper ((128 + c.toNat % 64) / 16), hexUpper ((128 + c.toNat % 64) % 16)]
            from by
          simp only [utf8Bytes]
          rw [if_neg h1, if_neg h2, if_pos h3]
          simp [pctByte]]
        simp only [List.cons_append, List.nil_append]
        have ha1 := parseHexDigit_hexUpper ((224 + c.toNat / 4096) / 16) (by omega)
        have ha2 := parseHexDigit_hexUpper ((224 + c.toNat / 4096) % 16) (by omega)
        have ha3 := parseHexDigit_hexUpper ((128 + c.toNat / 64 % 64) / 16) (by omega)
        have ha4 := parseHexDigit_hexUpper ((128 + c.toNat / 64 % 64) % 16) (by omega)
        have ha5 := parseHexDigit_hexUpper ((128 + c.toNat % 64) / 16) (by omega)
        have ha6 := parseHexDigit_hexUpper ((128 + c.toNat % 64) % 16) (by omega)
        have hb1 : (224 + c.toNat / 4096) / 16 * 16 + (224 + c.toNat / 4096) % 16 =
            224 + c.toNat / 4096 := by omega
        have hb2 : (128 + c.toNat / 64 % 64) / 16 * 16 + (128 + c.toNat / 64 % 64) % 16 =
            128 + c.toNat / 64 % 64 := by omega
        have hb3 : (128 + c.toNat % 64) / 16 * 16 + (128 + c.toNat % 64) % 16 =
            128 + c.toNat % 64 := by omega
        have hc1 : ¬(224 + c.toNat / 4096 < 128) := by omega
        have hc2 : ¬(192 ≤ 224 + c.toNat / 4096 ∧ 224 + c.toNat / 4096 < 224) := by omega
        have hc3 : 224 ≤ 224 + c.toNat / 4096 ∧ 224 + c.toNat / 4096 < 240 := by omega
        have hc4 : 128 ≤ 128 + c.toNat / 64 % 64 ∧ 128 + c.toNat / 64 % 64 < 192 := by omega
        have hc5 : 128 ≤ 128 + c.toNat % 64 ∧ 128 + c.toNat % 64 < 192 := by omega
        have hrec : (224 + c.toNat / 4096 - 224) * 4096 + (128 + c.toNat / 64 % 64 - 128) * 64 +
            (128 + c.toNat % 64 - 128) = c.toNat := by omega
        have hrec2 : c.toNat / 4096 * 4096 + c.toNat / 64 % 64 * 64 + c.toNat % 64 =
            c.toNat := by omega
        simp [decodePct, ha1, ha2, ha3, ha4, ha5, ha6, hb1, hb2, hb3, hc1, hc2, hc3, hc4,
          hc5, hrec, hrec2, Char.ofNat_toNat]
      · rw [show (utf8Bytes c).flatMap pctByte =
          ['%', hexUpper ((240 + c.toNat / 262144) / 16),
            hexUpper ((240 + c.toNat / 262144) % 16),
            '%', hexUpper ((128 + c.toNat / 4096 % 64) / 16),
            hexUpper ((128 + c.toNat / 4096 % 64) % 16),
            '%', hexUpper ((128 + c.toNat / 64 % 64) / 16),
            hexUpper ((128 + c.toNat / 64 % 64) % 16),
            '%', hexUpper ((128 + c.toNat % 64) / 16), hexUpper ((128 + c.toNat % 64) % 16)]
            from by
          simp only [utf8Bytes]
          rw [if_neg h1, if_neg h2, if_neg h3]
          simp [pctByte]]
        simp only [List.cons_append, List.nil_append]
        have ha1 := parseHexDigit_hexUpper ((240 + c.toNat / 262144) / 16) (by omega)
        have ha2 := parseHexDigit_hexUpper ((240 + c.toNat / 262144) % 16) (by omega)
        have ha3 := parseHexDigit_hexUpper ((128 + c.toNat / 4096 % 64) / 16) (by omega)
        have ha4 := parseHexDigit_hexUpper ((128 + c.toNat / 4096 % 64) % 16) (by omega)
        have ha5 := parseHexDigit_hexUpper ((128 + c.toNat / 64 % 64) / 16) (by omega)
        have ha6 := parseHexDigit_hexUpper ((128 + c.toNat / 64 % 64) % 16) (by omega)
        have ha7 := parseHexDigit_hexUpper ((128 + c.toNat % 64) / 16) (by omega)
        have ha8 := parseHexDigit_hexUpper ((128 + c.toNat % 64) % 16) (by omega)
        have hb1 : (240 + c.toNat / 262144) / 16 * 16 + (240 + c.toNat / 262144) % 16 =
            240 + c.toNat / 262144 := by omega
        have hb2 : (128 + c.toNat / 4096 % 64) / 16 * 16 + (128 + c.toNat / 4096 % 64) % 16 =
            128 + c.toNat / 4096 % 64 := by omega
        have hb3 : (128 + c.toNat / 64 % 64) / 16 * 16 + (128 + c.toNat / 64 % 64) % 16 =
            128 + c.toNat / 64 % 64 := by omega
        have hb4 : (128 + c.toNat % 64) / 16 * 16 + (128 + c.toNat % 64) % 16 =
            128 + c.toNat % 64 := by omega
        have hc1 : ¬(240 + c.toNat / 262144 < 128) := by omega
        have hc2 : ¬(192 ≤ 240 + c.toNat / 262144 ∧ 240 + c.toNat / 262144 < 224) := by omega
        have hc3 : ¬(224 ≤ 240 + c.toNat / 262144 ∧ 240 + c.toNat / 262144 < 240) := by omega
        have hc4 : 240 ≤ 240 + c.toNat / 262144 ∧ 240 + c.toNat / 262144 < 248 := by omega
        have hc5 : 128 ≤ 128 + c.toNat / 4096 % 64 ∧ 128 + c.toNat / 4096 % 64 < 192 := by
          omega
        have hc6 : 128 ≤ 128 + c.toNat / 64 % 64 ∧ 128 + c.toNat / 64 % 64 < 192 := by omega
        have hc7 : 128 ≤ 128 + c.toNat % 64 ∧ 128 + c.toNat % 64 < 192 := by omega
        have hrec : (240 + c.toNat / 262144 - 240) * 262144 +
            (128 + c.toNat / 4096 % 64 - 128) * 4096 + (128 + c.toNat / 64 % 64 - 128) * 64 +
            (128 + c.toNat % 64 - 128) = c.toNat := by omega
        have hrec2 : c.toNat / 262144 * 262144 + c.toNat / 4096 % 64 * 4096 +
            c.toNat / 64 % 64 * 64 + c.toNat % 64 = c.toNat := by omega
        simp [decodePct, ha1, ha2, ha3, ha4, ha5, ha6, ha7, ha8, hb1, hb2, hb3, hb4,
          hc1, hc2, hc3, hc4, hc5, hc6, hc7, hrec, hrec2, Char.ofNat_toNat]

theorem decodePct_encode (cs : List Char) :
    ∀ fuel, cs.length < fuel → decodePct fuel (encodeURIComponentL cs) = some cs := by
  induction cs with
  | nil =>
    intro fuel hf
    cases fuel with
    | zero => omega
    | succ f => rfl
  | cons c cs ih =>
    intro fuel hf
    cases fuel with
    | zero => omega
    | succ f =>
      have hlen : cs.length < f := by
        simp only [List.length_cons] at hf
        omega
      rw [show encodeURIComponentL (c :: cs) =
        (if isUnreservedURI c then [c] else (utf8Bytes c).flatMap pctByte) ++
          encodeURIComponentL cs from rfl]
      by_cases hu : isUnreservedURI c
      · rw [if_pos hu, List.singleton_append]
        have hcp : ¬(c = '%') := by
          intro h
          subst h
          exact absurd hu (by decide)
        simp [decodePct, hcp, ih f hlen]
      · rw [if_neg hu, decodePct_block c f (encodeURIComponentL cs), ih f hlen]
        rfl

theorem stripNewlines_id (cs : List Char)
    (h : ∀ c ∈ cs, ¬(c = Char.ofNat 10) ∧ ¬(c = Char.ofNat 13)) :
    stripNewlines cs = cs := by
  induction cs with
  | nil => rfl
  | cons c rest ih =>
    have hc := h c (List.mem_cons_self _ _)
    have hrec := ih (fun c' hc' => (h c' (List.mem_cons_of_mem _ hc')))
    cases rest with
    | nil =>
      simp only [stripNewlines]
      rw [if_neg hc.1]
    | cons c2 r2 =>
      simp only [stripNewlines]
      rw [if_neg hc.1, if_neg (fun hand => hc.2 hand.1), hrec]

theorem splitAtFirstComma_append (pre : List Char) (h : ∀ c ∈ pre, ¬(c = ','))
    (rest : List Char) :
    splitAtFirstComma (pre ++ ',' :: rest) = some (pre, rest) := by
  induction pre with
  | nil => simp [splitAtFirstComma]
  | cons c p ih =>
    have hc := h c (List.mem_cons_self _ _)
    simp only [List.cons_append, splitAtFirstComma, List.append_eq]
    rw [if_neg hc, ih (fun c' hc' => h c' (List.mem_cons_of_mem _ hc'))]
    rfl

theorem utf8Bytes_lt_256 (c : Char) : ∀ b ∈ utf8Bytes c, b < 256 := by
  have hvb := char_toNat_lt c
  simp only [utf8Bytes]
  split_ifs with h1 h2 h3 <;>
    (intro b hb
     simp only [List.mem_cons, List.not_mem_nil, or_false] at hb
     omega)

theorem hexUpper_uri_ne : ∀ d, d < 16 →
    ¬(hexUpper d = Char.ofNat 10) ∧ ¬(hexUpper d = Char.ofNat 13) ∧
      ¬(hexUpper d = ',') := by decide

theorem encode_mem_safe (cs : List Char) :
    ∀ c' ∈ encodeURIComponentL cs,
      ¬(c' = Char.ofNat 10) ∧ ¬(c' = Char.ofNat 13) ∧ ¬(c' = ',') := by
  intro c' hc'
  unfold encodeURIComponentL at hc'
  rw [List.mem_flatMap] at hc'
  obtain ⟨c, _, hblock⟩ := hc'
  by_cases hu : isUnreservedURI c
  · rw [if_pos hu] at hblock
    simp only [List.mem_singleton] at hblock
    subst hblock
    refine ⟨?_, ?_, ?_⟩ <;> (intro h; subst h; exact absurd hu (by decide))
  · rw [if_neg hu] at hblock
    rw [List.mem_flatMap] at hblock
    obtain ⟨b, hbmem, hpct⟩ := hblock
    have hb256 := utf8Bytes_lt_256 c b hbmem
    simp only [pctByte, List.mem_cons, List.not_mem_nil, or_false] at hpct
    rcases hpct with rfl | rfl | rfl
    · exact ⟨by decide, by decide, by decide⟩
    · exact hexUpper_uri_ne (b / 16) (by omega)
    · exact hexUpper_uri_ne (b % 16) (by omega)

theorem extract_embedded_roundtrip (S : Json) :
    extractJsonSchemaFromEmbedded
      (String.mk ("data:application/json;,".data ++ encodeURIComponentL (printJson S))) =
      .ok S := by
  have hstrip : stripNewlines ("data:application/json;,".data ++
      encodeURIComponentL (printJson S)) =
      "data:application/json;,".data ++ encodeURIComponentL (printJson S) := by
    apply stripNewlines_id
    intro c hc
    rcases List.mem_append.mp hc with hm | hm
    · exact (by decide :
        ∀ c ∈ "data:application/json;,".data,
          ¬(c = Char.ofNat 10) ∧ ¬(c = Char.ofNat 13)) c hm
    · have hs := encode_mem_safe (printJson S) c hm
      exact ⟨hs.1, hs.2.1⟩
  have hsplit : splitAtFirstComma ("data:application/json;,".data ++
      encodeURIComponentL (printJson S)) =
      some ("data:application/json;".data, encodeURIComponentL (printJson S)) := by
    rw [show "data:application/json;,".data ++ encodeURIComponentL (printJson S) =
      "data:application/json;".data ++ ',' :: encodeURIComponentL (printJson S) from rfl]
    exact splitAtFirstComma_append _ (by decide) _
  have hdec : decodePct ((encodeURIComponentL (printJson S)).length + 1)
      (encodeURIComponentL (printJson S)) = some (printJson S) :=
    decodePct_encode _ _ (by have := length_le_encode (printJson S); omega)
  have hjp : jsonParse (String.mk (printJson S)) = some S := by
    rw [show String.mk (printJson S) = jsonStringify S from rfl]
    exact jsonParse_stringify S
  unfold extractJsonSchemaFromEmbedded
  rw [show (String.mk ("data:application/json;,".data ++
    encodeURIComponentL (printJson S))).data =
    "data:application/json;,".data ++ encodeURIComponentL (printJson S) from rfl]
  rw [if_pos (show ("data:application/json;,".data ++
    encodeURIComponentL (printJson S)).take 5 = "data:".data from rfl)]
  rw [hstrip, hsplit]
  simp only [hdec, hjp, exceptPure_eq_ok]
  rw [if_pos (by decide), if_neg (by decide)]

theorem jsonToPartialOpts_roundtrip (o : ISchemaParsingOpts) :
    mergeParsingOpts (jsonToPartialOpts (parsingOptsToJson o)) = o := by
  cases o with
  | mk u m d =>
    simp [jsonToPartialOpts, parsingOptsToJson, mergeParsingOpts, lookupStr, fieldsOfJson,
      Int.toNat_natCast]

/-- C5: for every JSON schema and parsing options accepted by the
`CredentialSchema` constructor, `fromJSON (toJSON cs)` succeeds and
returns a schema with the same version, the same internal schema
object, the same flattened schema (hence an encoder configured for
exactly the same attribute names), and in fact the same observable
state. -/
theorem C5_CredentialSchema_json_roundtrip (S : Json) (p : PartialSchemaParsingOpts)
    (cs : CredentialSchema) (h : newCredentialSchema S p = .ok cs) :
    ∃ cs2, schemaFromJSON (schemaToJSON cs) = .ok cs2 ∧
      cs2.version = cs.version ∧ cs2.schema = cs.schema ∧
      flattenSchemaObj cs2.schema = flattenSchemaObj cs.schema ∧
      (flattenSchemaObj cs2.schema).1 = (flattenSchemaObj cs.schema).1 ∧
      cs2 = cs := by
  simp only [newCredentialSchema] at h
  cases hconv : convertToInternalSchemaObj (3 * jsonSize S + 3) S (mergeParsingOpts p)
      "" none with
  | error e =>
    rw [hconv] at h
    simp [Except.bind] at h
  | ok s0 =>
    rw [hconv] at h
    simp only [Except.bind] at h
    cases hval : validateSchema s0 with
    | error e =>
      rw [hval] at h
      simp [Except.bind, Except.map] at h
    | ok u =>
      rw [hval] at h
      simp only [Except.bind, Except.map] at h
      have hcs : ({ schema := s0, jsonSchema := S,
                    parsingOptions := mergeParsingOpts p,
                    version := CS_VERSION } : CredentialSchema) = cs := by
        injection h
      subst hcs
      have hextract := extract_embedded_roundtrip S
      have hpo := jsonToPartialOpts_roundtrip (mergeParsingOpts p)
      refine ⟨_, ?_, rfl, rfl, rfl, rfl, rfl⟩
      have hstep : schemaFromJSON (schemaToJSON
          ({ schema := s0, jsonSchema := S,
             parsingOptions := mergeParsingOpts p,
             version := CS_VERSION } : CredentialSchema)) =
          (extractJsonSchemaFromEmbedded (String.mk ("data:application/json;,".data ++
              encodeURIComponentL (printJson S)))).bind fun js =>
            (newCredentialSchema js
                (jsonToPartialOpts (parsingOptsToJson (mergeParsingOpts p)))).bind fun cs2 =>
              pure { cs2 with version := CS_VERSION } := rfl
      rw [hstep, hextract]
      simp only [Except.bind]
      simp only [newCredentialSchema]
      rw [hpo, hconv]
      simp only [Except.bind]
      rw [hval]
      simp only [Except.map, Except.bind, exceptPure_eq_ok]

theorem C5_CredentialSchema_json_roundtrip_witness :
    newCredentialSchema exampleJsonSchema emptyPartialOpts = .ok exampleCredSchema ∧
    (∃ cs2, schemaFromJSON (schemaToJSON exampleCredSchema) = .ok cs2 ∧
      cs2.version = exampleCredSchema.version ∧ cs2.schema = exampleCredSchema.schema ∧
      flattenSchemaObj cs2.schema = flattenSchemaObj exampleCredSchema.schema ∧
      (flattenSchemaObj cs2.schema).1 = (flattenSchemaObj exampleCredSchema.schema).1 ∧
      cs2 = exampleCredSchema) :=
  ⟨by rfl, C5_CredentialSchema_json_roundtrip exampleJsonSchema emptyPartialOpts
    exampleCredSchema (by rfl)⟩

theorem finalizeParamsLoop_const : ∀ (counts : List Nat) (m : Nat),
    finalizeParamsLoop counts (m, finalizeInitialParams) =
      .ok (counts.foldl (fun a n => if a < n then n else a) m, finalizeInitialParams) := by
  intro counts
  induction counts with
  | nil => intro m; rfl
  | cons n rest ih =>
    intro m
    by_cases h : m < n
    · simp only [finalizeParamsLoop]
      rw [if_pos h]
      rw [show SigParams.adapt finalizeInitialParams n =
        .ok { label := some SIGNATURE_PARAMS_LABEL_BYTES, supported := n } from rfl]
      simp only [Except.bind]
      rw [ih n]
      simp only [List.foldl_cons]
      rw [if_pos h]
    · simp only [finalizeParamsLoop]
      rw [if_neg h, ih m]
      simp only [List.foldl_cons]
      rw [if_neg h]

/-- C2: in `finalize`'s first loop the running `maxAttribs` is indeed
the maximum of 2 and every credential's flattened-schema length, and
every signature statement receives parameters adapted to exactly its
credential's attribute count; but the builder's `sigParams` are never
replaced — `sigParams.adapt(numAttribs)` discards its result — so
after the loop they still support exactly the initial 2 messages, not
`maxAttribs`. -/
theorem C2_finalize_sigparams_stay_at_two (counts : List Nat) :
    finalizeSigParams counts =
      .ok (counts.foldl (fun a n => if a < n then n else a) 2, finalizeInitialParams) ∧
    finalizeInitialParams.supported = 2 ∧
    (∀ numAttribs, statementParams finalizeInitialParams numAttribs =
      .ok { label := some SIGNATURE_PARAMS_LABEL_BYTES, supported := numAttribs }) :=
  ⟨finalizeParamsLoop_const counts 2, rfl, fun _ => rfl⟩

/-- C2: on a single credential with three flattened attributes the
loop ends with `maxAttribs = 3` while the builder's parameters still
support only 2 messages. -/
theorem C2_finalize_sigparams_failing_input :
    finalizeSigParams [3] = .ok (3, finalizeInitialParams) ∧
    ¬((finalizeSigParams [3]).toOption.map (fun st => st.2.supported) = some 3) := by
  refine ⟨rfl, ?_⟩
  decide

theorem mem_addName (s : List String) (m n : String) : n ∈ addName s m ↔ n ∈ s ∨ n = m := by
  unfold addName
  by_cases h : s.contains m
  · rw [if_pos h]
    have hm : m ∈ s := by simpa using h
    constructor
    · exact Or.inl
    · rintro (hn | rfl)
      · exact hn
      · exact hm
  · rw [if_neg h]
    simp [List.mem_append]

theorem splitRevealedAux_spec {α : Type} (revealed : List String) :
    ∀ (entries : List (String × α)) (i : Nat),
      splitRevealedAux revealed i entries =
        ((List.enumFrom i entries).filterMap
          (fun p => if revealed.contains p.2.1 then some (p.1, p.2.2) else none),
         (List.enumFrom i entries).filterMap
          (fun p => if revealed.contains p.2.1 then none else some (p.1, p.2.2))) := by
  intro entries
  induction entries with
  | nil => intro i; rfl
  | cons e rest ih =>
    intro i
    obtain ⟨n, v⟩ := e
    by_cases hc : revealed.contains n
    · have hm : n ∈ revealed := by simpa using hc
      simp [splitRevealedAux, ih (i + 1), List.enumFrom, List.filterMap_cons, hc, hm]
    · have hm : ¬(n ∈ revealed) := by simpa using hc
      simp [splitRevealedAux, ih (i + 1), List.enumFrom, List.filterMap_cons, hc, hm]

/-- C3: for each credential, the revealed-name set contains exactly
the user-requested names plus `cryptoVersion` and the embedded schema
always, plus the status registry-id and revocation-check leaves if
and only if the credential has a status; and the flattened attribute
entries are split by position into the revealed map (positions whose
name is in the set) and the unrevealed map (all the others). -/
theorem C3_finalize_revealed_set (userRevealed : List String) (hasStatus : Bool) :
    (∀ n, n ∈ finalizeRevealedNames userRevealed hasStatus ↔
      (n ∈ userRevealed ∨ n = CRYPTO_VERSION_STR ∨ n = SCHEMA_STR ∨
        (hasStatus = true ∧ (n = STATUS_STR ++ "." ++ REGISTRY_ID_STR ∨
          n = STATUS_STR ++ "." ++ REV_CHECK_STR)))) ∧
    (∀ (entries : List (String × Nat)),
      getRevealedAndUnrevealed entries (finalizeRevealedNames userRevealed hasStatus) =
        ((entries.enum.filterMap (fun p =>
            if (finalizeRevealedNames userRevealed hasStatus).contains p.2.1 then
              some (p.1, p.2.2) else none)),
         (entries.enum.filterMap (fun p =>
            if (finalizeRevealedNames userRevealed hasStatus).contains p.2.1 then
              none else some (p.1, p.2.2))))) := by
  constructor
  · intro n
    cases hasStatus with
    | false =>
      simp only [finalizeRevealedNames, if_neg (by simp : ¬((false : Bool) = true))]
      rw [mem_addName, mem_addName]
      simp only [Bool.false_eq_true, false_and, or_false]
      tauto
    | true =>
      simp only [finalizeRevealedNames, if_pos trivial]
      rw [mem_addName, mem_addName, mem_addName, mem_addName]
      simp only [true_and]
      tauto
  · intro entries
    unfold getRevealedAndUnrevealed
    rw [splitRevealedAux_spec]
    rfl

/-- C4: each status-bearing credential yields exactly one accumulator
statement - a membership statement precisely when its revocation
check is the membership string, a non-membership statement otherwise -
with a witness-equality linking the flattened position of
`credentialStatus.revocationId` in signature statement `i` to
position 0 of the accumulator statement; missing status details and a
witness of the wrong variant are errors. -/
theorem C4_accumulator_statements (flatNames : List String) (sIdx i : Nat) (t : String)
    (value : Nat) :
    (credStatusStep flatNames sIdx i t value none =
      .error ("No status details found for credential index " ++ toString i)) ∧
    (∀ w acc pk, t = MEM_CHECK_STR →
      credStatusStep flatNames sIdx i t value (some (.membership w, acc, pk)) =
        .ok (AccStatement.membership pk acc, (value, AccWitness.membership w),
          ((i, jsIndexOf flatNames (STATUS_STR ++ "." ++ REV_ID_STR)), (sIdx, 0)))) ∧
    (∀ w acc pk, t = MEM_CHECK_STR →
      credStatusStep flatNames sIdx i t value (some (.nonMembership w, acc, pk)) =
        .error ("Expected membership witness but got non-membership witness for " ++
          "credential index " ++ toString i)) ∧
    (∀ w acc pk, ¬(t = MEM_CHECK_STR) →
      credStatusStep flatNames sIdx i t value (some (.nonMembership w, acc, pk)) =
        .ok (AccStatement.nonMembership pk acc, (value, AccWitness.nonMembership w),
          ((i, jsIndexOf flatNames (STATUS_STR ++ "." ++ REV_ID_STR)), (sIdx, 0)))) ∧
    (∀ w acc pk, ¬(t = MEM_CHECK_STR) →
      credStatusStep flatNames sIdx i t value (some (.membership w, acc, pk)) =
        .error ("Expected non-membership witness but got membership witness for " ++
          "credential index " ++ toString i)) := by
  refine ⟨rfl, ?_, ?_, ?_, ?_⟩
  · rintro w acc pk rfl
    rfl
  · rintro w acc pk rfl
    rfl
  · intro w acc pk ht
    simp only [credStatusStep]
    rw [if_neg ht]
    rfl
  · intro w acc pk ht
    simp only [credStatusStep]
    rw [if_neg ht]
    rfl

theorem C4_accumulator_statements_witness :
    ¬(("revocationStatus" : String) = MEM_CHECK_STR) ∧
    (credStatusStep [STATUS_STR ++ "." ++ REV_ID_STR] 5 0 MEM_CHECK_STR 7
        (some (.membership 3, 11, 13)) =
      .ok (AccStatement.membership 13 11, (7, AccWitness.membership 3),
        ((0, jsIndexOf [STATUS_STR ++ "." ++ REV_ID_STR]
          (STATUS_STR ++ "." ++ REV_ID_STR)), (5, 0)))) ∧
    (credStatusStep [] 5 0 "revocationStatus" 7 (some (.nonMembership 3, 11, 13)) =
      .ok (AccStatement.nonMembership 13 11, (7, AccWitness.nonMembership 3),
        ((0, jsIndexOf [] (STATUS_STR ++ "." ++ REV_ID_STR)), (5, 0)))) :=
  ⟨by decide,
   (C4_accumulator_statements [STATUS_STR ++ "." ++ REV_ID_STR] 5 0 MEM_CHECK_STR 7).2.1
     3 11 13 rfl,
   (C4_accumulator_statements [] 5 0 "revocationStatus" 7).2.2.2.1 3 11 13 (by decide)⟩

theorem jsIndexOf_eq_neg_one (l : List String) (x : String) :
    jsIndexOf l x = -1 ↔ ¬(x ∈ l) := by
  unfold jsIndexOf
  by_cases h : x ∈ l
  · rw [if_pos h]
    constructor
    · intro hcon
      have h0 : (0 : Int) ≤ (l.indexOf x : Int) := Int.natCast_nonneg _
      omega
    · intro hcon
      exact absurd h hcon
  · rw [if_neg h]
    simp [h]

/-- C7: an attribute-equality request resolves to the witness
references at the flattened positions of the named subject attributes
when every name is present, and raises an error whenever some named
attribute is absent from its credential's flattened schema. -/
theorem C7_attribute_equalities (flatNames : List (List String))
    (eql : List (Nat × String)) :
    ((∀ p ∈ eql, SUBJECT_STR ++ "." ++ p.2 ∈ flatNames.getD p.1 []) →
      resolveEquality flatNames eql =
        .ok (eql.map fun p => (p.1,
          jsIndexOf (flatNames.getD p.1 []) (SUBJECT_STR ++ "." ++ p.2)))) ∧
    ((∃ p ∈ eql, ¬(SUBJECT_STR ++ "." ++ p.2 ∈ flatNames.getD p.1 [])) →
      ∃ msg, resolveEquality flatNames eql = .error msg) := by
  induction eql with
  | nil =>
    constructor
    · intro _
      rfl
    · rintro ⟨p, hp, _⟩
      exact absurd hp (by simp)
  | cons e rest ih =>
    obtain ⟨c, nm⟩ := e
    constructor
    · intro hall
      have h1 := hall (c, nm) (List.mem_cons_self _ _)
      have hne : ¬(jsIndexOf (flatNames.getD c []) (SUBJECT_STR ++ "." ++ nm) = -1) := by
        rw [jsIndexOf_eq_neg_one]
        simpa using h1
      simp only [resolveEquality]
      rw [if_neg hne, ih.1 (fun p hp => hall p (List.mem_cons_of_mem _ hp))]
      rfl
    · rintro ⟨p, hp, hnp⟩
      rcases List.mem_cons.mp hp with rfl | hp2
      · have hi : jsIndexOf (flatNames.getD c []) (SUBJECT_STR ++ "." ++ nm) = -1 := by
          rw [jsIndexOf_eq_neg_one]
          simpa using hnp
        refine ⟨"Attribute name " ++ nm ++ " was not found", ?_⟩
        simp only [resolveEquality]
        rw [if_pos hi]
        rfl
      · by_cases hi : jsIndexOf (flatNames.getD c []) (SUBJECT_STR ++ "." ++ nm) = -1
        · refine ⟨"Attribute name " ++ nm ++ " was not found", ?_⟩
          simp only [resolveEquality]
          rw [if_pos hi]
          rfl
        · obtain ⟨msg, hmsg⟩ := ih.2 ⟨p, hp2, hnp⟩
          refine ⟨msg, ?_⟩
          simp only [resolveEquality]
          rw [if_neg hi, hmsg]
          rfl

theorem C7_attribute_equalities_witness :
    resolveEquality [[SUBJECT_STR ++ ".fname"]] [(0, "fname")] =
      .ok [(0, jsIndexOf [SUBJECT_STR ++ ".fname"] (SUBJECT_STR ++ ".fname"))] ∧
    (∃ msg, resolveEquality [[]] [(0, "missing")] = .error msg) :=
  ⟨(C7_attribute_equalities [[SUBJECT_STR ++ ".fname"]] [(0, "fname")]).1 (by decide),
   (C7_attribute_equalities [[]] [(0, "missing")]).2 ⟨(0, "missing"), by decide, by decide⟩⟩

/-- C8 (amended): the index-taking builder operations raise exactly
when the index is at least the number of credentials - raising before
any mutation, so the state is unchanged - while every smaller index,
negative ones included, passes validation. -/
theorem C8_index_validation (st : BuilderState) (credIdx : Int) (names : List String)
    (nm : String) (eqrest : List (Int × String)) (wit : AccWitness) (acc pk : Nat) :
    ((st.credentialsCount : Int) ≤ credIdx →
      (∃ msg, validateCredIndex st credIdx = .error msg) ∧
      (∃ msg, markAttributesRevealed st credIdx names = .error msg) ∧
      (∃ msg, markAttributesEqual st ((credIdx, nm) :: eqrest) = .error msg) ∧
      (∃ msg, addAccumInfoForCredStatus st credIdx wit acc pk = .error msg)) ∧
    (credIdx < (st.credentialsCount : Int) →
      validateCredIndex st credIdx = .ok ()) := by
  constructor
  · intro h
    have hv : validateCredIndex st credIdx =
        .error ("Invalid credential index " ++ toString credIdx ++
          ". Number of credentials is " ++ toString st.credentialsCount) := by
      unfold validateCredIndex
      rw [if_pos h]
      rfl
    refine ⟨⟨_, hv⟩, ?_, ?_, ?_⟩
    · refine ⟨"Invalid credential index " ++ toString credIdx ++
        ". Number of credentials is " ++ toString st.credentialsCount, ?_⟩
      unfold markAttributesRevealed
      rw [hv]
      rfl
    · refine ⟨"Invalid credential index " ++ toString credIdx ++
        ". Number of credentials is " ++ toString st.credentialsCount, ?_⟩
      unfold markAttributesEqual validateRefs
      rw [hv]
      rfl
    · refine ⟨"Invalid credential index " ++ toString credIdx ++
        ". Number of credentials is " ++ toString st.credentialsCount, ?_⟩
      unfold addAccumInfoForCredStatus
      rw [hv]
      rfl
  · intro h
    unfold validateCredIndex
    rw [if_neg (by omega)]
    rfl

/-- C8: with one credential added, the out-of-range index `-1` is
accepted by `validateCredIndex` and `markAttributesRevealed`
proceeds, recording names under index `-1`, refuting the claim that
every index outside `[0, count)` raises. -/
theorem C8_negative_index_accepted_counterexample :
    validateCredIndex C8exampleState (-1) = .ok () ∧
    markAttributesRevealed C8exampleState (-1) ["a"] =
      .ok { C8exampleState with
            revealedAttributes := [(-1, [SUBJECT_STR ++ ".a"])] } ∧
    ¬(0 ≤ (-1 : Int) ∧ (-1 : Int) < (C8exampleState.credentialsCount : Int)) := by
  refine ⟨rfl, rfl, by decide⟩

theorem C8_index_validation_witness :
    ((∃ msg, validateCredIndex C8exampleState 5 = .error msg) ∧
      (∃ msg, markAttributesRevealed C8exampleState 5 ["a"] = .error msg) ∧
      (∃ msg, markAttributesEqual C8exampleState [(5, "a")] = .error msg) ∧
      (∃ msg, addAccumInfoForCredStatus C8exampleState 5 (.membership 0) 1 2 = .error msg)) ∧
    validateCredIndex C8exampleState 0 = .ok () :=
  ⟨(C8_index_validation C8exampleState 5 ["a"] "a" [] (.membership 0) 1 2).1 (by decide),
   (C8_index_validation C8exampleState 0 ["a"] "a" [] (.membership 0) 1 2).2 (by decide)⟩

/-- C9: materializing a `QuasiProofSpecG1` yields exactly the value
the direct `ProofSpecG1` constructor produces on the same statements,
meta-statements, setup-params and context - the same backend function
applied to the same decoded inputs - including when the quasi spec
was built with every collection omitted; so proofs generated or
verified through the quasi path see an identical proof spec. -/
theorem C9_quasi_proof_spec_equivalence {σ μ π κ ν : Type}
    (gen : List σ → List μ → List π → Option κ → ν) (stmts : List σ) (metas : List μ)
    (sps : List (SetupParam π)) (ctx : Option κ) :
    (QuasiProofSpecG1.toProofSpec gen
        (newQuasiProofSpecG1 (some stmts) (some metas) (some sps) ctx) =
      newProofSpecG1 gen stmts metas (some sps) ctx) ∧
    (newProofSpecG1 gen stmts metas (some sps) ctx =
      gen stmts metas (sps.map (fun s => s.value)) ctx) ∧
    (QuasiProofSpecG1.toProofSpec gen (newQuasiProofSpecG1 none none none ctx) =
      newProofSpecG1 gen [] [] (some []) ctx) :=
  ⟨rfl, rfl, rfl⟩

theorem exceptThrow_eq_error {α : Type} (s : String) :
    (throw s : Except String α) = .error s := rfl

theorem tStep_ok_inv (st0 : TState) (op : TOp) (st1 : TState)
    (hstep : tStep st0 op = .ok st1) :
    (st1.round2State = st0.round2State ∨
      (∃ r, op = .startRound2 r ∧ st0.round1Output.isSome = true) ∨
      st0.round2State.isSome = true) ∧
    (st1.round1State = st0.round1State ∨ (∃ r, op = .startRound1 r) ∨
      st0.round1State.isSome = true) ∧
    (st1.round1Output = st0.round1Output ∨ st0.round1State.isSome = true) := by
  cases op with
  | startRound1 r =>
    have h : st1 = { st0 with round1State := some r } := by
      rw [show tStep st0 (.startRound1 r) = .ok { st0 with round1State := some r } from rfl]
        at hstep
      injection hstep with h
      exact h.symm
    subst h
    exact ⟨Or.inl rfl, Or.inr (Or.inl ⟨r, rfl⟩), Or.inl rfl⟩
  | processReceivedCommitments r =>
    by_cases hg : st0.hasStarted
    · have h : st1 = { st0 with round1State := some r } := by
        rw [show tStep st0 (.processReceivedCommitments r) =
          .ok { st0 with round1State := some r } from by
          simp [tStep, ensureRound1Started, hg, Except.map, exceptPure_eq_ok]] at hstep
        injection hstep with h
        exact h.symm
      subst h
      exact ⟨Or.inl rfl, Or.inr (Or.inr hg), Or.inl rfl⟩
    · rw [show tStep st0 (.processReceivedCommitments r) =
        .error "Round 1 has not started yet" from by
        simp [tStep, ensureRound1Started, hg, Except.map, exceptThrow_eq_error]] at hstep
      exact absurd hstep (by simp)
  | getSharesForOtherSigner =>
    by_cases hg : st0.hasStarted
    · have h : st1 = st0 := by
        rw [show tStep st0 .getSharesForOtherSigner = .ok st0 from by
          simp [tStep, ensureRound1Started, hg, Except.map, exceptPure_eq_ok]] at hstep
        injection hstep with h
        exact h.symm
      subst h
      exact ⟨Or.inl rfl, Or.inl rfl, Or.inl rfl⟩
    · rw [show tStep st0 .getSharesForOtherSigner = .error "Round 1 has not started yet" from by
        simp [tStep, ensureRound1Started, hg, Except.map, exceptThrow_eq_error]] at hstep
      exact absurd hstep (by simp)
  | getSharesForOtherSigners =>
    by_cases hg : st0.hasStarted
    · have h : st1 = st0 := by
        rw [show tStep st0 .getSharesForOtherSigners = .ok st0 from by
          simp [tStep, ensureRound1Started, hg, Except.map, exceptPure_eq_ok]] at hstep
        injection hstep with h
        exact h.symm
      subst h
      exact ⟨Or.inl rfl, Or.inl rfl, Or.inl rfl⟩
    · rw [show tStep st0 .getSharesForOtherSigners =
        .error "Round 1 has not started yet" from by
        simp [tStep, ensureRound1Started, hg, Except.map, exceptThrow_eq_error]] at hstep
      exact absurd hstep (by simp)
  | processReceivedShares r =>
    by_cases hg : st0.hasStarted
    · have h : st1 = { st0 with round1State := some r } := by
        rw [show tStep st0 (.processReceivedShares r) =
          .ok { st0 with round1State := some r } from by
          simp [tStep, ensureRound1Started, hg, Except.map, exceptPure_eq_ok]] at hstep
        injection hstep with h
        exact h.symm
      subst h
      exact ⟨Or.inl rfl, Or.inr (Or.inr hg), Or.inl rfl⟩
    · rw [show tStep st0 (.processReceivedShares r) =
        .error "Round 1 has not started yet" from by
        simp [tStep, ensureRound1Started, hg, Except.map, exceptThrow_eq_error]] at hstep
      exact absurd hstep (by simp)
  | finishR1 r =>
    by_cases hg : st0.hasStarted
    · have h : st1 = { st0 with round1Output := some r } := by
        rw [show tStep st0 (.finishR1 r) = .ok { st0 with round1Output := some r } from by
          simp [tStep, ensureRound1Started, hg, Except.map, exceptPure_eq_ok]] at hstep
        injection hstep with h
        exact h.symm
      subst h
      exact ⟨Or.inl rfl, Or.inl rfl, Or.inr hg⟩
    · rw [show tStep st0 (.finishR1 r) = .error "Round 1 has not started yet" from by
        simp [tStep, ensureRound1Started, hg, Except.map, exceptThrow_eq_error]] at hstep
      exact absurd hstep (by simp)
  | startRound2 r =>
    by_cases hg : st0.hasFinishedRound1
    · have h : st1 = { st0 with round2State := some r } := by
        rw [show tStep st0 (.startRound2 r) = .ok { st0 with round2State := some r } from by
          simp [tStep, ensureRound1Finished, hg, Except.map, exceptPure_eq_ok]] at hstep
        injection hstep with h
        exact h.symm
      subst h
      exact ⟨Or.inr (Or.inl ⟨r, rfl, hg⟩), Or.inl rfl, Or.inl rfl⟩
    · rw [show tStep st0 (.startRound2 r) = .error "Round 1 has not finished yet" from by
        simp [tStep, ensureRound1Finished, hg, Except.map, exceptThrow_eq_error]] at hstep
      exact absurd hstep (by simp)
  | processReceivedMsg1 r =>
    by_cases hg : st0.hasStartedRound2
    · have h : st1 = { st0 with round2State := some r } := by
        rw [show tStep st0 (.processReceivedMsg1 r) =
          .ok { st0 with round2State := some r } from by
          simp [tStep, ensureRound2Started, hg, Except.map, exceptPure_eq_ok]] at hstep
        injection hstep with h
        exact h.symm
      subst h
      exact ⟨Or.inr (Or.inr hg), Or.inl rfl, Or.inl rfl⟩
    · rw [show tStep st0 (.processReceivedMsg1 r) =
        .error "Round 2 has not started yet" from by
        simp [tStep, ensureRound2Started, hg, Except.map, exceptThrow_eq_error]] at hstep
      exact absurd hstep (by simp)
  | processReceivedMsg2 r =>
    by_cases hg : st0.hasStartedRound2
    · have h : st1 = { st0 with round2State := some r } := by
        rw [show tStep st0 (.processReceivedMsg2 r) =
          .ok { st0 with round2State := some r } from by
          simp [tStep, ensureRound2Started, hg, Except.map, exceptPure_eq_ok]] at hstep
        injection hstep with h
        exact h.symm
      subst h
      exact ⟨Or.inr (Or.inr hg), Or.inl rfl, Or.inl rfl⟩
    · rw [show tStep st0 (.processReceivedMsg2 r) =
        .error "Round 2 has not started yet" from by
        simp [tStep, ensureRound2Started, hg, Except.map, exceptThrow_eq_error]] at hstep
      exact absurd hstep (by simp)
  | finishRound2 r =>
    by_cases hg : st0.hasStartedRound2
    · have h : st1 = { st0 with round2Output := some r } := by
        rw [show tStep st0 (.finishRound2 r) = .ok { st0 with round2Output := some r } from by
          simp [tStep, ensureRound2Started, hg, Except.map, exceptPure_eq_ok]] at hstep
        injection hstep with h
        exact h.symm
      subst h
      exact ⟨Or.inl rfl, Or.inl rfl, Or.inl rfl⟩
    · rw [show tStep st0 (.finishRound2 r) = .error "Round 2 has not started yet" from by
        simp [tStep, ensureRound2Started, hg, Except.map, exceptThrow_eq_error]] at hstep
      exact absurd hstep (by simp)

theorem runTrace_round1_none : ∀ (trace : List TOp) (st0 st : TState),
    st0.round1State = none → runTrace st0 trace = .ok st →
    (∀ op ∈ trace, ∀ r, ¬(op = TOp.startRound1 r)) → st.round1State = none := by
  intro trace
  induction trace with
  | nil =>
    intro st0 st h0 hrun hno
    rw [show runTrace st0 [] = .ok st0 from rfl] at hrun
    injection hrun with h
    rw [← h]
    exact h0
  | cons op rest ih =>
    intro st0 st h0 hrun hno
    simp only [runTrace] at hrun
    cases hstep : tStep st0 op with
    | error e =>
      rw [hstep] at hrun
      exact absurd hrun (by simp [Except.bind])
    | ok st1 =>
      rw [hstep] at hrun
      simp only [Except.bind] at hrun
      have hinv := (tStep_ok_inv st0 op st1 hstep).2.1
      have h1 : st1.round1State = none := by
        rcases hinv with he | ⟨r, rfl⟩ | hs
        · rw [he]
          exact h0
        · exact absurd rfl (hno _ (List.mem_cons_self _ _) r)
        · rw [h0] at hs
          exact absurd hs (by simp)
      exact ih st1 st h1 hrun (fun o ho r => hno o (List.mem_cons_of_mem _ ho) r)

theorem runTrace_round2_none : ∀ (trace : List TOp) (st0 st : TState),
    st0.round2State = none → runTrace st0 trace = .ok st →
    (∀ op ∈ trace, ∀ r, ¬(op = TOp.startRound2 r)) → st.round2State = none := by
  intro trace
  induction trace with
  | nil =>
    intro st0 st h0 hrun hno
    rw [show runTrace st0 [] = .ok st0 from rfl] at hrun
    injection hrun with h
    rw [← h]
    exact h0
  | cons op rest ih =>
    intro st0 st h0 hrun hno
    simp only [runTrace] at hrun
    cases hstep : tStep st0 op with
    | error e =>
      rw [hstep] at hrun
      exact absurd hrun (by simp [Except.bind])
    | ok st1 =>
      rw [hstep] at hrun
      simp only [Except.bind] at hrun
      have hinv := (tStep_ok_inv st0 op st1 hstep).1
      have h1 : st1.round2State = none := by
        rcases hinv with he | ⟨r, rfl, _⟩ | hs
        · rw [he]
          exact h0
        · exact absurd rfl (hno _ (List.mem_cons_self _ _) r)
        · rw [h0] at hs
          exact absurd hs (by simp)
      exact ih st1 st h1 hrun (fun o ho r => hno o (List.mem_cons_of_mem _ ho) r)

/-- C10: the `ensure*` guards make `ThresholdSigner` a round-ordered
state machine.  In any state without a round-1 state, the commitment
and share methods throw; without a round-1 output, `startRound2`
throws; without a round-2 state, the round-2 message handlers and
`finishRound2` throw.  And in every state reachable from a fresh
signer by a call sequence that never calls `startRound1`
(respectively `startRound2`), the round-1 state (respectively
round-2 state) is still absent, so those methods can never succeed
before their round starts. -/
theorem C10_threshold_round_ordering :
    (∀ st : TState, st.round1State = none →
      (∀ r, tStep st (.processReceivedCommitments r) =
        .error "Round 1 has not started yet") ∧
      tStep st .getSharesForOtherSigner = .error "Round 1 has not started yet" ∧
      tStep st .getSharesForOtherSigners = .error "Round 1 has not started yet" ∧
      (∀ r, tStep st (.processReceivedShares r) = .error "Round 1 has not started yet")) ∧
    (∀ st : TState, st.round1Output = none →
      ∀ r, tStep st (.startRound2 r) = .error "Round 1 has not finished yet") ∧
    (∀ st : TState, st.round2State = none →
      (∀ r, tStep st (.processReceivedMsg1 r) = .error "Round 2 has not started yet") ∧
      (∀ r, tStep st (.processReceivedMsg2 r) = .error "Round 2 has not started yet") ∧
      (∀ r, tStep st (.finishRound2 r) = .error "Round 2 has not started yet")) ∧
    (∀ (trace : List TOp) (st : TState), runTrace initialTState trace = .ok st →
      ((∀ op ∈ trace, ∀ r, ¬(op = TOp.startRound1 r)) → st.round1State = none) ∧
      ((∀ op ∈ trace, ∀ r, ¬(op = TOp.startRound2 r)) → st.round2State = none)) := by
  refine ⟨?_, ?_, ?_, ?_⟩
  · intro st h
    refine ⟨fun r => ?_, ?_, ?_, fun r => ?_⟩ <;>
      simp [tStep, ensureRound1Started, TState.hasStarted, h, Except.map,
        exceptThrow_eq_error]
  · intro st h r
    simp [tStep, ensureRound1Finished, TState.hasFinishedRound1, h, Except.map,
      exceptThrow_eq_error]
  · intro st h
    refine ⟨fun r => ?_, fun r => ?_, fun r => ?_⟩ <;>
      simp [tStep, ensureRound2Started, TState.hasStartedRound2, h, Except.map,
        exceptThrow_eq_error]
  · intro trace st hrun
    exact ⟨runTrace_round1_none trace initialTState st rfl hrun,
           runTrace_round2_none trace initialTState st rfl hrun⟩

theorem C10_threshold_round_ordering_witness :
    tStep initialTState (.processReceivedCommitments 5) =
      .error "Round 1 has not started yet" ∧
    tStep initialTState (.startRound2 7) = .error "Round 1 has not finished yet" ∧
    tStep initialTState (.finishRound2 9) = .error "Round 2 has not started yet" ∧
    (runTrace initialTState [.startRound1 3, .processReceivedShares 4, .finishR1 6] =
      .ok ⟨some 4, some 6, none, none⟩) ∧
    (⟨some 4, some 6, none, none⟩ : TState).round2State = none :=
  ⟨(C10_threshold_round_ordering.1 initialTState rfl).1 5,
   C10_threshold_round_ordering.2.1 initialTState rfl 7,
   (C10_threshold_round_ordering.2.2.1 initialTState rfl).2.2 9,
   by rfl,
   (C10_threshold_round_ordering.2.2.2
     [.startRound1 3, .processReceivedShares 4, .finishR1 6]
     ⟨some 4, some 6, none, none⟩ (by rfl)).2 (by
       intro op ho r
       fin_cases ho <;> simp)⟩

end CWT
